import Mathlib

/-!
# Option pricing engines: Monte Carlo (GBM), Heston, finite-difference Greeks

A shallow embedding of `include/Option.h`, `include/EuropeanOption.h`,
`include/Utils.h`, `include/MonteCarlo.h`, `include/HestonMC.h`,
`include/MonteCarloGreeks.h`, `include/BlackScholes.h` and
`include/ImpliedVolatility.h`.

Conventions of the embedding.

* `double` is an arbitrary linearly ordered field `α`; the theorems instantiate
  it with `ℝ`, i.e. they speak about the code in exact real arithmetic.
* `std::exp`, `std::sqrt` and `std::log` are passed as the parameters `exp`,
  `sqrt` and `log`; the theorems instantiate them with `Real.exp`, `Real.sqrt`
  and `Real.log`.
* `std::mt19937` together with `std::normal_distribution` is the parameter
  `normal : Nat → Nat → α`: `normal s k` is the value of the `k`-th call
  (counting from 0) of `getNormal()` on a generator seeded with `s`.
* `int` is `Int`, `unsigned int` is `Nat` reduced modulo `2 ^ 32`.
* An OpenMP parallel region is an `OmpTeam`: the number of threads and, for a
  work-shared loop, the thread that executes each iteration. Every thread folds
  the loop body over its own iterations, starting from a private zero
  accumulator and its own generator; the `reduction(+:...)` clause adds the
  private accumulators to the original variable.
* Two properties depend on what a `double` is beyond a real number, and for them
  the code concerned is embedded a second time: the Heston time step on `Double`,
  numbers extended by NaN with exact arithmetic on numbers, and the GBM engine
  with the finite-difference gamma in rounded arithmetic, where a function `fl`
  rounds the result of every operation (`binary64` is the rounding of IEEE 754
  doubles). With numbers only, respectively with `fl` the identity, the second
  embedding is the first.
-/

namespace QuantPricing

variable {α : Type}

/-! ## Option.h / EuropeanOption.h -/

/-- Enumeration for option type. -/
inductive OptionType
  | CALL
  | PUT
deriving DecidableEq, Repr

/-- Abstract base class `Option`: the three protected fields and the virtual
method `payoff` as a field. -/
structure Option (α : Type) where
  strike_ : α
  maturity_ : α
  type_ : OptionType
  payoff : α → α

/-- Getter `Option::getMaturity`. -/
def Option.getMaturity (o : Option α) : α := o.maturity_

/-- Getter `Option::getStrike`. -/
def Option.getStrike (o : Option α) : α := o.strike_

/-- Payoff override `EuropeanOption::payoff`. -/
def EuropeanOption.payoff [LinearOrderedField α] (strike_ : α) (type_ : OptionType)
    (spot : α) : α :=
  if type_ = OptionType.CALL then
    max (spot - strike_) 0
  else
    max (strike_ - spot) 0

/-- Constructor `EuropeanOption(strike, maturity, type)`. -/
def EuropeanOption [LinearOrderedField α] (strike maturity : α) (type : OptionType) :
    Option α :=
  ⟨strike, maturity, type, EuropeanOption.payoff strike type⟩

/-! ## Utils.h: RandomGenerator -/

/-- State of a `RandomGenerator`: the seed the engine was constructed with and
the number of `getNormal()` calls made since. -/
structure RandomGenerator where
  seed : Nat
  calls : Nat
deriving DecidableEq, Repr

/-- Constructor `RandomGenerator(unsigned int seed = 42)`: the argument is
converted to `unsigned int`. -/
def RandomGenerator.new (seed : Int := 42) : RandomGenerator :=
  ⟨(seed % 2 ^ 32).toNat, 0⟩

/-- Method `RandomGenerator::getNormal`: returns the next draw and advances the
generator. -/
def RandomGenerator.getNormal (normal : Nat → Nat → α) (g : RandomGenerator) :
    α × RandomGenerator :=
  (normal g.seed g.calls, ⟨g.seed, g.calls + 1⟩)

/-! ## OpenMP team -/

/-- One execution of a parallel region with a work-shared loop:
`num_threads` threads, iteration `i` is run by thread `owner i`. -/
structure OmpTeam where
  num_threads : Nat
  owner : Nat → Fin num_threads

/-- The team of a run on a single thread: thread 0 executes every iteration. -/
def OmpTeam.serial : OmpTeam :=
  ⟨1, fun _ => 0⟩

/-- The iterations of `for (i = 0; i < loops; ++i)` that thread `t` executes, in
increasing order. -/
def OmpTeam.assigned (team : OmpTeam) (loops : Nat) (t : Nat) : List Nat :=
  (List.range loops).filter (fun i => (team.owner i).val = t)

/-! ## MonteCarlo.h -/

/-- The two reduction variables of `MonteCarloPricer::price`. -/
structure Sums (α : Type) where
  sum_payoffs : α
  sum_sq_payoffs : α

/-- The combiner of `reduction(+:sum_payoffs, sum_sq_payoffs)`. -/
def Sums.add [LinearOrderedField α] (a b : Sums α) : Sums α :=
  ⟨a.sum_payoffs + b.sum_payoffs, a.sum_sq_payoffs + b.sum_sq_payoffs⟩

/-- Class `MonteCarloPricer`: the stored path count and base seed. -/
structure MonteCarloPricer where
  num_sims_ : Int
  seed_ : Nat
deriving DecidableEq, Repr

/-- Constructor `MonteCarloPricer(int num_sims, unsigned int seed = 42)`. -/
def MonteCarloPricer.new (num_sims : Int) (seed : Nat := 42) : MonteCarloPricer :=
  ⟨num_sims, seed % 2 ^ 32⟩

/-- Method `MonteCarloPricer::setSeed`. -/
def MonteCarloPricer.setSeed (self : MonteCarloPricer) (seed : Nat) : MonteCarloPricer :=
  ⟨self.num_sims_, seed % 2 ^ 32⟩

/-- Method `MonteCarloPricer::setNumSimulations`. -/
def MonteCarloPricer.setNumSimulations (self : MonteCarloPricer) (n : Int) :
    MonteCarloPricer :=
  ⟨n, self.seed_⟩

/-- Body of the loop of `MonteCarloPricer::price` (lines 55-71), acting on the
thread's generator and its private accumulators. -/
def MonteCarloPricer.loopBody [LinearOrderedField α] (exp : α → α) (normal : Nat → Nat → α)
    (option : Option α) (spot drift diffusion : α) (use_antithetic : Bool)
    (st : RandomGenerator × Sums α) : RandomGenerator × Sums α :=
  let (Z, local_rng) := st.1.getNormal normal
  let S_T1 := spot * exp (drift + diffusion * Z)
  let payoff1 := option.payoff S_T1
  if use_antithetic then
    let S_T2 := spot * exp (drift + diffusion * (-Z))
    let payoff2 := option.payoff S_T2
    (local_rng, ⟨st.2.sum_payoffs + (payoff1 + payoff2),
      st.2.sum_sq_payoffs + (payoff1 * payoff1 + payoff2 * payoff2)⟩)
  else
    (local_rng, ⟨st.2.sum_payoffs + payoff1, st.2.sum_sq_payoffs + payoff1 * payoff1⟩)

/-- What thread `thread_id` does inside the parallel region of
`MonteCarloPricer::price` (lines 46-73): it builds its own generator from
`seed_ + thread_id + 1` and runs the loop body once for each of its iterations. -/
def MonteCarloPricer.threadRun [LinearOrderedField α] (exp : α → α) (normal : Nat → Nat → α)
    (team : OmpTeam) (seed_ : Nat) (loops : Int)
    (option : Option α) (spot drift diffusion : α) (use_antithetic : Bool)
    (thread_id : Nat) : RandomGenerator × Sums α :=
  let local_rng := RandomGenerator.new ((seed_ : Int) + (thread_id : Int) + 1)
  (team.assigned loops.toNat thread_id).foldl
    (fun st _ => MonteCarloPricer.loopBody exp normal option spot drift diffusion
      use_antithetic st)
    (local_rng, ⟨0, 0⟩)

/-- The parallel region of `MonteCarloPricer::price` with its reduction: the
private sums of all threads are added to the initial values. -/
def MonteCarloPricer.parallelRegion [LinearOrderedField α] (exp : α → α)
    (normal : Nat → Nat → α) (team : OmpTeam) (seed_ : Nat) (loops : Int)
    (option : Option α) (spot drift diffusion : α) (use_antithetic : Bool)
    (init : Sums α) : Sums α :=
  (List.range team.num_threads).foldl
    (fun acc thread_id => acc.add
      (MonteCarloPricer.threadRun exp normal team seed_ loops option spot drift diffusion
        use_antithetic thread_id).2)
    init

/-- Number of loop iterations of `MonteCarloPricer::price` (line 40); `int`
division truncates toward zero. -/
def MonteCarloPricer.loops (self : MonteCarloPricer) (use_antithetic : Bool) : Int :=
  if use_antithetic then Int.tdiv self.num_sims_ 2 else self.num_sims_

/-- Path count used for normalisation in `MonteCarloPricer::price` (line 41). -/
def MonteCarloPricer.actual_sims (self : MonteCarloPricer) (use_antithetic : Bool) : Int :=
  if use_antithetic then self.loops use_antithetic * 2 else self.num_sims_

/-- Floored variance of `MonteCarloPricer::price` (lines 77, 81-83). -/
def MonteCarloPricer.variance [LinearOrderedField α] (sums : Sums α) (actual_sims : Int) : α :=
  let mean_payoff := sums.sum_payoffs / (actual_sims : α)
  let variance := (sums.sum_sq_payoffs / (actual_sims : α)) - (mean_payoff * mean_payoff)
  if variance < 0 then 0 else variance

/-- Tail of `MonteCarloPricer::price` (lines 76-87): from the accumulated sums to
the returned pair. -/
def MonteCarloPricer.estimate [LinearOrderedField α] (sqrt : α → α) (sums : Sums α)
    (actual_sims : Int) (discount_factor : α) : α × α :=
  let mean_payoff := sums.sum_payoffs / (actual_sims : α)
  let estimated_price := mean_payoff * discount_factor
  let variance := MonteCarloPricer.variance sums actual_sims
  let std_error := (sqrt variance / sqrt (actual_sims : α)) * discount_factor
  (estimated_price, std_error)

/-- Method `MonteCarloPricer::price`; `use_antithetic` is `true` when omitted. -/
def MonteCarloPricer.price [LinearOrderedField α] (exp sqrt : α → α) (normal : Nat → Nat → α)
    (team : OmpTeam) (self : MonteCarloPricer)
    (option : Option α) (spot rate volatility : α) (use_antithetic : Bool := true) : α × α :=
  let T := option.getMaturity
  let drift := (rate - 0.5 * volatility * volatility) * T
  let diffusion := volatility * sqrt T
  let discount_factor := exp (-rate * T)
  let loops := self.loops use_antithetic
  let actual_sims := self.actual_sims use_antithetic
  let sums := MonteCarloPricer.parallelRegion exp normal team self.seed_ loops option spot
    drift diffusion use_antithetic ⟨0, 0⟩
  MonteCarloPricer.estimate sqrt sums actual_sims discount_factor


/-! ## HestonMC.h -/

/-- Class `HestonPricer`: the stored path count and number of time steps. -/
structure HestonPricer where
  num_sims_ : Int
  num_steps_ : Int
deriving DecidableEq, Repr

/-- Constructor `HestonPricer(int num_sims, int num_steps = 100)`. -/
def HestonPricer.new (num_sims : Int) (num_steps : Int := 100) : HestonPricer :=
  ⟨num_sims, num_steps⟩

/-- The variables that the time-stepping loop of `HestonPricer::price` updates:
the thread's generator, the asset price `S` and the stored variance `v`. -/
structure HestonPricer.PathState (α : Type) where
  rng : RandomGenerator
  S : α
  v : α

/-- Body of the time-stepping loop of `HestonPricer::price` (lines 57-74). -/
def HestonPricer.timeStep [LinearOrderedField α] (exp sqrt : α → α) (normal : Nat → Nat → α)
    (rate kappa theta xi dt sqrt_dt c1 c2 : α)
    (st : HestonPricer.PathState α) : HestonPricer.PathState α :=
  let (Z1, rng) := st.rng.getNormal normal
  let (Z2, rng) := rng.getNormal normal
  let dWs := Z1 * sqrt_dt
  let dWv := (c1 * Z1 + c2 * Z2) * sqrt_dt
  let v_curr := max st.v 0
  let dv := kappa * (theta - v_curr) * dt + xi * sqrt v_curr * dWv
  let v := st.v + dv
  let drift := (rate - 0.5 * v_curr) * dt
  let diffusion := sqrt v_curr * dWs
  let S := st.S * exp (drift + diffusion)
  ⟨rng, S, v⟩

/-- The time-stepping loop of `HestonPricer::price` (lines 52-75) for one path:
from `S = spot`, `v = v0` through `num_steps_` time steps. -/
def HestonPricer.simulatePath [LinearOrderedField α] (exp sqrt : α → α)
    (normal : Nat → Nat → α) (num_steps_ : Int)
    (spot rate v0 kappa theta xi dt sqrt_dt c1 c2 : α)
    (rng : RandomGenerator) : HestonPricer.PathState α :=
  (List.range num_steps_.toNat).foldl
    (fun st _ => HestonPricer.timeStep exp sqrt normal rate kappa theta xi dt sqrt_dt c1 c2 st)
    ⟨rng, spot, v0⟩

/-- Body of the path loop of `HestonPricer::price` (lines 52-77), acting on the
thread's generator and its private payoff sum. -/
def HestonPricer.loopBody [LinearOrderedField α] (exp sqrt : α → α) (normal : Nat → Nat → α)
    (num_steps_ : Int) (option : Option α)
    (spot rate v0 kappa theta xi dt sqrt_dt c1 c2 : α)
    (st : RandomGenerator × α) : RandomGenerator × α :=
  let last := HestonPricer.simulatePath exp sqrt normal num_steps_ spot rate v0 kappa theta xi
    dt sqrt_dt c1 c2 st.1
  (last.rng, st.2 + option.payoff last.S)

/-- What thread `thread_id` does inside the parallel region of
`HestonPricer::price` (lines 46-79): it builds its own generator from
`42 + thread_id` and simulates each of its paths in turn. -/
def HestonPricer.threadRun [LinearOrderedField α] (exp sqrt : α → α) (normal : Nat → Nat → α)
    (team : OmpTeam) (self : HestonPricer) (option : Option α)
    (spot rate v0 kappa theta xi dt sqrt_dt c1 c2 : α)
    (thread_id : Nat) : RandomGenerator × α :=
  let rng := RandomGenerator.new (42 + (thread_id : Int))
  (team.assigned self.num_sims_.toNat thread_id).foldl
    (fun st _ => HestonPricer.loopBody exp sqrt normal self.num_steps_ option spot rate v0
      kappa theta xi dt sqrt_dt c1 c2 st)
    (rng, 0)

/-- The parallel region of `HestonPricer::price` with its reduction: the private
sums of all threads are added to the initial value. -/
def HestonPricer.parallelRegion [LinearOrderedField α] (exp sqrt : α → α)
    (normal : Nat → Nat → α) (team : OmpTeam) (self : HestonPricer) (option : Option α)
    (spot rate v0 kappa theta xi dt sqrt_dt c1 c2 : α) (init : α) : α :=
  (List.range team.num_threads).foldl
    (fun acc thread_id => acc +
      (HestonPricer.threadRun exp sqrt normal team self option spot rate v0 kappa theta xi
        dt sqrt_dt c1 c2 thread_id).2)
    init

/-- Method `HestonPricer::price`. -/
def HestonPricer.price [LinearOrderedField α] (exp sqrt : α → α) (normal : Nat → Nat → α)
    (team : OmpTeam) (self : HestonPricer)
    (option : Option α) (spot rate v0 kappa theta xi rho : α) : α :=
  let T := option.getMaturity
  let dt := T / (self.num_steps_ : α)
  let discount_factor := exp (-rate * T)
  let sqrt_dt := sqrt dt
  let c1 := rho
  let c2 := sqrt (1.0 - rho * rho)
  let sum_payoffs := HestonPricer.parallelRegion exp sqrt normal team self option spot rate v0
    kappa theta xi dt sqrt_dt c1 c2 0
  (sum_payoffs / (self.num_sims_ : α)) * discount_factor

/-! ## MonteCarloGreeks.h -/

/-- Class `MonteCarloGreeks`: the wrapped pricer and the stored base seed. -/
structure MonteCarloGreeks where
  pricer_ : MonteCarloPricer
  seed_ : Nat
deriving DecidableEq, Repr

/-- Constructor `MonteCarloGreeks(int num_sims, unsigned int seed = 42)`. -/
def MonteCarloGreeks.new (num_sims : Int) (seed : Nat := 42) : MonteCarloGreeks :=
  ⟨MonteCarloPricer.new num_sims seed, seed % 2 ^ 32⟩

/-- Method `MonteCarloGreeks::delta`; `epsilon` is `0.01` when omitted. Each call
of `price` opens a parallel region of its own, executed by `team_up` and
`team_down` respectively. Returns the result and the engine after the call. -/
def MonteCarloGreeks.delta [LinearOrderedField α] (exp sqrt : α → α) (normal : Nat → Nat → α)
    (team_up team_down : OmpTeam) (self : MonteCarloGreeks)
    (option : Option α) (spot rate vol : α) (epsilon : α := 0.01) : α × MonteCarloGreeks :=
  let pricer_ := self.pricer_.setSeed self.seed_
  let p_up := (pricer_.price exp sqrt normal team_up option (spot + epsilon) rate vol true).1
  let pricer_ := pricer_.setSeed self.seed_
  let p_down := (pricer_.price exp sqrt normal team_down option (spot - epsilon) rate vol true).1
  ((p_up - p_down) / (2.0 * epsilon), ⟨pricer_, self.seed_⟩)

/-- Method `MonteCarloGreeks::gamma`; `epsilon` is `0.01` when omitted. Each call
of `price` opens a parallel region of its own, executed by `team_up`, `team_base`
and `team_down` respectively. Returns the result and the engine after the call. -/
def MonteCarloGreeks.gamma [LinearOrderedField α] (exp sqrt : α → α) (normal : Nat → Nat → α)
    (team_up team_base team_down : OmpTeam) (self : MonteCarloGreeks)
    (option : Option α) (spot rate vol : α) (epsilon : α := 0.01) : α × MonteCarloGreeks :=
  let pricer_ := self.pricer_.setSeed self.seed_
  let p_up := (pricer_.price exp sqrt normal team_up option (spot + epsilon) rate vol true).1
  let pricer_ := pricer_.setSeed self.seed_
  let p_base := (pricer_.price exp sqrt normal team_base option spot rate vol true).1
  let pricer_ := pricer_.setSeed self.seed_
  let p_down := (pricer_.price exp sqrt normal team_down option (spot - epsilon) rate vol true).1
  ((p_up - 2.0 * p_base + p_down) / (epsilon * epsilon), ⟨pricer_, self.seed_⟩)

/-- Method `MonteCarloGreeks::vega`; `epsilon` is `0.001` when omitted. Returns
the result and the engine after the call. -/
def MonteCarloGreeks.vega [LinearOrderedField α] (exp sqrt : α → α) (normal : Nat → Nat → α)
    (team_up team_down : OmpTeam) (self : MonteCarloGreeks)
    (option : Option α) (spot rate vol : α) (epsilon : α := 0.001) : α × MonteCarloGreeks :=
  let pricer_ := self.pricer_.setSeed self.seed_
  let p_up := (pricer_.price exp sqrt normal team_up option spot rate (vol + epsilon) true).1
  let pricer_ := pricer_.setSeed self.seed_
  let p_down := (pricer_.price exp sqrt normal team_down option spot rate (vol - epsilon) true).1
  ((p_up - p_down) / (2.0 * epsilon), ⟨pricer_, self.seed_⟩)

/-- Method `MonteCarloGreeks::rho`; `epsilon` is `0.001` when omitted. Returns
the result and the engine after the call. -/
def MonteCarloGreeks.rho [LinearOrderedField α] (exp sqrt : α → α) (normal : Nat → Nat → α)
    (team_up team_down : OmpTeam) (self : MonteCarloGreeks)
    (option : Option α) (spot rate vol : α) (epsilon : α := 0.001) : α × MonteCarloGreeks :=
  let pricer_ := self.pricer_.setSeed self.seed_
  let p_up := (pricer_.price exp sqrt normal team_up option spot (rate + epsilon) vol true).1
  let pricer_ := pricer_.setSeed self.seed_
  let p_down := (pricer_.price exp sqrt normal team_down option spot (rate - epsilon) vol true).1
  ((p_up - p_down) / (2.0 * epsilon), ⟨pricer_, self.seed_⟩)

/-- Method `MonteCarloGreeks::setNumSimulations`. -/
def MonteCarloGreeks.setNumSimulations (self : MonteCarloGreeks) (n : Int) : MonteCarloGreeks :=
  ⟨self.pricer_.setNumSimulations n, self.seed_⟩

/-! ## Quantities used to state the properties -/

/-- The draw consumed by iteration `i` of the loop of `MonteCarloPricer::price`:
the thread that runs it seeded its generator with `seed_ + thread_id + 1` and has
called `getNormal()` once for each earlier iteration it ran. -/
def MonteCarloPricer.draw (normal : Nat → Nat → α) (team : OmpTeam) (self : MonteCarloPricer)
    (i : Nat) : α :=
  normal (RandomGenerator.new ((self.seed_ : Int) + ((team.owner i).val : Int) + 1)).seed
    (team.assigned i (team.owner i).val).length

/-- What one loop iteration of `MonteCarloPricer::price` adds to the two sums, as
a function of its draw. -/
def MonteCarloPricer.contribution [LinearOrderedField α] (exp : α → α)
    (option : Option α) (spot drift diffusion : α) (use_antithetic : Bool) (Z : α) : Sums α :=
  if use_antithetic then
    ⟨option.payoff (spot * exp (drift + diffusion * Z)) +
        option.payoff (spot * exp (drift + diffusion * (-Z))),
      option.payoff (spot * exp (drift + diffusion * Z)) *
          option.payoff (spot * exp (drift + diffusion * Z)) +
        option.payoff (spot * exp (drift + diffusion * (-Z))) *
          option.payoff (spot * exp (drift + diffusion * (-Z)))⟩
  else
    ⟨option.payoff (spot * exp (drift + diffusion * Z)),
      option.payoff (spot * exp (drift + diffusion * Z)) *
        option.payoff (spot * exp (drift + diffusion * Z))⟩

/-- The variables of the time-stepping loop of `HestonPricer::price` after `k`
iterations of its body, for a path that starts with the generator in state `rng`. -/
def HestonPricer.stateAfter [LinearOrderedField α] (exp sqrt : α → α) (normal : Nat → Nat → α)
    (spot rate v0 kappa theta xi dt sqrt_dt c1 c2 : α) (rng : RandomGenerator) (k : Nat) :
    HestonPricer.PathState α :=
  (HestonPricer.timeStep exp sqrt normal rate kappa theta xi dt sqrt_dt c1 c2)^[k]
    ⟨rng, spot, v0⟩

/-- The state of the generator of the thread that runs path `i` of
`HestonPricer::price` when that path starts: the thread seeded it with
`42 + thread_id` and has drawn `2 * num_steps_` normals for each earlier path it
ran. -/
def HestonPricer.pathStart (team : OmpTeam) (self : HestonPricer) (i : Nat) : RandomGenerator :=
  ⟨(RandomGenerator.new (42 + ((team.owner i).val : Int))).seed,
    2 * self.num_steps_.toNat * (team.assigned i (team.owner i).val).length⟩

/-- Constant `PI`. -/
def PI [LinearOrderedField α] : α := 3.14159265358979323846

/-- Function `normalPDF`: standard normal probability density. -/
def normalPDF [LinearOrderedField α] (exp sqrt : α → α) (x : α) : α :=
  (1.0 / sqrt (2.0 * PI)) * exp (-0.5 * x * x)

/-- Function `normalCDF`: the Abramowitz and Stegun approximation of the standard
normal cumulative distribution function. -/
def normalCDF [LinearOrderedField α] (exp sqrt : α → α) (x : α) : α :=
  let a1 : α := 0.254829592
  let a2 : α := -0.284496736
  let a3 : α := 1.421413741
  let a4 : α := -1.453152027
  let a5 : α := 1.061405429
  let p : α := 0.3275911
  let sign : Int := if x < 0 then -1 else 1
  let x := |x| / sqrt 2.0
  let t := 1.0 / (1.0 + p * x)
  let y := 1.0 - (((((a5 * t + a4) * t) + a3) * t + a2) * t + a1) * t * exp (-x * x)
  0.5 * (1.0 + (sign : α) * y)

/-- The polynomial factor of the Abramowitz and Stegun formula in `normalCDF`,
as a function of `t`. -/
def cdfPoly [LinearOrderedField α] (t : α) : α :=
  (((((1.061405429 * t + -1.453152027) * t) + 1.421413741) * t + -0.284496736) * t +
    0.254829592) * t

/-! ## BlackScholes.h -/

/-- Class `BlackScholes`: the six stored parameters. -/
structure BlackScholes (α : Type) where
  spot_ : α
  strike_ : α
  rate_ : α
  volatility_ : α
  maturity_ : α
  type_ : OptionType

/-- Method `BlackScholes::calculateD1`. -/
def BlackScholes.calculateD1 [LinearOrderedField α] (sqrt log : α → α) (self : BlackScholes α) :
    α :=
  (log (self.spot_ / self.strike_) +
      (self.rate_ + 0.5 * self.volatility_ * self.volatility_) * self.maturity_) /
    (self.volatility_ * sqrt self.maturity_)

/-- Method `BlackScholes::calculateD2`. -/
def BlackScholes.calculateD2 [LinearOrderedField α] (sqrt log : α → α) (self : BlackScholes α) :
    α :=
  self.calculateD1 sqrt log - self.volatility_ * sqrt self.maturity_

/-- Method `BlackScholes::price`. -/
def BlackScholes.price [LinearOrderedField α] (exp sqrt log : α → α) (self : BlackScholes α) :
    α :=
  let d1 := self.calculateD1 sqrt log
  let d2 := self.calculateD2 sqrt log
  let discount_factor := exp (-self.rate_ * self.maturity_)
  if self.type_ = OptionType.CALL then
    self.spot_ * normalCDF exp sqrt d1 - self.strike_ * discount_factor * normalCDF exp sqrt d2
  else
    self.strike_ * discount_factor * normalCDF exp sqrt (-d2) -
      self.spot_ * normalCDF exp sqrt (-d1)

/-- Method `BlackScholes::vega`. -/
def BlackScholes.vega [LinearOrderedField α] (exp sqrt log : α → α) (self : BlackScholes α) :
    α :=
  let d1 := self.calculateD1 sqrt log
  self.spot_ * normalPDF exp sqrt d1 * sqrt self.maturity_

/-! ## ImpliedVolatility.h -/

/-- The `for` loop of `ImpliedVolatility::calculate` together with the final
`return -1.0`, with `remaining` iterations still to run and the current `sigma`. -/
def ImpliedVolatility.solve [LinearOrderedField α] (exp sqrt log : α → α)
    (marketPrice spot strike rate maturity : α) (type : OptionType) (epsilon : α) :
    Nat → α → α
  | 0, _ => -1.0
  | remaining + 1, sigma =>
    let bs : BlackScholes α := ⟨spot, strike, rate, sigma, maturity, type⟩
    let price := bs.price exp sqrt log
    let vega := bs.vega exp sqrt log
    let diff := price - marketPrice
    if |diff| < epsilon then
      sigma
    else if |vega| < 1e-8 then
      -1.0
    else
      ImpliedVolatility.solve exp sqrt log marketPrice spot strike rate maturity type epsilon
        remaining (sigma - (diff / vega))

/-- Static method `ImpliedVolatility::calculate`; `initialGuess` is `0.5`,
`epsilon` is `1e-6` and `maxIterations` is `100` when omitted. -/
def ImpliedVolatility.calculate [LinearOrderedField α] (exp sqrt log : α → α)
    (marketPrice spot strike rate maturity : α) (type : OptionType)
    (initialGuess : α := 0.5) (epsilon : α := 1e-6) (maxIterations : Int := 100) : α :=
  ImpliedVolatility.solve exp sqrt log marketPrice spot strike rate maturity type epsilon
    maxIterations.toNat initialGuess

/-! ## Instrumented calls: which pricer object each `price` call acts on -/

/-- Method `MonteCarloPricer::price` as a state transformer that also records the
call: the method assigns no member, so the pricer after the call is the pricer
before it; the record `log` is extended by the pricer the call acts on. -/
def MonteCarloPricer.priceLogged [LinearOrderedField α] (exp sqrt : α → α)
    (normal : Nat → Nat → α) (team : OmpTeam) (self : MonteCarloPricer)
    (option : Option α) (spot rate volatility : α) (use_antithetic : Bool)
    (log : List MonteCarloPricer) : (α × α) × MonteCarloPricer × List MonteCarloPricer :=
  (self.price exp sqrt normal team option spot rate volatility use_antithetic, self,
    log ++ [self])

/-- Method `MonteCarloGreeks::delta` with every `price` call recorded. -/
def MonteCarloGreeks.deltaLogged [LinearOrderedField α] (exp sqrt : α → α)
    (normal : Nat → Nat → α) (team_up team_down : OmpTeam) (self : MonteCarloGreeks)
    (option : Option α) (spot rate vol epsilon : α) :
    (α × MonteCarloGreeks) × List MonteCarloPricer :=
  let pricer_ := self.pricer_.setSeed self.seed_
  let (r_up, pricer_, log) :=
    pricer_.priceLogged exp sqrt normal team_up option (spot + epsilon) rate vol true []
  let p_up := r_up.1
  let pricer_ := pricer_.setSeed self.seed_
  let (r_down, pricer_, log) :=
    pricer_.priceLogged exp sqrt normal team_down option (spot - epsilon) rate vol true log
  let p_down := r_down.1
  (((p_up - p_down) / (2.0 * epsilon), ⟨pricer_, self.seed_⟩), log)

/-- Method `MonteCarloGreeks::gamma` with every `price` call recorded. -/
def MonteCarloGreeks.gammaLogged [LinearOrderedField α] (exp sqrt : α → α)
    (normal : Nat → Nat → α) (team_up team_base team_down : OmpTeam) (self : MonteCarloGreeks)
    (option : Option α) (spot rate vol epsilon : α) :
    (α × MonteCarloGreeks) × List MonteCarloPricer :=
  let pricer_ := self.pricer_.setSeed self.seed_
  let (r_up, pricer_, log) :=
    pricer_.priceLogged exp sqrt normal team_up option (spot + epsilon) rate vol true []
  let p_up := r_up.1
  let pricer_ := pricer_.setSeed self.seed_
  let (r_base, pricer_, log) :=
    pricer_.priceLogged exp sqrt normal team_base option spot rate vol true log
  let p_base := r_base.1
  let pricer_ := pricer_.setSeed self.seed_
  let (r_down, pricer_, log) :=
    pricer_.priceLogged exp sqrt normal team_down option (spot - epsilon) rate vol true log
  let p_down := r_down.1
  (((p_up - 2.0 * p_base + p_down) / (epsilon * epsilon), ⟨pricer_, self.seed_⟩), log)

/-- Method `MonteCarloGreeks::vega` with every `price` call recorded. -/
def MonteCarloGreeks.vegaLogged [LinearOrderedField α] (exp sqrt : α → α)
    (normal : Nat → Nat → α) (team_up team_down : OmpTeam) (self : MonteCarloGreeks)
    (option : Option α) (spot rate vol epsilon : α) :
    (α × MonteCarloGreeks) × List MonteCarloPricer :=
  let pricer_ := self.pricer_.setSeed self.seed_
  let (r_up, pricer_, log) :=
    pricer_.priceLogged exp sqrt normal team_up option spot rate (vol + epsilon) true []
  let p_up := r_up.1
  let pricer_ := pricer_.setSeed self.seed_
  let (r_down, pricer_, log) :=
    pricer_.priceLogged exp sqrt normal team_down option spot rate (vol - epsilon) true log
  let p_down := r_down.1
  (((p_up - p_down) / (2.0 * epsilon), ⟨pricer_, self.seed_⟩), log)

/-- Method `MonteCarloGreeks::rho` with every `price` call recorded. -/
def MonteCarloGreeks.rhoLogged [LinearOrderedField α] (exp sqrt : α → α)
    (normal : Nat → Nat → α) (team_up team_down : OmpTeam) (self : MonteCarloGreeks)
    (option : Option α) (spot rate vol epsilon : α) :
    (α × MonteCarloGreeks) × List MonteCarloPricer :=
  let pricer_ := self.pricer_.setSeed self.seed_
  let (r_up, pricer_, log) :=
    pricer_.priceLogged exp sqrt normal team_up option spot (rate + epsilon) vol true []
  let p_up := r_up.1
  let pricer_ := pricer_.setSeed self.seed_
  let (r_down, pricer_, log) :=
    pricer_.priceLogged exp sqrt normal team_down option spot (rate - epsilon) vol true log
  let p_down := r_down.1
  (((p_up - p_down) / (2.0 * epsilon), ⟨pricer_, self.seed_⟩), log)

/-- One call of a public method of `MonteCarloGreeks`, with its arguments and the
teams that execute the parallel regions it opens. -/
inductive MonteCarloGreeks.Call (α : Type)
  | delta (team_up team_down : OmpTeam) (option : Option α) (spot rate vol epsilon : α)
  | gamma (team_up team_base team_down : OmpTeam) (option : Option α)
      (spot rate vol epsilon : α)
  | vega (team_up team_down : OmpTeam) (option : Option α) (spot rate vol epsilon : α)
  | rho (team_up team_down : OmpTeam) (option : Option α) (spot rate vol epsilon : α)
  | setNumSimulations (n : Int)

/-- The engine after one method call, and the pricers on which the call invoked
`price`, in order. -/
def MonteCarloGreeks.perform [LinearOrderedField α] (exp sqrt : α → α)
    (normal : Nat → Nat → α) (self : MonteCarloGreeks) :
    MonteCarloGreeks.Call α → MonteCarloGreeks × List MonteCarloPricer
  | .delta team_up team_down option spot rate vol epsilon =>
    let r := self.deltaLogged exp sqrt normal team_up team_down option spot rate vol epsilon
    (r.1.2, r.2)
  | .gamma team_up team_base team_down option spot rate vol epsilon =>
    let r := self.gammaLogged exp sqrt normal team_up team_base team_down option spot rate vol
      epsilon
    (r.1.2, r.2)
  | .vega team_up team_down option spot rate vol epsilon =>
    let r := self.vegaLogged exp sqrt normal team_up team_down option spot rate vol epsilon
    (r.1.2, r.2)
  | .rho team_up team_down option spot rate vol epsilon =>
    let r := self.rhoLogged exp sqrt normal team_up team_down option spot rate vol epsilon
    (r.1.2, r.2)
  | .setNumSimulations n => (self.setNumSimulations n, [])

/-- The engine after a sequence of method calls. -/
def MonteCarloGreeks.performAll [LinearOrderedField α] (exp sqrt : α → α)
    (normal : Nat → Nat → α) (self : MonteCarloGreeks)
    (calls : List (MonteCarloGreeks.Call α)) : MonteCarloGreeks :=
  calls.foldl (fun engine call => (engine.perform exp sqrt normal call).1) self

/-! ## A reduction with fixed contributions -/

/-- A work-shared loop with `reduction(+:...)` in which iteration `i` contributes
the fixed amount `c i`: the threads are taken in the order `threads`; thread `t`
starts from a private zero and adds the contributions of the iterations `iters t`
in that order; each private sum is added to the running total, which starts at
`init`. -/
def OmpTeam.reduceOrdered [LinearOrderedField α] (threads : List Nat) (iters : Nat → List Nat)
    (c : Nat → α) (init : α) : α :=
  threads.foldl (fun acc t => acc + (iters t).foldl (fun s i => s + c i) 0) init

/-! ## Quantities used to state the properties of the implied-volatility solver -/

/-- The difference `price - marketPrice` that one loop iteration of
`ImpliedVolatility::calculate` computes for the current `sigma`. -/
def ImpliedVolatility.diff [LinearOrderedField α] (exp sqrt log : α → α)
    (marketPrice spot strike rate maturity : α) (type : OptionType) (sigma : α) : α :=
  (⟨spot, strike, rate, sigma, maturity, type⟩ : BlackScholes α).price exp sqrt log - marketPrice

/-- The `vega` that one loop iteration of `ImpliedVolatility::calculate` computes
for the current `sigma`. -/
def ImpliedVolatility.vegaAt [LinearOrderedField α] (exp sqrt log : α → α)
    (spot strike rate maturity : α) (type : OptionType) (sigma : α) : α :=
  (⟨spot, strike, rate, sigma, maturity, type⟩ : BlackScholes α).vega exp sqrt log

/-- The Newton-Raphson step of `ImpliedVolatility::calculate` (line 45). -/
def ImpliedVolatility.newtonStep [LinearOrderedField α] (exp sqrt log : α → α)
    (marketPrice spot strike rate maturity : α) (type : OptionType) (sigma : α) : α :=
  sigma - (ImpliedVolatility.diff exp sqrt log marketPrice spot strike rate maturity type sigma /
    ImpliedVolatility.vegaAt exp sqrt log spot strike rate maturity type sigma)

/-- The `k`-th Newton iterate from `initialGuess` (the initial guess is iterate 0). -/
def ImpliedVolatility.iterate [LinearOrderedField α] (exp sqrt log : α → α)
    (marketPrice spot strike rate maturity : α) (type : OptionType) (initialGuess : α)
    (k : Nat) : α :=
  (ImpliedVolatility.newtonStep exp sqrt log marketPrice spot strike rate maturity type)^[k]
    initialGuess

/-- The iterate `sigma` meets the tolerance: `|price - marketPrice| < epsilon`. -/
def ImpliedVolatility.meetsTolerance [LinearOrderedField α] (exp sqrt log : α → α)
    (marketPrice spot strike rate maturity : α) (type : OptionType) (epsilon sigma : α) : Prop :=
  |ImpliedVolatility.diff exp sqrt log marketPrice spot strike rate maturity type sigma| < epsilon

/-- The iterate `sigma` has a vega too small to divide by: `|vega| < 1e-8`. -/
def ImpliedVolatility.vegaTooSmall [LinearOrderedField α] (exp sqrt log : α → α)
    (spot strike rate maturity : α) (type : OptionType) (sigma : α) : Prop :=
  |ImpliedVolatility.vegaAt exp sqrt log spot strike rate maturity type sigma| < 1e-8

/-- Iterate `j` is tested by the loop: every earlier iterate missed the tolerance
and had a vega large enough to take the Newton step. -/
def ImpliedVolatility.tested [LinearOrderedField α] (exp sqrt log : α → α)
    (marketPrice spot strike rate maturity : α) (type : OptionType)
    (initialGuess epsilon : α) (j : Nat) : Prop :=
  ∀ i, i < j →
    ¬ ImpliedVolatility.meetsTolerance exp sqrt log marketPrice spot strike rate maturity type
        epsilon
        (ImpliedVolatility.iterate exp sqrt log marketPrice spot strike rate maturity type
          initialGuess i) ∧
    ¬ ImpliedVolatility.vegaTooSmall exp sqrt log spot strike rate maturity type
        (ImpliedVolatility.iterate exp sqrt log marketPrice spot strike rate maturity type
          initialGuess i)

/-- The first failure condition of the implied-volatility solver, in the words of
its description: `maxIterations` iterates are tested without meeting the
tolerance. -/
def ImpliedVolatility.exhausted [LinearOrderedField α] (exp sqrt log : α → α)
    (marketPrice spot strike rate maturity : α) (type : OptionType)
    (initialGuess epsilon : α) (maxIterations : Int) : Prop :=
  ∀ j : Nat, (j : Int) < maxIterations →
    ImpliedVolatility.tested exp sqrt log marketPrice spot strike rate maturity type
      initialGuess epsilon j ∧
    ¬ ImpliedVolatility.meetsTolerance exp sqrt log marketPrice spot strike rate maturity type
      epsilon
      (ImpliedVolatility.iterate exp sqrt log marketPrice spot strike rate maturity type
        initialGuess j)

/-- The second failure condition of the implied-volatility solver, in the words
of its description: a tested iterate that misses the tolerance has
`|vega| < 1e-8`. -/
def ImpliedVolatility.stalled [LinearOrderedField α] (exp sqrt log : α → α)
    (marketPrice spot strike rate maturity : α) (type : OptionType)
    (initialGuess epsilon : α) (maxIterations : Int) : Prop :=
  ∃ j : Nat, (j : Int) < maxIterations ∧
    ImpliedVolatility.tested exp sqrt log marketPrice spot strike rate maturity type
      initialGuess epsilon j ∧
    ¬ ImpliedVolatility.meetsTolerance exp sqrt log marketPrice spot strike rate maturity type
      epsilon
      (ImpliedVolatility.iterate exp sqrt log marketPrice spot strike rate maturity type
        initialGuess j) ∧
    ImpliedVolatility.vegaTooSmall exp sqrt log spot strike rate maturity type
      (ImpliedVolatility.iterate exp sqrt log marketPrice spot strike rate maturity type
        initialGuess j)

/-! ## Quantities used to state the properties of the variance floor -/

/-- The variable `variance` of `MonteCarloPricer::price` as computed on line 77,
before the test `if (variance < 0)` of lines 81-83. -/
def MonteCarloPricer.rawVariance [LinearOrderedField α] (sums : Sums α) (actual_sims : Int) :
    α :=
  let mean_payoff := sums.sum_payoffs / (actual_sims : α)
  (sums.sum_sq_payoffs / (actual_sims : α)) - (mean_payoff * mean_payoff)

/-- The two sums that the loop of `MonteCarloPricer::price` accumulates from a
list of payoffs: every payoff is added to `sum_payoffs` and its square to
`sum_sq_payoffs`. -/
def MonteCarloPricer.sumsOf [LinearOrderedField α] (payoffs : List α) : Sums α :=
  ⟨payoffs.sum, (payoffs.map (fun p => p * p)).sum⟩

/-- The payoffs that iteration `i` of the loop of `MonteCarloPricer::price`
computes: `payoff1`, followed by `payoff2` under antithetic sampling. -/
def MonteCarloPricer.iterationPayoffs [LinearOrderedField α] (exp : α → α)
    (option : Option α) (spot drift diffusion : α) (use_antithetic : Bool) (Z : α) : List α :=
  if use_antithetic then
    [option.payoff (spot * exp (drift + diffusion * Z)),
      option.payoff (spot * exp (drift + diffusion * (-Z)))]
  else
    [option.payoff (spot * exp (drift + diffusion * Z))]

/-- The payoffs that one run of the loop of `MonteCarloPricer::price` computes,
iteration by iteration. -/
def MonteCarloPricer.payoffs [LinearOrderedField α] (exp : α → α) (normal : Nat → Nat → α)
    (team : OmpTeam) (self : MonteCarloPricer) (option : Option α) (spot drift diffusion : α)
    (use_antithetic : Bool) : List α :=
  (List.range (self.loops use_antithetic).toNat).flatMap (fun i =>
    MonteCarloPricer.iterationPayoffs exp option spot drift diffusion use_antithetic
      (self.draw normal team i))

/-! ## The schedulers named by the specification -/

/-- A `double` that is either a number or NaN. The arithmetic below is exact on
numbers (no rounding, no overflow, no infinities); NaN propagates through every
operation and every ordered comparison with NaN is false. -/
inductive Double (α : Type) where
  | num (x : α)
  | nan

/-- Operator `+` on doubles. -/
def Double.add [LinearOrderedField α] : Double α → Double α → Double α
  | Double.num x, Double.num y => Double.num (x + y)
  | _, _ => Double.nan

/-- Operator `-` on doubles. -/
def Double.sub [LinearOrderedField α] : Double α → Double α → Double α
  | Double.num x, Double.num y => Double.num (x - y)
  | _, _ => Double.nan

/-- Operator `*` on doubles. -/
def Double.mul [LinearOrderedField α] : Double α → Double α → Double α
  | Double.num x, Double.num y => Double.num (x * y)
  | _, _ => Double.nan

/-- Function `std::max(a, b)`, which returns `(a < b) ? b : a`: when either
argument is NaN the comparison is false and the first argument is returned. -/
def Double.stdMax [LinearOrderedField α] : Double α → Double α → Double α
  | Double.num x, Double.num y => if x < y then Double.num y else Double.num x
  | a, _ => a

/-- Function `std::sqrt`: NaN for a negative number and for NaN. -/
def Double.sqrt [LinearOrderedField α] (sqrt : α → α) : Double α → Double α
  | Double.num x => if x < 0 then Double.nan else Double.num (sqrt x)
  | Double.nan => Double.nan

/-- Function `std::exp`: NaN for NaN. -/
def Double.exp (exp : α → α) : Double α → Double α
  | Double.num x => Double.num (exp x)
  | Double.nan => Double.nan

/-- The comparison `d >= 0` on doubles: false for NaN. -/
def Double.nonneg [LinearOrderedField α] : Double α → Prop
  | Double.num x => 0 ≤ x
  | Double.nan => False

/-- The variables that the time-stepping loop of `HestonPricer::price` updates,
as doubles that may be NaN. -/
structure HestonPricer.DoubleState (α : Type) where
  rng : RandomGenerator
  S : Double α
  v : Double α

/-- The constant `sqrt_dt` of `HestonPricer::price` (line 40). The step `dt` is
`T / num_steps_` (line 31); it is an input here because this model has no
infinities for a division by zero. -/
def HestonPricer.sqrtDtDouble [LinearOrderedField α] (sqrt : α → α) (dt : Double α) :
    Double α :=
  Double.sqrt sqrt dt

/-- The constant `c2 = std::sqrt(1.0 - rho * rho)` of `HestonPricer::price`
(line 42). -/
def HestonPricer.c2Double [LinearOrderedField α] (sqrt : α → α) (rho : Double α) : Double α :=
  Double.sqrt sqrt ((Double.num 1.0).sub (rho.mul rho))

/-- Body of the time-stepping loop of `HestonPricer::price` (lines 57-74) on
doubles that may be NaN; the draws of the generator are numbers. -/
def HestonPricer.timeStepDouble [LinearOrderedField α] (exp sqrt : α → α)
    (normal : Nat → Nat → α) (rate kappa theta xi dt sqrt_dt c1 c2 : Double α)
    (st : HestonPricer.DoubleState α) : HestonPricer.DoubleState α :=
  let (Z1, rng) := st.rng.getNormal normal
  let (Z2, rng) := rng.getNormal normal
  let dWs := (Double.num Z1).mul sqrt_dt
  let dWv := ((c1.mul (Double.num Z1)).add (c2.mul (Double.num Z2))).mul sqrt_dt
  let v_curr := Double.stdMax st.v (Double.num 0.0)
  let dv := ((kappa.mul (theta.sub v_curr)).mul dt).add
    ((xi.mul (Double.sqrt sqrt v_curr)).mul dWv)
  let v := st.v.add dv
  let drift := (rate.sub ((Double.num 0.5).mul v_curr)).mul dt
  let diffusion := (Double.sqrt sqrt v_curr).mul dWs
  let S := st.S.mul (Double.exp exp (drift.add diffusion))
  ⟨rng, S, v⟩

/-- The variables of the time-stepping loop of `HestonPricer::price` after `k`
iterations of its body on doubles, with the constants `sqrt_dt`, `c1 = rho` and
`c2` computed as on lines 40-42, for a path that starts with the generator in
state `rng`. -/
def HestonPricer.stateAfterDouble [LinearOrderedField α] (exp sqrt : α → α)
    (normal : Nat → Nat → α) (spot rate v0 kappa theta xi rho dt : Double α)
    (rng : RandomGenerator) (k : Nat) : HestonPricer.DoubleState α :=
  (HestonPricer.timeStepDouble exp sqrt normal rate kappa theta xi dt
    (HestonPricer.sqrtDtDouble sqrt dt) rho (HestonPricer.c2Double sqrt rho))^[k]
    ⟨rng, spot, v0⟩

/-- The argument `v_curr = std::max(v, 0.0)` of the square roots that time step
number `k` (counted from 0) of a path takes. -/
def HestonPricer.sqrtArgument [LinearOrderedField α] (exp sqrt : α → α)
    (normal : Nat → Nat → α) (spot rate v0 kappa theta xi rho dt : Double α)
    (rng : RandomGenerator) (k : Nat) : Double α :=
  Double.stdMax
    (HestonPricer.stateAfterDouble exp sqrt normal spot rate v0 kappa theta xi rho dt rng k).v
    (Double.num 0.0)

/-! ## Rounded arithmetic: the GBM engine and the finite-difference gamma on doubles -/

/-- Rounding of a number to the nearest `double`, ties to even: 53 significant
bits as in IEEE 754 binary64. The exponent range is unbounded here (no overflow,
no subnormal numbers). For `x` with `2^e <= |x| < 2^(e+1)` the doubles around `x`
are the integer multiples of `2^(e-52)`. -/
def binary64 [LinearOrderedField α] [FloorRing α] (x : α) : α :=
  if x = 0 then 0
  else
    let e : Int := Int.log 2 |x|
    let ulp : α := (2 : α) ^ (e - 52)
    let y : α := x / ulp
    let f : Int := ⌊y⌋
    let m : Int :=
      if y - (f : α) < 1 / 2 then f
      else if 1 / 2 < y - (f : α) then f + 1
      else if f % 2 = 0 then f
      else f + 1
    (m : α) * ulp

/-- Payoff override `EuropeanOption::payoff` with the difference rounded by `fl`. -/
def EuropeanOption.payoffRounded [LinearOrderedField α] (fl : α → α) (strike_ : α)
    (type_ : OptionType) (spot : α) : α :=
  if type_ = OptionType.CALL then
    max (fl (spot - strike_)) 0
  else
    max (fl (strike_ - spot)) 0

/-- Constructor `EuropeanOption(strike, maturity, type)` of an option whose payoff
rounds with `fl`. -/
def EuropeanOptionRounded [LinearOrderedField α] (fl : α → α) (strike maturity : α)
    (type : OptionType) : Option α :=
  ⟨strike, maturity, type, EuropeanOption.payoffRounded fl strike type⟩

/-- Body of the loop of `MonteCarloPricer::price` (lines 55-71) with the result of
every arithmetic operation rounded by `fl`; `exp` is the library function on
doubles. -/
def MonteCarloPricer.loopBodyRounded [LinearOrderedField α] (fl exp : α → α)
    (normal : Nat → Nat → α) (option : Option α) (spot drift diffusion : α)
    (use_antithetic : Bool) (st : RandomGenerator × Sums α) : RandomGenerator × Sums α :=
  let (Z, local_rng) := st.1.getNormal normal
  let S_T1 := fl (spot * exp (fl (drift + fl (diffusion * Z))))
  let payoff1 := option.payoff S_T1
  if use_antithetic then
    let S_T2 := fl (spot * exp (fl (drift + fl (diffusion * (-Z)))))
    let payoff2 := option.payoff S_T2
    (local_rng, ⟨fl (st.2.sum_payoffs + fl (payoff1 + payoff2)),
      fl (st.2.sum_sq_payoffs + fl (fl (payoff1 * payoff1) + fl (payoff2 * payoff2)))⟩)
  else
    (local_rng, ⟨fl (st.2.sum_payoffs + payoff1),
      fl (st.2.sum_sq_payoffs + fl (payoff1 * payoff1))⟩)

/-- What thread `thread_id` does inside the parallel region of
`MonteCarloPricer::price` (lines 46-73) in rounded arithmetic. -/
def MonteCarloPricer.threadRunRounded [LinearOrderedField α] (fl exp : α → α)
    (normal : Nat → Nat → α) (team : OmpTeam) (seed_ : Nat) (loops : Int)
    (option : Option α) (spot drift diffusion : α) (use_antithetic : Bool)
    (thread_id : Nat) : RandomGenerator × Sums α :=
  let local_rng := RandomGenerator.new ((seed_ : Int) + (thread_id : Int) + 1)
  (team.assigned loops.toNat thread_id).foldl
    (fun st _ => MonteCarloPricer.loopBodyRounded fl exp normal option spot drift diffusion
      use_antithetic st)
    (local_rng, ⟨0, 0⟩)

/-- The parallel region of `MonteCarloPricer::price` with its reduction in
rounded arithmetic: the private sums of the threads are added to the initial
values one after the other, in the order of the thread numbers. -/
def MonteCarloPricer.parallelRegionRounded [LinearOrderedField α] (fl exp : α → α)
    (normal : Nat → Nat → α) (team : OmpTeam) (seed_ : Nat) (loops : Int)
    (option : Option α) (spot drift diffusion : α) (use_antithetic : Bool)
    (init : Sums α) : Sums α :=
  (List.range team.num_threads).foldl
    (fun acc thread_id =>
      ⟨fl (acc.sum_payoffs +
          (MonteCarloPricer.threadRunRounded fl exp normal team seed_ loops option spot drift
            diffusion use_antithetic thread_id).2.sum_payoffs),
        fl (acc.sum_sq_payoffs +
          (MonteCarloPricer.threadRunRounded fl exp normal team seed_ loops option spot drift
            diffusion use_antithetic thread_id).2.sum_sq_payoffs)⟩)
    init

/-- Tail of `MonteCarloPricer::price` (lines 76-87) in rounded arithmetic; `sqrt`
is the library function on doubles. -/
def MonteCarloPricer.estimateRounded [LinearOrderedField α] (fl sqrt : α → α) (sums : Sums α)
    (actual_sims : Int) (discount_factor : α) : α × α :=
  let mean_payoff := fl (sums.sum_payoffs / (actual_sims : α))
  let estimated_price := fl (mean_payoff * discount_factor)
  let variance := fl (fl (sums.sum_sq_payoffs / (actual_sims : α)) -
    fl (mean_payoff * mean_payoff))
  let variance := if variance < 0 then 0 else variance
  let std_error := fl (fl (sqrt variance / sqrt (actual_sims : α)) * discount_factor)
  (estimated_price, std_error)

/-- Method `MonteCarloPricer::price` in rounded arithmetic: the result of every
arithmetic operation is rounded by `fl`, and `exp`, `sqrt` are the library
functions on doubles. -/
def MonteCarloPricer.priceRounded [LinearOrderedField α] (fl exp sqrt : α → α)
    (normal : Nat → Nat → α) (team : OmpTeam) (self : MonteCarloPricer)
    (option : Option α) (spot rate volatility : α) (use_antithetic : Bool := true) : α × α :=
  let T := option.getMaturity
  let drift := fl (fl (rate - fl (fl (0.5 * volatility) * volatility)) * T)
  let diffusion := fl (volatility * sqrt T)
  let discount_factor := exp (fl (-rate * T))
  let loops := self.loops use_antithetic
  let actual_sims := self.actual_sims use_antithetic
  let sums := MonteCarloPricer.parallelRegionRounded fl exp normal team self.seed_ loops option
    spot drift diffusion use_antithetic ⟨0, 0⟩
  MonteCarloPricer.estimateRounded fl sqrt sums actual_sims discount_factor

/-- Method `MonteCarloGreeks::gamma` in rounded arithmetic; `epsilon` is `0.01`
when omitted. Returns the result and the engine after the call. -/
def MonteCarloGreeks.gammaRounded [LinearOrderedField α] (fl exp sqrt : α → α)
    (normal : Nat → Nat → α) (team_up team_base team_down : OmpTeam) (self : MonteCarloGreeks)
    (option : Option α) (spot rate vol : α) (epsilon : α := fl 0.01) :
    α × MonteCarloGreeks :=
  let pricer_ := self.pricer_.setSeed self.seed_
  let p_up := (pricer_.priceRounded fl exp sqrt normal team_up option (fl (spot + epsilon))
    rate vol true).1
  let pricer_ := pricer_.setSeed self.seed_
  let p_base := (pricer_.priceRounded fl exp sqrt normal team_base option spot rate vol true).1
  let pricer_ := pricer_.setSeed self.seed_
  let p_down := (pricer_.priceRounded fl exp sqrt normal team_down option (fl (spot - epsilon))
    rate vol true).1
  (fl (fl (fl (p_up - fl (2.0 * p_base)) + p_down) / fl (epsilon * epsilon)),
    ⟨pricer_, self.seed_⟩)

/-! ## Auxiliary lemmas: loops and teams -/

open Finset

theorem foldl_const_iterate {σ ι : Type} (f : σ → σ) (L : List ι) (s : σ) :
    L.foldl (fun st _ => f st) s = f^[L.length] s := by
  induction L generalizing s with
  | nil => rfl
  | cons x xs ih => simp [List.foldl_cons, ih]

theorem OmpTeam.assigned_succ (team : OmpTeam) (n t : Nat) :
    team.assigned (n + 1) t =
      team.assigned n t ++ (if (team.owner n).val = t then [n] else []) := by
  unfold OmpTeam.assigned
  rw [List.range_succ, List.filter_append]
  by_cases h : (team.owner n).val = t <;> simp [h]

theorem OmpTeam.length_assigned_succ (team : OmpTeam) (n t : Nat) :
    (team.assigned (n + 1) t).length =
      (team.assigned n t).length + (if (team.owner n).val = t then 1 else 0) := by
  rw [OmpTeam.assigned_succ]
  by_cases h : (team.owner n).val = t <;> simp [h]

theorem OmpTeam.length_assigned_serial (n : Nat) :
    (OmpTeam.serial.assigned n 0).length = n := by
  simp [OmpTeam.assigned, OmpTeam.serial]

/-- Summing, thread by thread, a quantity indexed by (thread, position in the
thread's own sequence of iterations) is the same as summing it iteration by
iteration. -/
theorem OmpTeam.sum_threads {β : Type} [AddCommMonoid β] (team : OmpTeam)
    (F : Nat → Nat → β) (n : Nat) :
    ∑ t in range team.num_threads, ∑ k in range (team.assigned n t).length, F t k =
      ∑ i in range n, F (team.owner i).val (team.assigned i (team.owner i).val).length := by
  induction n with
  | zero => simp [OmpTeam.assigned]
  | succ n ih =>
    rw [Finset.sum_range_succ, ← ih]
    have h : ∀ t ∈ range team.num_threads,
        ∑ k in range (team.assigned (n + 1) t).length, F t k =
          ∑ k in range (team.assigned n t).length, F t k +
            (if (team.owner n).val = t then F t (team.assigned n t).length else 0) := by
      intro t _
      rw [OmpTeam.length_assigned_succ]
      by_cases h : (team.owner n).val = t
      · simp [h, Finset.sum_range_succ]
      · simp [h]
    rw [Finset.sum_congr rfl h, Finset.sum_add_distrib]
    congr 1
    rw [Finset.sum_ite_eq]
    simp

/-! ## Auxiliary lemmas: the GBM engine -/

section GBM

variable [LinearOrderedField α] (exp : α → α) (normal : Nat → Nat → α)
  (option : Option α) (spot drift diffusion : α) (use_antithetic : Bool)

theorem MonteCarloPricer.gbm_loopBody_eq (g : RandomGenerator) (a : Sums α) :
    MonteCarloPricer.loopBody exp normal option spot drift diffusion use_antithetic (g, a) =
      (⟨g.seed, g.calls + 1⟩,
        a.add (MonteCarloPricer.contribution exp option spot drift diffusion use_antithetic
          (normal g.seed g.calls))) := by
  cases use_antithetic <;>
    simp [MonteCarloPricer.loopBody, MonteCarloPricer.contribution, Sums.add,
      RandomGenerator.getNormal]

theorem MonteCarloPricer.gbm_iterate_loopBody (m s c : Nat) (a : Sums α) :
    (MonteCarloPricer.loopBody exp normal option spot drift diffusion use_antithetic)^[m]
        (⟨s, c⟩, a) =
      (⟨s, c + m⟩,
        ⟨a.sum_payoffs + ∑ k in range m,
            (MonteCarloPricer.contribution exp option spot drift diffusion use_antithetic
              (normal s (c + k))).sum_payoffs,
          a.sum_sq_payoffs + ∑ k in range m,
            (MonteCarloPricer.contribution exp option spot drift diffusion use_antithetic
              (normal s (c + k))).sum_sq_payoffs⟩) := by
  induction m with
  | zero => simp
  | succ m ih =>
    rw [Function.iterate_succ_apply', ih, MonteCarloPricer.gbm_loopBody_eq]
    simp [Sums.add, Finset.sum_range_succ, add_assoc]

theorem MonteCarloPricer.gbm_threadRun_eq (team : OmpTeam) (seed_ : Nat) (loops : Int) (t : Nat) :
    (MonteCarloPricer.threadRun exp normal team seed_ loops option spot drift diffusion
        use_antithetic t).2 =
      ⟨∑ k in range (team.assigned loops.toNat t).length,
          (MonteCarloPricer.contribution exp option spot drift diffusion use_antithetic
            (normal (RandomGenerator.new ((seed_ : Int) + (t : Int) + 1)).seed k)).sum_payoffs,
        ∑ k in range (team.assigned loops.toNat t).length,
          (MonteCarloPricer.contribution exp option spot drift diffusion use_antithetic
            (normal (RandomGenerator.new ((seed_ : Int) + (t : Int) + 1)).seed
              k)).sum_sq_payoffs⟩ := by
  unfold MonteCarloPricer.threadRun
  simp only [foldl_const_iterate]
  have h := MonteCarloPricer.gbm_iterate_loopBody exp normal option spot drift diffusion
    use_antithetic (team.assigned loops.toNat t).length
    (RandomGenerator.new ((seed_ : Int) + (t : Int) + 1)).seed 0 ⟨0, 0⟩
  simp only [zero_add] at h
  have hnew : RandomGenerator.new ((seed_ : Int) + (t : Int) + 1) =
      ⟨(RandomGenerator.new ((seed_ : Int) + (t : Int) + 1)).seed, 0⟩ := rfl
  rw [hnew, h]

theorem Sums.foldl_add (g : Nat → Sums α) (N : Nat) (init : Sums α) :
    (List.range N).foldl (fun acc t => acc.add (g t)) init =
      ⟨init.sum_payoffs + ∑ t in range N, (g t).sum_payoffs,
        init.sum_sq_payoffs + ∑ t in range N, (g t).sum_sq_payoffs⟩ := by
  induction N with
  | zero => simp
  | succ N ih =>
    rw [List.range_succ, List.foldl_append, ih]
    simp [Sums.add, Finset.sum_range_succ, add_assoc]

/-- The reduction variables after the parallel region, as sums over the loop
iterations of the contribution of the draw each iteration consumes. -/
theorem MonteCarloPricer.gbm_parallelRegion_eq (team : OmpTeam) (self : MonteCarloPricer)
    (loops : Int) (init : Sums α) :
    MonteCarloPricer.parallelRegion exp normal team self.seed_ loops option spot drift
        diffusion use_antithetic init =
      ⟨init.sum_payoffs + ∑ i in range loops.toNat,
          (MonteCarloPricer.contribution exp option spot drift diffusion use_antithetic
            (self.draw normal team i)).sum_payoffs,
        init.sum_sq_payoffs + ∑ i in range loops.toNat,
          (MonteCarloPricer.contribution exp option spot drift diffusion use_antithetic
            (self.draw normal team i)).sum_sq_payoffs⟩ := by
  unfold MonteCarloPricer.parallelRegion
  rw [Sums.foldl_add]
  simp only [MonteCarloPricer.gbm_threadRun_eq]
  rw [OmpTeam.sum_threads team (fun t k =>
      (MonteCarloPricer.contribution exp option spot drift diffusion use_antithetic
        (normal (RandomGenerator.new ((self.seed_ : Int) + (t : Int) + 1)).seed k)).sum_payoffs),
    OmpTeam.sum_threads team (fun t k =>
      (MonteCarloPricer.contribution exp option spot drift diffusion use_antithetic
        (normal (RandomGenerator.new ((self.seed_ : Int) + (t : Int) + 1)).seed
          k)).sum_sq_payoffs)]
  rfl

end GBM

/-- On a single thread iteration `i` consumes the `i`-th draw of the stream. -/
theorem MonteCarloPricer.draw_serial (Z : Nat → α) (self : MonteCarloPricer) (i : Nat) :
    self.draw (fun _ k => Z k) OmpTeam.serial i = Z i := by
  have h : (OmpTeam.serial.owner i).val = 0 := rfl
  simp only [MonteCarloPricer.draw, h, OmpTeam.length_assigned_serial]


/-! ## Auxiliary lemmas: the Heston engine -/

section Heston

variable [LinearOrderedField α] (exp sqrt : α → α) (normal : Nat → Nat → α)
  (rate kappa theta xi dt sqrt_dt c1 c2 : α)

theorem HestonPricer.timeStep_eq (st : HestonPricer.PathState α) :
    HestonPricer.timeStep exp sqrt normal rate kappa theta xi dt sqrt_dt c1 c2 st =
      ⟨⟨st.rng.seed, st.rng.calls + 2⟩,
        st.S * exp ((rate - 0.5 * max st.v 0) * dt +
          sqrt (max st.v 0) * (normal st.rng.seed st.rng.calls * sqrt_dt)),
        st.v + (kappa * (theta - max st.v 0) * dt +
          xi * sqrt (max st.v 0) *
            ((c1 * normal st.rng.seed st.rng.calls +
              c2 * normal st.rng.seed (st.rng.calls + 1)) * sqrt_dt))⟩ := by
  simp [HestonPricer.timeStep, RandomGenerator.getNormal]

theorem HestonPricer.stateAfter_rng (spot v0 : α) (rng : RandomGenerator) (k : Nat) :
    (HestonPricer.stateAfter exp sqrt normal spot rate v0 kappa theta xi dt sqrt_dt c1 c2 rng
        k).rng = ⟨rng.seed, rng.calls + 2 * k⟩ := by
  induction k with
  | zero => rfl
  | succ k ih =>
    unfold HestonPricer.stateAfter at ih ⊢
    rw [Function.iterate_succ_apply', HestonPricer.timeStep_eq, ih]
    simp only [RandomGenerator.mk.injEq, true_and]
    ring

theorem HestonPricer.simulatePath_eq_stateAfter (num_steps_ : Int) (spot v0 : α)
    (rng : RandomGenerator) :
    HestonPricer.simulatePath exp sqrt normal num_steps_ spot rate v0 kappa theta xi dt
        sqrt_dt c1 c2 rng =
      HestonPricer.stateAfter exp sqrt normal spot rate v0 kappa theta xi dt sqrt_dt c1 c2 rng
        num_steps_.toNat := by
  unfold HestonPricer.simulatePath HestonPricer.stateAfter
  rw [foldl_const_iterate, List.length_range]

theorem HestonPricer.heston_loopBody_eq (num_steps_ : Int) (option : Option α) (spot v0 : α)
    (g : RandomGenerator) (a : α) :
    HestonPricer.loopBody exp sqrt normal num_steps_ option spot rate v0 kappa theta xi dt
        sqrt_dt c1 c2 (g, a) =
      (⟨g.seed, g.calls + 2 * num_steps_.toNat⟩,
        a + option.payoff (HestonPricer.simulatePath exp sqrt normal num_steps_ spot rate v0
          kappa theta xi dt sqrt_dt c1 c2 g).S) := by
  unfold HestonPricer.loopBody
  simp only [Prod.mk.injEq, and_true]
  rw [HestonPricer.simulatePath_eq_stateAfter, HestonPricer.stateAfter_rng]

theorem HestonPricer.heston_iterate_loopBody (num_steps_ : Int) (option : Option α) (spot v0 : α)
    (n s c : Nat) (a : α) :
    (HestonPricer.loopBody exp sqrt normal num_steps_ option spot rate v0 kappa theta xi dt
        sqrt_dt c1 c2)^[n] (⟨s, c⟩, a) =
      (⟨s, c + 2 * num_steps_.toNat * n⟩,
        a + ∑ k in range n,
          option.payoff (HestonPricer.simulatePath exp sqrt normal num_steps_ spot rate v0
            kappa theta xi dt sqrt_dt c1 c2 ⟨s, c + 2 * num_steps_.toNat * k⟩).S) := by
  induction n with
  | zero => simp
  | succ n ih =>
    rw [Function.iterate_succ_apply', ih, HestonPricer.heston_loopBody_eq]
    simp only [Finset.sum_range_succ, Prod.mk.injEq, RandomGenerator.mk.injEq, true_and]
    constructor
    · ring
    · ring

theorem HestonPricer.heston_threadRun_eq (team : OmpTeam) (self : HestonPricer) (option : Option α)
    (spot v0 : α) (t : Nat) :
    (HestonPricer.threadRun exp sqrt normal team self option spot rate v0 kappa theta xi dt
        sqrt_dt c1 c2 t).2 =
      ∑ k in range (team.assigned self.num_sims_.toNat t).length,
        option.payoff (HestonPricer.simulatePath exp sqrt normal self.num_steps_ spot rate v0
          kappa theta xi dt sqrt_dt c1 c2
          ⟨(RandomGenerator.new (42 + (t : Int))).seed, 2 * self.num_steps_.toNat * k⟩).S := by
  unfold HestonPricer.threadRun
  simp only [foldl_const_iterate]
  have h := HestonPricer.heston_iterate_loopBody exp sqrt normal rate kappa theta xi dt sqrt_dt c1 c2
    self.num_steps_ option spot v0 (team.assigned self.num_sims_.toNat t).length
    (RandomGenerator.new (42 + (t : Int))).seed 0 0
  simp only [zero_add] at h
  have hnew : RandomGenerator.new (42 + (t : Int)) =
      ⟨(RandomGenerator.new (42 + (t : Int))).seed, 0⟩ := rfl
  rw [hnew, h]

theorem foldl_add_eq_sum {β : Type} [AddCommMonoid β] (g : Nat → β) (N : Nat) (init : β) :
    (List.range N).foldl (fun acc t => acc + g t) init = init + ∑ t in range N, g t := by
  induction N with
  | zero => simp
  | succ N ih =>
    rw [List.range_succ, List.foldl_append, ih]
    simp [Finset.sum_range_succ, add_assoc]

/-- The reduction variable after the parallel region of `HestonPricer::price`, as
a sum over the paths of the payoff at the terminal spot of each path. -/
theorem HestonPricer.heston_parallelRegion_eq (team : OmpTeam) (self : HestonPricer)
    (option : Option α) (spot v0 : α) (init : α) :
    HestonPricer.parallelRegion exp sqrt normal team self option spot rate v0 kappa theta xi
        dt sqrt_dt c1 c2 init =
      init + ∑ i in range self.num_sims_.toNat,
        option.payoff (HestonPricer.simulatePath exp sqrt normal self.num_steps_ spot rate v0
          kappa theta xi dt sqrt_dt c1 c2 (HestonPricer.pathStart team self i)).S := by
  unfold HestonPricer.parallelRegion
  rw [foldl_add_eq_sum]
  simp only [HestonPricer.heston_threadRun_eq]
  rw [OmpTeam.sum_threads team (fun t k =>
    option.payoff (HestonPricer.simulatePath exp sqrt normal self.num_steps_ spot rate v0
      kappa theta xi dt sqrt_dt c1 c2
      ⟨(RandomGenerator.new (42 + (t : Int))).seed, 2 * self.num_steps_.toNat * k⟩).S)]
  rfl

end Heston

section HestonReal

/-- A time step only evaluates `sqrt` at the clamped variance, so two square
root functions that agree on the non-negative reals give the same step. -/
theorem HestonPricer.timeStep_congr_sqrt (sqrtf : ℝ → ℝ) (exp : ℝ → ℝ)
    (normal : Nat → Nat → ℝ) (rate kappa theta xi dt sqrt_dt c1 c2 : ℝ)
    (hs : ∀ x : ℝ, 0 ≤ x → sqrtf x = Real.sqrt x) (st : HestonPricer.PathState ℝ) :
    HestonPricer.timeStep exp sqrtf normal rate kappa theta xi dt sqrt_dt c1 c2 st =
      HestonPricer.timeStep exp Real.sqrt normal rate kappa theta xi dt sqrt_dt c1 c2 st := by
  rw [HestonPricer.timeStep_eq, HestonPricer.timeStep_eq, hs _ (le_max_right st.v 0)]

theorem HestonPricer.stateAfter_congr_sqrt (sqrtf : ℝ → ℝ) (exp : ℝ → ℝ)
    (normal : Nat → Nat → ℝ) (spot rate v0 kappa theta xi dt sqrt_dt c1 c2 : ℝ)
    (hs : ∀ x : ℝ, 0 ≤ x → sqrtf x = Real.sqrt x) (rng : RandomGenerator) (k : Nat) :
    HestonPricer.stateAfter exp sqrtf normal spot rate v0 kappa theta xi dt sqrt_dt c1 c2 rng k =
      HestonPricer.stateAfter exp Real.sqrt normal spot rate v0 kappa theta xi dt sqrt_dt c1 c2
        rng k := by
  induction k with
  | zero => rfl
  | succ k ih =>
    unfold HestonPricer.stateAfter at ih ⊢
    rw [Function.iterate_succ_apply', Function.iterate_succ_apply', ih]
    exact HestonPricer.timeStep_congr_sqrt sqrtf exp normal rate kappa theta xi dt sqrt_dt c1 c2
      hs _

theorem HestonPricer.simulatePath_congr_sqrt (sqrtf : ℝ → ℝ) (exp : ℝ → ℝ)
    (normal : Nat → Nat → ℝ) (num_steps_ : Int)
    (spot rate v0 kappa theta xi dt sqrt_dt c1 c2 : ℝ)
    (hs : ∀ x : ℝ, 0 ≤ x → sqrtf x = Real.sqrt x) (rng : RandomGenerator) :
    HestonPricer.simulatePath exp sqrtf normal num_steps_ spot rate v0 kappa theta xi dt
        sqrt_dt c1 c2 rng =
      HestonPricer.simulatePath exp Real.sqrt normal num_steps_ spot rate v0 kappa theta xi dt
        sqrt_dt c1 c2 rng := by
  rw [HestonPricer.simulatePath_eq_stateAfter, HestonPricer.simulatePath_eq_stateAfter]
  exact HestonPricer.stateAfter_congr_sqrt sqrtf exp normal spot rate v0 kappa theta xi dt
    sqrt_dt c1 c2 hs rng _

end HestonReal

/-! ## The GBM path engine -/

/-- C1: without antithetic sampling and with a positive path count, the price
returned by `MonteCarloPricer::price` is
`exp(-rate*T) * (1/numPaths) * Σ_i payoff(spot * exp((rate - 0.5*volatility^2)*T +
volatility*sqrt(T)*Z_i))`, the sum running over the `numPaths` loop iterations and
`Z_i` being the draw that iteration `i` consumes; this holds for every generator
and every assignment of the iterations to threads, and every sequence `Z` of
draws occurs (on one thread, with a generator that produces `Z`). -/
theorem MonteCarloPricer.price_standard_formula (normal : Nat → Nat → ℝ) (team : OmpTeam)
    (self : MonteCarloPricer) (option : Option ℝ) (spot rate volatility : ℝ)
    (h : 0 < self.num_sims_) :
    (self.price Real.exp Real.sqrt normal team option spot rate volatility false).1 =
      Real.exp (-rate * option.getMaturity) * (1 / (self.num_sims_ : ℝ)) *
        ∑ i in range self.num_sims_.toNat,
          option.payoff (spot * Real.exp
            ((rate - 0.5 * volatility ^ 2) * option.getMaturity +
              volatility * Real.sqrt option.getMaturity * self.draw normal team i)) ∧
    ∀ Z : Nat → ℝ,
      (self.price Real.exp Real.sqrt (fun _ k => Z k) OmpTeam.serial option spot rate volatility
          false).1 =
        Real.exp (-rate * option.getMaturity) * (1 / (self.num_sims_ : ℝ)) *
          ∑ i in range self.num_sims_.toNat,
            option.payoff (spot * Real.exp
              ((rate - 0.5 * volatility ^ 2) * option.getMaturity +
                volatility * Real.sqrt option.getMaturity * Z i)) := by
  have _ := h
  have key : ∀ (normal : Nat → Nat → ℝ) (team : OmpTeam),
      (self.price Real.exp Real.sqrt normal team option spot rate volatility false).1 =
        Real.exp (-rate * option.getMaturity) * (1 / (self.num_sims_ : ℝ)) *
          ∑ i in range self.num_sims_.toNat,
            option.payoff (spot * Real.exp
              ((rate - 0.5 * volatility ^ 2) * option.getMaturity +
                volatility * Real.sqrt option.getMaturity * self.draw normal team i)) := by
    intro normal team
    simp only [MonteCarloPricer.price, MonteCarloPricer.estimate,
      MonteCarloPricer.gbm_parallelRegion_eq, MonteCarloPricer.loops,
      MonteCarloPricer.actual_sims, MonteCarloPricer.contribution]
    simp only [Bool.false_eq_true, if_false, zero_add]
    have hd : (rate - 0.5 * volatility * volatility) * option.getMaturity =
        (rate - 0.5 * volatility ^ 2) * option.getMaturity := by ring
    rw [hd]
    ring
  refine ⟨key normal team, ?_⟩
  intro Z
  rw [key]
  simp only [MonteCarloPricer.draw_serial]

/-- Witness for C1: two paths on one thread. -/
theorem MonteCarloPricer.price_standard_formula_witness :
    (0 : Int) < (MonteCarloPricer.new 2 42).num_sims_ ∧
    (((MonteCarloPricer.new 2 42).price Real.exp Real.sqrt (fun _ k => (k : ℝ))
        OmpTeam.serial (EuropeanOption 100 1 OptionType.CALL) 100 0.05 0.2 false).1 =
      Real.exp (-0.05 * (EuropeanOption (100 : ℝ) 1 OptionType.CALL).getMaturity) *
          (1 / (((MonteCarloPricer.new 2 42).num_sims_ : Int) : ℝ)) *
        ∑ i in range (MonteCarloPricer.new 2 42).num_sims_.toNat,
          (EuropeanOption (100 : ℝ) 1 OptionType.CALL).payoff (100 * Real.exp
            ((0.05 - 0.5 * 0.2 ^ 2) * (EuropeanOption (100 : ℝ) 1 OptionType.CALL).getMaturity +
              0.2 * Real.sqrt (EuropeanOption (100 : ℝ) 1 OptionType.CALL).getMaturity *
                (MonteCarloPricer.new 2 42).draw (fun _ k => (k : ℝ)) OmpTeam.serial i)) ∧
    ∀ Z : Nat → ℝ,
      ((MonteCarloPricer.new 2 42).price Real.exp Real.sqrt (fun _ k => Z k) OmpTeam.serial
          (EuropeanOption 100 1 OptionType.CALL) 100 0.05 0.2 false).1 =
        Real.exp (-0.05 * (EuropeanOption (100 : ℝ) 1 OptionType.CALL).getMaturity) *
            (1 / (((MonteCarloPricer.new 2 42).num_sims_ : Int) : ℝ)) *
          ∑ i in range (MonteCarloPricer.new 2 42).num_sims_.toNat,
            (EuropeanOption (100 : ℝ) 1 OptionType.CALL).payoff (100 * Real.exp
              ((0.05 - 0.5 * 0.2 ^ 2) *
                  (EuropeanOption (100 : ℝ) 1 OptionType.CALL).getMaturity +
                0.2 * Real.sqrt (EuropeanOption (100 : ℝ) 1 OptionType.CALL).getMaturity *
                  Z i))) :=
  ⟨by decide,
    MonteCarloPricer.price_standard_formula (fun _ k => (k : ℝ)) OmpTeam.serial
      (MonteCarloPricer.new 2 42) (EuropeanOption 100 1 OptionType.CALL) 100 0.05 0.2
      (by decide)⟩

/-- C2: with antithetic sampling one loop iteration of `MonteCarloPricer::price`
takes one draw `Z`, forms `S1 = spot*exp(drift + diffusion*Z)` and
`S2 = spot*exp(drift - diffusion*Z)`, and adds `payoff(S1) + payoff(S2)` to the
payoff sum and `payoff(S1)^2 + payoff(S2)^2` to the squared-payoff sum; the loop
runs `num_sims_ / 2` times, and after the parallel region the two sums are the
sums of these contributions over all iterations, whatever the generator and the
assignment of iterations to threads. -/
theorem MonteCarloPricer.antithetic_sums (normal : Nat → Nat → ℝ) (team : OmpTeam)
    (self : MonteCarloPricer) (option : Option ℝ) (spot drift diffusion : ℝ) :
    (∀ (g : RandomGenerator) (a : Sums ℝ),
      MonteCarloPricer.loopBody Real.exp normal option spot drift diffusion true (g, a) =
        (⟨g.seed, g.calls + 1⟩,
          ⟨a.sum_payoffs +
              (option.payoff (spot * Real.exp (drift + diffusion * normal g.seed g.calls)) +
                option.payoff (spot * Real.exp (drift - diffusion * normal g.seed g.calls))),
            a.sum_sq_payoffs +
              (option.payoff (spot * Real.exp (drift + diffusion * normal g.seed g.calls)) ^ 2 +
                option.payoff
                  (spot * Real.exp (drift - diffusion * normal g.seed g.calls)) ^ 2)⟩)) ∧
    self.loops true = Int.tdiv self.num_sims_ 2 ∧
    MonteCarloPricer.parallelRegion Real.exp normal team self.seed_ (self.loops true) option
        spot drift diffusion true ⟨0, 0⟩ =
      ⟨∑ i in range (Int.tdiv self.num_sims_ 2).toNat,
          (option.payoff (spot * Real.exp (drift + diffusion * self.draw normal team i)) +
            option.payoff (spot * Real.exp (drift - diffusion * self.draw normal team i))),
        ∑ i in range (Int.tdiv self.num_sims_ 2).toNat,
          (option.payoff (spot * Real.exp (drift + diffusion * self.draw normal team i)) ^ 2 +
            option.payoff
              (spot * Real.exp (drift - diffusion * self.draw normal team i)) ^ 2)⟩ := by
  have hsub : ∀ Z : ℝ, drift + diffusion * (-Z) = drift - diffusion * Z := fun Z => by ring
  refine ⟨?_, ?_, ?_⟩
  · intro g a
    rw [MonteCarloPricer.gbm_loopBody_eq]
    simp only [MonteCarloPricer.contribution, Sums.add, if_true, hsub, pow_two]
  · simp [MonteCarloPricer.loops]
  · rw [MonteCarloPricer.gbm_parallelRegion_eq]
    simp only [MonteCarloPricer.contribution, MonteCarloPricer.loops, if_true, hsub, pow_two,
      zero_add]

/-- C3: for every stored path count `n >= 0` (the specification takes
`numPaths > 0`) the path count used for normalisation is `2 * floor(numPaths / 2)`
in antithetic mode, and it is `numPaths` otherwise; hence for every odd `n` the
antithetic call with `n` paths runs the same number of loop iterations and returns
the same pair as the antithetic call with `n - 1` paths, for the same seed,
generator and team. -/
theorem MonteCarloPricer.actual_sims_floor (normal : Nat → Nat → ℝ) (team : OmpTeam)
    (n : Int) (seed : Nat) (option : Option ℝ) (spot rate volatility : ℝ)
    (hn : 0 ≤ n) :
    (MonteCarloPricer.new n seed).actual_sims true = 2 * ⌊((n : Int) : ℚ) / 2⌋ ∧
    (MonteCarloPricer.new n seed).actual_sims false = n ∧
    (n % 2 = 1 →
      (MonteCarloPricer.new n seed).loops true = (MonteCarloPricer.new (n - 1) seed).loops true ∧
      (MonteCarloPricer.new n seed).price Real.exp Real.sqrt normal team option spot rate
          volatility true =
        (MonteCarloPricer.new (n - 1) seed).price Real.exp Real.sqrt normal team option spot
          rate volatility true) := by
  have hfloor : ⌊((n : Int) : ℚ) / 2⌋ = n / 2 := by
    have h := Rat.floor_intCast_div_natCast n 2
    simpa using h
  have htdiv : Int.tdiv n 2 = n / 2 := Int.tdiv_eq_ediv hn (by decide)
  refine ⟨?_, ?_, ?_⟩
  · simp only [MonteCarloPricer.actual_sims, MonteCarloPricer.loops, MonteCarloPricer.new,
      if_true, hfloor, htdiv]
    ring
  · simp [MonteCarloPricer.actual_sims, MonteCarloPricer.new]
  · intro hodd
    have hn1 : 0 ≤ n - 1 := by omega
    have hl : Int.tdiv n 2 = Int.tdiv (n - 1) 2 := by
      rw [htdiv, Int.tdiv_eq_ediv hn1 (by decide)]
      omega
    have hloops : (MonteCarloPricer.new n seed).loops true =
        (MonteCarloPricer.new (n - 1) seed).loops true := by
      simp only [MonteCarloPricer.loops, MonteCarloPricer.new, if_true, hl]
    refine ⟨hloops, ?_⟩
    simp only [MonteCarloPricer.price, MonteCarloPricer.actual_sims, hloops]
    rfl

/-- Witness for C3: three requested paths against two. -/
theorem MonteCarloPricer.actual_sims_floor_witness :
    (0 : Int) ≤ 3 ∧ (3 : Int) % 2 = 1 ∧
    (MonteCarloPricer.new 3 42).actual_sims true = 2 * ⌊((3 : Int) : ℚ) / 2⌋ ∧
    (MonteCarloPricer.new 3 42).actual_sims false = 3 ∧
    (MonteCarloPricer.new 3 42).loops true = (MonteCarloPricer.new (3 - 1) 42).loops true ∧
    (MonteCarloPricer.new 3 42).price Real.exp Real.sqrt (fun _ k => (k : ℝ))
        OmpTeam.serial (EuropeanOption 100 1 OptionType.CALL) 100 0.05 0.2 true =
      (MonteCarloPricer.new (3 - 1) 42).price Real.exp Real.sqrt (fun _ k => (k : ℝ))
        OmpTeam.serial (EuropeanOption 100 1 OptionType.CALL) 100 0.05 0.2 true :=
  ⟨by decide, by decide,
    (MonteCarloPricer.actual_sims_floor (fun _ k => (k : ℝ)) OmpTeam.serial 3 42
      (EuropeanOption 100 1 OptionType.CALL) 100 0.05 0.2 (by decide)).1,
    (MonteCarloPricer.actual_sims_floor (fun _ k => (k : ℝ)) OmpTeam.serial 3 42
      (EuropeanOption 100 1 OptionType.CALL) 100 0.05 0.2 (by decide)).2.1,
    (MonteCarloPricer.actual_sims_floor (fun _ k => (k : ℝ)) OmpTeam.serial 3 42
      (EuropeanOption 100 1 OptionType.CALL) 100 0.05 0.2 (by decide)).2.2 (by decide)⟩

/-- C4: for every pair of accumulated sums and every positive path count, the
standard error returned by `MonteCarloPricer::price`, computed as
`sqrt(variance)/sqrt(actualPaths)*discount` with `discount = exp(-rate*T)`, equals
`sqrt(variance/actualPaths)*discount`, where
`variance = max(0, sumSquaredPayoffs/actualPaths - mean^2)`; it is non-negative;
and at equal variance a hundred times as many paths give exactly a tenth of it. -/
theorem MonteCarloPricer.std_error_law (sums : Sums ℝ) (actual_sims : Int) (rate T : ℝ)
    (hn : 0 < actual_sims) :
    (MonteCarloPricer.estimate Real.sqrt sums actual_sims (Real.exp (-rate * T))).2 =
      Real.sqrt (MonteCarloPricer.variance sums actual_sims / (actual_sims : ℝ)) *
        Real.exp (-rate * T) ∧
    MonteCarloPricer.variance sums actual_sims =
      max 0 (sums.sum_sq_payoffs / (actual_sims : ℝ) -
        (sums.sum_payoffs / (actual_sims : ℝ)) ^ 2) ∧
    0 ≤ (MonteCarloPricer.estimate Real.sqrt sums actual_sims (Real.exp (-rate * T))).2 ∧
    ∀ sums100 : Sums ℝ,
      MonteCarloPricer.variance sums100 (100 * actual_sims) =
        MonteCarloPricer.variance sums actual_sims →
      (MonteCarloPricer.estimate Real.sqrt sums100 (100 * actual_sims)
          (Real.exp (-rate * T))).2 =
        (MonteCarloPricer.estimate Real.sqrt sums actual_sims (Real.exp (-rate * T))).2 / 10 := by
  have hpos : (0 : ℝ) < (actual_sims : ℝ) := by exact_mod_cast hn
  refine ⟨?_, ?_, ?_, ?_⟩
  · simp only [MonteCarloPricer.estimate]
    rw [Real.sqrt_div' _ hpos.le]
  · simp only [MonteCarloPricer.variance, pow_two]
    split_ifs with h
    · exact (max_eq_left h.le).symm
    · exact (max_eq_right (not_lt.mp h)).symm
  · simp only [MonteCarloPricer.estimate]
    exact mul_nonneg (div_nonneg (Real.sqrt_nonneg _) (Real.sqrt_nonneg _))
      (Real.exp_pos _).le
  · intro sums100 hv
    simp only [MonteCarloPricer.estimate, hv]
    have h100 : Real.sqrt (((100 * actual_sims : Int)) : ℝ) =
        10 * Real.sqrt (actual_sims : ℝ) := by
      have h10 : (((100 * actual_sims : Int)) : ℝ) = 10 ^ 2 * (actual_sims : ℝ) := by
        push_cast
        ring
      rw [h10, Real.sqrt_mul (by positivity), Real.sqrt_sq (by norm_num)]
    rw [h100]
    ring

/-- Witness for C4: sums `(12, 80)` over four paths against sums `(1200, 8000)`
over four hundred paths, both of variance 11. -/
theorem MonteCarloPricer.std_error_law_witness :
    (0 : Int) < 4 ∧
    MonteCarloPricer.variance (⟨1200, 8000⟩ : Sums ℝ) (100 * 4) =
      MonteCarloPricer.variance (⟨12, 80⟩ : Sums ℝ) 4 ∧
    (MonteCarloPricer.estimate Real.sqrt ⟨12, 80⟩ 4 (Real.exp (-0.05 * 1))).2 =
      Real.sqrt (MonteCarloPricer.variance (⟨12, 80⟩ : Sums ℝ) 4 / ((4 : Int) : ℝ)) *
        Real.exp (-0.05 * 1) ∧
    MonteCarloPricer.variance (⟨12, 80⟩ : Sums ℝ) 4 =
      max 0 ((⟨12, 80⟩ : Sums ℝ).sum_sq_payoffs / ((4 : Int) : ℝ) -
        ((⟨12, 80⟩ : Sums ℝ).sum_payoffs / ((4 : Int) : ℝ)) ^ 2) ∧
    0 ≤ (MonteCarloPricer.estimate Real.sqrt ⟨12, 80⟩ 4 (Real.exp (-0.05 * 1))).2 ∧
    (MonteCarloPricer.estimate Real.sqrt ⟨1200, 8000⟩ (100 * 4) (Real.exp (-0.05 * 1))).2 =
      (MonteCarloPricer.estimate Real.sqrt ⟨12, 80⟩ 4 (Real.exp (-0.05 * 1))).2 / 10 :=
  have hv : MonteCarloPricer.variance (⟨1200, 8000⟩ : Sums ℝ) (100 * 4) =
      MonteCarloPricer.variance (⟨12, 80⟩ : Sums ℝ) 4 := by
    simp only [MonteCarloPricer.variance]
    norm_num
  ⟨by decide, hv,
    (MonteCarloPricer.std_error_law ⟨12, 80⟩ 4 0.05 1 (by decide)).1,
    (MonteCarloPricer.std_error_law ⟨12, 80⟩ 4 0.05 1 (by decide)).2.1,
    (MonteCarloPricer.std_error_law ⟨12, 80⟩ 4 0.05 1 (by decide)).2.2.1,
    (MonteCarloPricer.std_error_law ⟨12, 80⟩ 4 0.05 1 (by decide)).2.2.2 ⟨1200, 8000⟩ hv⟩

/-! ## The Heston path engine -/

/-- C5: one time step of `HestonPricer::price`, with `dt = T/numSteps` and
`vc = max(v, 0)`, consumes two draws `Z1`, `Z2` and maps `v` to
`v + kappa*(theta - vc)*dt + xi*sqrt(vc)*(rho*Z1 + sqrt(1 - rho^2)*Z2)*sqrt(dt)` and
`S` to `S*exp((rate - 0.5*vc)*dt + sqrt(vc)*Z1*sqrt(dt))`: both updates use the
clamped variance from before the step, and the stored `v` is not clamped (it can
leave the step negative). -/
theorem HestonPricer.timeStep_formula (normal : Nat → Nat → ℝ) (self : HestonPricer)
    (option : Option ℝ) (rate kappa theta xi rho : ℝ) (st : HestonPricer.PathState ℝ) :
    HestonPricer.timeStep Real.exp Real.sqrt normal rate kappa theta xi
        (option.getMaturity / (self.num_steps_ : ℝ))
        (Real.sqrt (option.getMaturity / (self.num_steps_ : ℝ)))
        rho (Real.sqrt (1.0 - rho * rho)) st =
      ⟨⟨st.rng.seed, st.rng.calls + 2⟩,
        st.S * Real.exp
          ((rate - 0.5 * max st.v 0) * (option.getMaturity / (self.num_steps_ : ℝ)) +
            Real.sqrt (max st.v 0) * normal st.rng.seed st.rng.calls *
              Real.sqrt (option.getMaturity / (self.num_steps_ : ℝ))),
        st.v + kappa * (theta - max st.v 0) * (option.getMaturity / (self.num_steps_ : ℝ)) +
          xi * Real.sqrt (max st.v 0) *
            (rho * normal st.rng.seed st.rng.calls +
              Real.sqrt (1 - rho ^ 2) * normal st.rng.seed (st.rng.calls + 1)) *
            Real.sqrt (option.getMaturity / (self.num_steps_ : ℝ))⟩ ∧
    (HestonPricer.timeStep Real.exp Real.sqrt (fun _ _ => (-2 : ℝ)) 0 0 0 1
        ((1 : ℝ) / ((1 : Int) : ℝ)) (Real.sqrt ((1 : ℝ) / ((1 : Int) : ℝ)))
        1 (Real.sqrt (1.0 - 1 * 1)) ⟨⟨42, 0⟩, 100, 1⟩).v < 0 := by
  constructor
  · rw [HestonPricer.timeStep_eq]
    have h1 : (1.0 : ℝ) - rho * rho = 1 - rho ^ 2 := by norm_num [pow_two]
    rw [h1]
    simp only [HestonPricer.PathState.mk.injEq, true_and]
    constructor
    · ring_nf
    · ring
  · rw [HestonPricer.timeStep_eq]
    norm_num

/-! ## Auxiliary lemmas: the Heston time step on doubles -/

/-- On numbers, with a non-negative step and a correlation between `-1` and `1`,
the time step on doubles is the time step on real numbers. -/
theorem HestonPricer.timeStepDouble_num (normal : Nat → Nat → ℝ)
    (rate kappa theta xi rho dt : ℝ) (hdt : 0 ≤ dt) (hrho : -1 ≤ rho ∧ rho ≤ 1)
    (st : HestonPricer.PathState ℝ) :
    HestonPricer.timeStepDouble Real.exp Real.sqrt normal (Double.num rate) (Double.num kappa)
        (Double.num theta) (Double.num xi) (Double.num dt)
        (HestonPricer.sqrtDtDouble Real.sqrt (Double.num dt)) (Double.num rho)
        (HestonPricer.c2Double Real.sqrt (Double.num rho))
        ⟨st.rng, Double.num st.S, Double.num st.v⟩ =
      ⟨(HestonPricer.timeStep Real.exp Real.sqrt normal rate kappa theta xi dt (Real.sqrt dt)
          rho (Real.sqrt (1.0 - rho * rho)) st).rng,
        Double.num (HestonPricer.timeStep Real.exp Real.sqrt normal rate kappa theta xi dt
          (Real.sqrt dt) rho (Real.sqrt (1.0 - rho * rho)) st).S,
        Double.num (HestonPricer.timeStep Real.exp Real.sqrt normal rate kappa theta xi dt
          (Real.sqrt dt) rho (Real.sqrt (1.0 - rho * rho)) st).v⟩ := by
  have h1 : ¬ (dt < 0) := not_lt.mpr hdt
  have h2 : ¬ ((1.0 : ℝ) - rho * rho < 0) := by
    rw [not_lt]
    norm_num
    nlinarith [hrho.1, hrho.2]
  have h3 : Double.stdMax (Double.num st.v) (Double.num (0.0 : ℝ)) =
      Double.num (max st.v 0) := by
    simp only [Double.stdMax]
    norm_num
    rcases lt_or_le st.v 0 with h | h
    · rw [if_pos h, max_eq_right h.le]
    · rw [if_neg (not_lt.mpr h), max_eq_left h]
  have h4 : ¬ (max st.v 0 < 0) := not_lt.mpr (le_max_right _ _)
  simp only [HestonPricer.timeStepDouble, HestonPricer.timeStep, HestonPricer.sqrtDtDouble,
    HestonPricer.c2Double, RandomGenerator.getNormal, h3, Double.sqrt, Double.mul, Double.add,
    Double.sub, Double.exp, h1, h2, h4, if_false]

/-- On numbers, with a non-negative step and a correlation between `-1` and `1`,
a path on doubles is the path on real numbers. -/
theorem HestonPricer.stateAfterDouble_num (normal : Nat → Nat → ℝ)
    (spot rate v0 kappa theta xi rho dt : ℝ) (hdt : 0 ≤ dt) (hrho : -1 ≤ rho ∧ rho ≤ 1)
    (rng : RandomGenerator) (k : Nat) :
    HestonPricer.stateAfterDouble Real.exp Real.sqrt normal (Double.num spot)
        (Double.num rate) (Double.num v0) (Double.num kappa) (Double.num theta)
        (Double.num xi) (Double.num rho) (Double.num dt) rng k =
      ⟨(HestonPricer.stateAfter Real.exp Real.sqrt normal spot rate v0 kappa theta xi dt
          (Real.sqrt dt) rho (Real.sqrt (1.0 - rho * rho)) rng k).rng,
        Double.num (HestonPricer.stateAfter Real.exp Real.sqrt normal spot rate v0 kappa theta
          xi dt (Real.sqrt dt) rho (Real.sqrt (1.0 - rho * rho)) rng k).S,
        Double.num (HestonPricer.stateAfter Real.exp Real.sqrt normal spot rate v0 kappa theta
          xi dt (Real.sqrt dt) rho (Real.sqrt (1.0 - rho * rho)) rng k).v⟩ := by
  induction k with
  | zero => rfl
  | succ k ih =>
    unfold HestonPricer.stateAfterDouble HestonPricer.stateAfter at ih ⊢
    rw [Function.iterate_succ_apply', Function.iterate_succ_apply', ih]
    exact HestonPricer.timeStepDouble_num normal rate kappa theta xi rho dt hdt hrho _

/-- With a correlation outside `[-1, 1]` the constant `c2` is NaN. -/
theorem HestonPricer.c2Double_nan (rho : ℝ) (hrho : 1 < rho * rho) :
    HestonPricer.c2Double Real.sqrt (Double.num rho) = Double.nan := by
  have h : (1.0 : ℝ) - rho * rho < 0 := by norm_num; linarith
  simp only [HestonPricer.c2Double, Double.mul, Double.sub, Double.sqrt, h, if_true]

/-- With a negative step the constant `sqrt_dt` is NaN. -/
theorem HestonPricer.sqrtDtDouble_nan (dt : ℝ) (hdt : dt < 0) :
    HestonPricer.sqrtDtDouble Real.sqrt (Double.num dt) = Double.nan := by
  simp only [HestonPricer.sqrtDtDouble, Double.sqrt, hdt, if_true]

/-- NaN on the right of a product gives NaN. -/
theorem Double.mul_nan_right (a : Double ℝ) : a.mul Double.nan = Double.nan := by
  cases a <;> rfl

/-- NaN on the left of a product gives NaN. -/
theorem Double.mul_nan_left (a : Double ℝ) : Double.nan.mul a = Double.nan := by
  cases a <;> rfl

/-- NaN on the right of a sum gives NaN. -/
theorem Double.add_nan_right (a : Double ℝ) : a.add Double.nan = Double.nan := by
  cases a <;> rfl

/-- NaN on the left of a sum gives NaN. -/
theorem Double.add_nan_left (a : Double ℝ) : Double.nan.add a = Double.nan := by
  cases a <;> rfl

/-- A time step whose constant `c2` or `sqrt_dt` is NaN stores NaN as variance. -/
theorem HestonPricer.timeStepDouble_nan_coefficient (exp sqrt : ℝ → ℝ)
    (normal : Nat → Nat → ℝ) (rate kappa theta xi dt sqrt_dt c1 c2 : Double ℝ)
    (st : HestonPricer.DoubleState ℝ) (h : c2 = Double.nan ∨ sqrt_dt = Double.nan) :
    (HestonPricer.timeStepDouble exp sqrt normal rate kappa theta xi dt sqrt_dt c1 c2 st).v =
      Double.nan := by
  rcases h with h | h <;>
    simp only [HestonPricer.timeStepDouble, RandomGenerator.getNormal, h, Double.mul_nan_left,
      Double.mul_nan_right, Double.add_nan_right, Double.add_nan_left]

/-- With a constant `c2` or `sqrt_dt` that is NaN, the square-root argument of
every time step after the first is NaN. -/
theorem HestonPricer.sqrtArgument_nan (exp sqrt : ℝ → ℝ) (normal : Nat → Nat → ℝ)
    (spot rate v0 kappa theta xi rho dt : Double ℝ) (rng : RandomGenerator) (k : Nat)
    (h : HestonPricer.c2Double sqrt rho = Double.nan ∨
      HestonPricer.sqrtDtDouble sqrt dt = Double.nan) :
    HestonPricer.sqrtArgument exp sqrt normal spot rate v0 kappa theta xi rho dt rng (k + 1) =
      Double.nan := by
  unfold HestonPricer.sqrtArgument HestonPricer.stateAfterDouble
  rw [Function.iterate_succ_apply',
    HestonPricer.timeStepDouble_nan_coefficient exp sqrt normal rate kappa theta xi dt _ rho _ _ h]
  rfl

/-- Counterexample to C6 as stated: with `rho = 2` (spot 100, rate 0.05,
`v0 = 0.04`, `kappa = 2`, `theta = 0.04`, `xi = 0.3`, `dt = 0.5`, the generator of
thread 0) the constant `c2 = sqrt(1 - rho*rho) = sqrt(-3)` is NaN. The first time
step takes the square root of `max(0.04, 0) = 0.04` and stores a NaN variance; in
the second time step `std::max(NaN, 0.0)` returns NaN, so the argument of the
square root is NaN, which is not `>= 0`. The same happens with `rho = 0.5` and a
negative step `dt = -0.5`, where `sqrt_dt` is NaN. -/
theorem HestonPricer.sqrt_argument_counterexample :
    HestonPricer.c2Double Real.sqrt (Double.num (2 : ℝ)) = Double.nan ∧
    HestonPricer.sqrtArgument Real.exp Real.sqrt (fun _ k => (k : ℝ)) (Double.num 100)
        (Double.num 0.05) (Double.num 0.04) (Double.num 2) (Double.num 0.04) (Double.num 0.3)
        (Double.num 2) (Double.num 0.5) (RandomGenerator.new 42) 0 = Double.num 0.04 ∧
    HestonPricer.sqrtArgument Real.exp Real.sqrt (fun _ k => (k : ℝ)) (Double.num 100)
        (Double.num 0.05) (Double.num 0.04) (Double.num 2) (Double.num 0.04) (Double.num 0.3)
        (Double.num 2) (Double.num 0.5) (RandomGenerator.new 42) 1 = Double.nan ∧
    ¬ Double.nonneg
      (HestonPricer.sqrtArgument Real.exp Real.sqrt (fun _ k => (k : ℝ)) (Double.num 100)
        (Double.num 0.05) (Double.num 0.04) (Double.num 2) (Double.num 0.04) (Double.num 0.3)
        (Double.num 2) (Double.num 0.5) (RandomGenerator.new 42) 1) ∧
    ¬ Double.nonneg
      (HestonPricer.sqrtArgument Real.exp Real.sqrt (fun _ k => (k : ℝ)) (Double.num 100)
        (Double.num 0.05) (Double.num 0.04) (Double.num 2) (Double.num 0.04) (Double.num 0.3)
        (Double.num 0.5) (Double.num (-0.5)) (RandomGenerator.new 42) 1) := by
  have hc2 : HestonPricer.c2Double Real.sqrt (Double.num (2 : ℝ)) = Double.nan :=
    HestonPricer.c2Double_nan 2 (by norm_num)
  have hdt : HestonPricer.sqrtDtDouble Real.sqrt (Double.num (-0.5 : ℝ)) = Double.nan :=
    HestonPricer.sqrtDtDouble_nan (-0.5) (by norm_num)
  have h1 := HestonPricer.sqrtArgument_nan Real.exp Real.sqrt (fun _ k => (k : ℝ))
    (Double.num 100) (Double.num 0.05) (Double.num 0.04) (Double.num 2) (Double.num 0.04)
    (Double.num 0.3) (Double.num 2) (Double.num 0.5) (RandomGenerator.new 42) 0 (Or.inl hc2)
  have h2 := HestonPricer.sqrtArgument_nan Real.exp Real.sqrt (fun _ k => (k : ℝ))
    (Double.num 100) (Double.num 0.05) (Double.num 0.04) (Double.num 2) (Double.num 0.04)
    (Double.num 0.3) (Double.num 0.5) (Double.num (-0.5)) (RandomGenerator.new 42) 0
    (Or.inr hdt)
  refine ⟨hc2, ?_, h1, ?_, ?_⟩
  · simp only [HestonPricer.sqrtArgument, HestonPricer.stateAfterDouble, Function.iterate_zero,
      id_eq, Double.stdMax]
    norm_num
  · rw [h1]
    exact fun h => h
  · rw [h2]
    exact fun h => h

/-- C6 (amended): Heston non-negativity for a correlation in `[-1, 1]`. For every
`v0`, `kappa`, `theta`, `xi` (including small `kappa` and large `xi`), every `rho`
with `-1 <= rho <= 1`, every step `dt >= 0`, every draw sequence and every time
step `k` of every path, none of the quantities being NaN: the argument of each
square root taken of the variance in `HestonPricer::price` is the number
`max(v, 0)`, `v` being the stored variance of the exact-arithmetic path, and it is
`>= 0`, even when `v` has gone negative in an earlier step (in the example of the
last part `v = -1` after one step and the next argument is `0`). When instead
`rho*rho > 1` or `dt < 0`, the argument is NaN in every time step after the
first. -/
theorem HestonPricer.sqrt_argument_nonneg (normal : Nat → Nat → ℝ)
    (spot rate v0 kappa theta xi rho dt : ℝ) (rng : RandomGenerator) (k : Nat)
    (hdt : 0 ≤ dt) (hrho : -1 ≤ rho ∧ rho ≤ 1) :
    HestonPricer.sqrtArgument Real.exp Real.sqrt normal (Double.num spot) (Double.num rate)
        (Double.num v0) (Double.num kappa) (Double.num theta) (Double.num xi) (Double.num rho)
        (Double.num dt) rng k =
      Double.num (max (HestonPricer.stateAfter Real.exp Real.sqrt normal spot rate v0 kappa
        theta xi dt (Real.sqrt dt) rho (Real.sqrt (1.0 - rho * rho)) rng k).v 0) ∧
    Double.nonneg
      (HestonPricer.sqrtArgument Real.exp Real.sqrt normal (Double.num spot) (Double.num rate)
        (Double.num v0) (Double.num kappa) (Double.num theta) (Double.num xi) (Double.num rho)
        (Double.num dt) rng k) ∧
    (HestonPricer.stateAfterDouble Real.exp Real.sqrt normal (Double.num spot)
        (Double.num rate) (Double.num v0) (Double.num kappa) (Double.num theta)
        (Double.num xi) (Double.num rho) (Double.num dt) rng k).v =
      Double.num (HestonPricer.stateAfter Real.exp Real.sqrt normal spot rate v0 kappa theta xi
        dt (Real.sqrt dt) rho (Real.sqrt (1.0 - rho * rho)) rng k).v ∧
    (∀ (rho2 dt2 : ℝ) (j : Nat), 1 < rho2 * rho2 ∨ dt2 < 0 →
      HestonPricer.sqrtArgument Real.exp Real.sqrt normal (Double.num spot) (Double.num rate)
        (Double.num v0) (Double.num kappa) (Double.num theta) (Double.num xi)
        (Double.num rho2) (Double.num dt2) rng (j + 1) = Double.nan) ∧
    ((HestonPricer.stateAfterDouble Real.exp Real.sqrt (fun _ _ => (-2 : ℝ)) (Double.num 100)
        (Double.num 0) (Double.num 1) (Double.num 0) (Double.num 0) (Double.num 1)
        (Double.num 1) (Double.num 1) (RandomGenerator.new 42) 1).v = Double.num (-1) ∧
      HestonPricer.sqrtArgument Real.exp Real.sqrt (fun _ _ => (-2 : ℝ)) (Double.num 100)
        (Double.num 0) (Double.num 1) (Double.num 0) (Double.num 0) (Double.num 1)
        (Double.num 1) (Double.num 1) (RandomGenerator.new 42) 1 = Double.num 0) := by
  have hst := HestonPricer.stateAfterDouble_num normal spot rate v0 kappa theta xi rho dt hdt
    hrho rng k
  have harg : HestonPricer.sqrtArgument Real.exp Real.sqrt normal (Double.num spot)
      (Double.num rate) (Double.num v0) (Double.num kappa) (Double.num theta) (Double.num xi)
      (Double.num rho) (Double.num dt) rng k =
      Double.num (max (HestonPricer.stateAfter Real.exp Real.sqrt normal spot rate v0 kappa
        theta xi dt (Real.sqrt dt) rho (Real.sqrt (1.0 - rho * rho)) rng k).v 0) := by
    unfold HestonPricer.sqrtArgument
    rw [hst]
    simp only [Double.stdMax]
    norm_num
    rcases lt_or_le (HestonPricer.stateAfter Real.exp Real.sqrt normal spot rate v0 kappa
      theta xi dt (Real.sqrt dt) rho (Real.sqrt (1 - rho * rho)) rng k).v 0 with h | h
    · rw [if_pos h, max_eq_right h.le]
    · rw [if_neg (not_lt.mpr h), max_eq_left h]
  have hex : (HestonPricer.stateAfter Real.exp Real.sqrt (fun _ _ => (-2 : ℝ)) 100 0 1 0 0 1 1
      (Real.sqrt 1) 1 (Real.sqrt (1.0 - 1 * 1)) (RandomGenerator.new 42) 1).v = -1 := by
    rw [HestonPricer.stateAfter, Function.iterate_one, HestonPricer.timeStep_eq]
    norm_num
  refine ⟨harg, ?_, ?_, ?_, ?_, ?_⟩
  · rw [harg]
    exact le_max_right _ _
  · rw [hst]
  · intro rho2 dt2 j h
    apply HestonPricer.sqrtArgument_nan
    rcases h with h | h
    · exact Or.inl (HestonPricer.c2Double_nan rho2 h)
    · exact Or.inr (HestonPricer.sqrtDtDouble_nan dt2 h)
  · rw [HestonPricer.stateAfterDouble_num (fun _ _ => (-2 : ℝ)) 100 0 1 0 0 1 1 1 (by norm_num)
      ⟨by norm_num, by norm_num⟩, hex]
  · unfold HestonPricer.sqrtArgument
    rw [HestonPricer.stateAfterDouble_num (fun _ _ => (-2 : ℝ)) 100 0 1 0 0 1 1 1 (by norm_num)
      ⟨by norm_num, by norm_num⟩, hex]
    simp only [Double.stdMax]
    norm_num

/-- Witness for C6 (amended): `rho = -0.7`, a step of `0.01`, the fourth time step
of a path of thread 0. -/
theorem HestonPricer.sqrt_argument_nonneg_witness :
    (0 : ℝ) ≤ 0.01 ∧ ((-1 : ℝ) ≤ -0.7 ∧ (-0.7 : ℝ) ≤ 1) ∧
    Double.nonneg
      (HestonPricer.sqrtArgument Real.exp Real.sqrt (fun _ k => (k : ℝ)) (Double.num 100)
        (Double.num 0.05) (Double.num 0.04) (Double.num 0.1) (Double.num 0.04)
        (Double.num 2) (Double.num (-0.7)) (Double.num 0.01) (RandomGenerator.new 42) 3) :=
  ⟨by norm_num, ⟨by norm_num, by norm_num⟩,
    (HestonPricer.sqrt_argument_nonneg (fun _ k => (k : ℝ)) 100 0.05 0.04 0.1 0.04 2 (-0.7)
      0.01 (RandomGenerator.new 42) 3 (by norm_num) ⟨by norm_num, by norm_num⟩).2.1⟩

/-- C8: for a positive path count, `HestonPricer::price` returns
`exp(-rate*T) * (Σ over all paths of payoff(terminal S after numSteps steps)) /
numPaths`, for every generator and every assignment of the paths to threads; the
returned value is this single number (the method has no standard-error
component). -/
theorem HestonPricer.price_formula (normal : Nat → Nat → ℝ) (team : OmpTeam)
    (self : HestonPricer) (option : Option ℝ) (spot rate v0 kappa theta xi rho : ℝ)
    (h : 0 < self.num_sims_) :
    self.price Real.exp Real.sqrt normal team option spot rate v0 kappa theta xi rho =
      Real.exp (-rate * option.getMaturity) *
        (∑ i in range self.num_sims_.toNat,
          option.payoff (HestonPricer.simulatePath Real.exp Real.sqrt normal self.num_steps_
            spot rate v0 kappa theta xi
            (option.getMaturity / (self.num_steps_ : ℝ))
            (Real.sqrt (option.getMaturity / (self.num_steps_ : ℝ)))
            rho (Real.sqrt (1.0 - rho * rho))
            (HestonPricer.pathStart team self i)).S) /
        (self.num_sims_ : ℝ) := by
  have _ := h
  simp only [HestonPricer.price, HestonPricer.heston_parallelRegion_eq, zero_add]
  ring

/-- Witness for C8: two paths of two steps on one thread. -/
theorem HestonPricer.price_formula_witness :
    (0 : Int) < (HestonPricer.new 2 2).num_sims_ ∧
    (HestonPricer.new 2 2).price Real.exp Real.sqrt (fun _ k => (k : ℝ)) OmpTeam.serial
        (EuropeanOption 100 1 OptionType.CALL) 100 0.05 0.04 2 0.04 0.3 (-0.7) =
      Real.exp (-0.05 * (EuropeanOption (100 : ℝ) 1 OptionType.CALL).getMaturity) *
        (∑ i in range (HestonPricer.new 2 2).num_sims_.toNat,
          (EuropeanOption (100 : ℝ) 1 OptionType.CALL).payoff
            (HestonPricer.simulatePath Real.exp Real.sqrt (fun _ k => (k : ℝ))
              (HestonPricer.new 2 2).num_steps_ 100 0.05 0.04 2 0.04 0.3
              ((EuropeanOption (100 : ℝ) 1 OptionType.CALL).getMaturity /
                (((HestonPricer.new 2 2).num_steps_ : Int) : ℝ))
              (Real.sqrt ((EuropeanOption (100 : ℝ) 1 OptionType.CALL).getMaturity /
                (((HestonPricer.new 2 2).num_steps_ : Int) : ℝ)))
              (-0.7) (Real.sqrt (1.0 - -0.7 * -0.7))
              (HestonPricer.pathStart OmpTeam.serial (HestonPricer.new 2 2) i)).S) /
        (((HestonPricer.new 2 2).num_sims_ : Int) : ℝ) :=
  ⟨by decide,
    HestonPricer.price_formula (fun _ k => (k : ℝ)) OmpTeam.serial (HestonPricer.new 2 2)
      (EuropeanOption 100 1 OptionType.CALL) 100 0.05 0.04 2 0.04 0.3 (-0.7) (by decide)⟩

/-! ## The finite-difference Greeks engine -/

/-- C9: for every engine, option, spot, rate, vol and epsilon,
`MonteCarloGreeks::delta` returns `(P(spot + epsilon) - P(spot - epsilon)) /
(2*epsilon)`, where `P` is the first component of the antithetic
`MonteCarloPricer::price` of a pricer holding the engine's path count and the
engine's base seed, the same in both calls, all other inputs being the ones
given; when `epsilon` is omitted it is `0.01`. -/
theorem MonteCarloGreeks.delta_formula (normal : Nat → Nat → ℝ) (team_up team_down : OmpTeam)
    (self : MonteCarloGreeks) (option : Option ℝ) (spot rate vol epsilon : ℝ) :
    (self.delta Real.exp Real.sqrt normal team_up team_down option spot rate vol epsilon).1 =
      (((MonteCarloPricer.new self.pricer_.num_sims_ self.seed_).price Real.exp Real.sqrt normal
            team_up option (spot + epsilon) rate vol true).1 -
          ((MonteCarloPricer.new self.pricer_.num_sims_ self.seed_).price Real.exp Real.sqrt
            normal team_down option (spot - epsilon) rate vol true).1) /
        (2 * epsilon) ∧
    self.delta Real.exp Real.sqrt normal team_up team_down option spot rate vol =
      self.delta Real.exp Real.sqrt normal team_up team_down option spot rate vol 0.01 := by
  refine ⟨?_, rfl⟩
  simp only [MonteCarloGreeks.delta, MonteCarloPricer.setSeed, MonteCarloPricer.new]
  norm_num

/-- C10: for every engine, option, spot, rate, vol and epsilon,
`MonteCarloGreeks::gamma` returns `(P(spot + epsilon) - 2*P(spot) +
P(spot - epsilon)) / epsilon^2`, where `P` is the first component of the
antithetic `MonteCarloPricer::price` of a pricer holding the engine's path count
and the engine's base seed, the same in the three calls, all other inputs being
the ones given; when `epsilon` is omitted it is `0.01`. -/
theorem MonteCarloGreeks.gamma_formula (normal : Nat → Nat → ℝ)
    (team_up team_base team_down : OmpTeam)
    (self : MonteCarloGreeks) (option : Option ℝ) (spot rate vol epsilon : ℝ) :
    (self.gamma Real.exp Real.sqrt normal team_up team_base team_down option spot rate vol
        epsilon).1 =
      (((MonteCarloPricer.new self.pricer_.num_sims_ self.seed_).price Real.exp Real.sqrt normal
            team_up option (spot + epsilon) rate vol true).1 -
          2 * ((MonteCarloPricer.new self.pricer_.num_sims_ self.seed_).price Real.exp Real.sqrt
            normal team_base option spot rate vol true).1 +
          ((MonteCarloPricer.new self.pricer_.num_sims_ self.seed_).price Real.exp Real.sqrt
            normal team_down option (spot - epsilon) rate vol true).1) /
        epsilon ^ 2 ∧
    self.gamma Real.exp Real.sqrt normal team_up team_base team_down option spot rate vol =
      self.gamma Real.exp Real.sqrt normal team_up team_base team_down option spot rate vol
        0.01 := by
  refine ⟨?_, rfl⟩
  simp only [MonteCarloGreeks.gamma, MonteCarloPricer.setSeed, MonteCarloPricer.new, pow_two]
  norm_num

/-! ## Auxiliary lemmas: seeds, generators and the Greeks engine -/

theorem RandomGenerator.new_natCast (a : Nat) :
    RandomGenerator.new (a : Int) = ⟨a % 2 ^ 32, 0⟩ := by
  unfold RandomGenerator.new
  have h : ((a : Int) % 2 ^ 32) = (((a % 2 ^ 32 : Nat)) : Int) := by
    push_cast
    rfl
  rw [h, Int.toNat_natCast]

/-- The generator of thread `t` after its share of the loop of
`MonteCarloPricer::price`: seeded with `seed_ + t + 1`, one call per iteration. -/
theorem MonteCarloPricer.gbm_threadRun_rng {α : Type} [LinearOrderedField α] (exp : α → α)
    (normal : Nat → Nat → α) (team : OmpTeam) (seed_ : Nat) (loops : Int) (option : Option α)
    (spot drift diffusion : α) (use_antithetic : Bool) (t : Nat) :
    (MonteCarloPricer.threadRun exp normal team seed_ loops option spot drift diffusion
        use_antithetic t).1 =
      ⟨(seed_ + t + 1) % 2 ^ 32, (team.assigned loops.toNat t).length⟩ := by
  unfold MonteCarloPricer.threadRun
  simp only [foldl_const_iterate]
  have hcast : ((seed_ : Int) + (t : Int) + 1) = (((seed_ + t + 1 : Nat)) : Int) := by
    push_cast
    rfl
  rw [hcast, RandomGenerator.new_natCast, MonteCarloPricer.gbm_iterate_loopBody]
  simp

theorem MonteCarloGreeks.perform_seed {α : Type} [LinearOrderedField α] (exp sqrt : α → α)
    (normal : Nat → Nat → α) (s : Nat) (hs : s < 2 ^ 32) (self : MonteCarloGreeks)
    (h : self.pricer_.seed_ = s ∧ self.seed_ = s) (call : MonteCarloGreeks.Call α) :
    ((self.perform exp sqrt normal call).1.pricer_.seed_ = s ∧
      (self.perform exp sqrt normal call).1.seed_ = s) ∧
    ∀ p ∈ (self.perform exp sqrt normal call).2,
      p.seed_ = s ∧ p.num_sims_ = self.pricer_.num_sims_ := by
  obtain ⟨h1, h2⟩ := h
  have hlt : s < 4294967296 := by simpa using hs
  cases call <;>
    simp [MonteCarloGreeks.perform, MonteCarloGreeks.deltaLogged, MonteCarloGreeks.gammaLogged,
      MonteCarloGreeks.vegaLogged, MonteCarloGreeks.rhoLogged, MonteCarloPricer.priceLogged,
      MonteCarloPricer.setSeed, MonteCarloGreeks.setNumSimulations,
      MonteCarloPricer.setNumSimulations, h1, h2, hlt]

theorem MonteCarloGreeks.performAll_seed {α : Type} [LinearOrderedField α] (exp sqrt : α → α)
    (normal : Nat → Nat → α) (s : Nat) (hs : s < 2 ^ 32)
    (calls : List (MonteCarloGreeks.Call α)) (self : MonteCarloGreeks)
    (h : self.pricer_.seed_ = s ∧ self.seed_ = s) :
    (self.performAll exp sqrt normal calls).pricer_.seed_ = s ∧
      (self.performAll exp sqrt normal calls).seed_ = s := by
  induction calls generalizing self with
  | nil => exact h
  | cons c cs ih =>
    simp only [MonteCarloGreeks.performAll, List.foldl_cons]
    exact ih _ (MonteCarloGreeks.perform_seed exp sqrt normal s hs self h c).1

/-- The generator of thread `t` after its share of the path loop of
`HestonPricer::price`: seeded with `42 + t`, `2 * num_steps_` calls per path. -/
theorem HestonPricer.heston_threadRun_rng {α : Type} [LinearOrderedField α] (exp sqrt : α → α)
    (normal : Nat → Nat → α) (team : OmpTeam) (self : HestonPricer) (option : Option α)
    (spot rate v0 kappa theta xi dt sqrt_dt c1 c2 : α) (t : Nat) :
    (HestonPricer.threadRun exp sqrt normal team self option spot rate v0 kappa theta xi dt
        sqrt_dt c1 c2 t).1 =
      ⟨(42 + t) % 2 ^ 32,
        2 * self.num_steps_.toNat * (team.assigned self.num_sims_.toNat t).length⟩ := by
  unfold HestonPricer.threadRun
  simp only [foldl_const_iterate]
  have hcast : ((42 : Int) + (t : Int)) = (((42 + t : Nat)) : Int) := by
    push_cast
    rfl
  rw [hcast, RandomGenerator.new_natCast, HestonPricer.heston_iterate_loopBody]
  simp

theorem seed_offset_injective (base offset w1 w2 : Nat) (h1 : w1 < 2 ^ 32) (h2 : w2 < 2 ^ 32)
    (h : (base + w1 + offset) % 2 ^ 32 = (base + w2 + offset) % 2 ^ 32) : w1 = w2 := by
  norm_num at h1 h2 h
  omega

/-! ## Auxiliary lemmas: order-independence of the reduction -/

theorem foldl_add_map_sum {β ι : Type} [AddCommMonoid β] (c : ι → β) (L : List ι) (a : β) :
    L.foldl (fun s i => s + c i) a = a + (L.map c).sum := by
  induction L generalizing a with
  | nil => simp
  | cons x xs ih => simp [List.foldl_cons, ih, add_assoc]

theorem OmpTeam.reduceOrdered_eq {α : Type} [LinearOrderedField α] (threads : List Nat)
    (iters : Nat → List Nat) (c : Nat → α) (init : α) :
    OmpTeam.reduceOrdered threads iters c init =
      init + (threads.map (fun t => ((iters t).map c).sum)).sum := by
  unfold OmpTeam.reduceOrdered
  rw [foldl_add_map_sum (fun t => (iters t).foldl (fun s i => s + c i) 0)]
  simp only [foldl_add_map_sum, zero_add]

theorem list_range_map_sum {β : Type} [AddCommMonoid β] (f : Nat → β) (N : Nat) :
    ((List.range N).map f).sum = ∑ t in range N, f t := by
  induction N with
  | zero => simp
  | succ N ih => simp [List.range_succ, Finset.sum_range_succ, ih]

/-- Summing a quantity of the iteration over each thread's iterations, and then
over the threads, is summing it over all iterations. -/
theorem OmpTeam.sum_assigned {β : Type} [AddCommMonoid β] (team : OmpTeam) (c : Nat → β)
    (n : Nat) :
    ((List.range team.num_threads).map (fun t => ((team.assigned n t).map c).sum)).sum =
      ∑ i in range n, c i := by
  induction n with
  | zero => simp [OmpTeam.assigned]
  | succ n ih =>
    rw [Finset.sum_range_succ, ← ih]
    have h : ∀ t : Nat, ((team.assigned (n + 1) t).map c).sum =
        ((team.assigned n t).map c).sum + (if (team.owner n).val = t then c n else 0) := by
      intro t
      rw [OmpTeam.assigned_succ]
      by_cases h : (team.owner n).val = t <;> simp [h]
    simp only [h]
    rw [List.sum_map_add]
    congr 1
    rw [list_range_map_sum, Finset.sum_ite_eq]
    simp

/-! ## Auxiliary lemmas: the implied-volatility solver -/

section Solver

variable [LinearOrderedField α] (exp sqrt log : α → α)
  (marketPrice spot strike rate maturity : α) (type : OptionType) (epsilon : α)

theorem ImpliedVolatility.tested_succ (sigma : α) (j : Nat)
    (h0 : ¬ ImpliedVolatility.meetsTolerance exp sqrt log marketPrice spot strike rate maturity
      type epsilon sigma)
    (h1 : ¬ ImpliedVolatility.vegaTooSmall exp sqrt log spot strike rate maturity type sigma) :
    ImpliedVolatility.tested exp sqrt log marketPrice spot strike rate maturity type sigma
        epsilon (j + 1) ↔
      ImpliedVolatility.tested exp sqrt log marketPrice spot strike rate maturity type
        (ImpliedVolatility.newtonStep exp sqrt log marketPrice spot strike rate maturity type
          sigma) epsilon j := by
  unfold ImpliedVolatility.tested ImpliedVolatility.iterate
  constructor
  · intro h i hi
    have := h (i + 1) (by omega)
    simpa [Function.iterate_succ_apply] using this
  · intro h i hi
    cases i with
    | zero => exact ⟨by simpa using h0, by simpa using h1⟩
    | succ i =>
      have := h i (by omega)
      simpa [Function.iterate_succ_apply] using this

theorem ImpliedVolatility.solve_of_meets (n : Nat) (sigma : α)
    (h : ImpliedVolatility.meetsTolerance exp sqrt log marketPrice spot strike rate maturity
      type epsilon sigma) :
    ImpliedVolatility.solve exp sqrt log marketPrice spot strike rate maturity type epsilon
      (n + 1) sigma = sigma := by
  unfold ImpliedVolatility.meetsTolerance ImpliedVolatility.diff at h
  rw [ImpliedVolatility.solve]
  simp only [h, if_true]

theorem ImpliedVolatility.solve_step (n : Nat) (sigma : α)
    (h0 : ¬ ImpliedVolatility.meetsTolerance exp sqrt log marketPrice spot strike rate maturity
      type epsilon sigma)
    (h1 : ¬ ImpliedVolatility.vegaTooSmall exp sqrt log spot strike rate maturity type sigma) :
    ImpliedVolatility.solve exp sqrt log marketPrice spot strike rate maturity type epsilon
        (n + 1) sigma =
      ImpliedVolatility.solve exp sqrt log marketPrice spot strike rate maturity type epsilon n
        (ImpliedVolatility.newtonStep exp sqrt log marketPrice spot strike rate maturity type
          sigma) := by
  unfold ImpliedVolatility.meetsTolerance ImpliedVolatility.diff at h0
  unfold ImpliedVolatility.vegaTooSmall ImpliedVolatility.vegaAt at h1
  rw [ImpliedVolatility.solve]
  simp only [h0, if_false, h1, ImpliedVolatility.newtonStep, ImpliedVolatility.diff,
    ImpliedVolatility.vegaAt]

/-- What the loop of `ImpliedVolatility::calculate` returns: the first tested
iterate that meets the tolerance if there is one among the first `n`, else
`-1.0`. -/
theorem ImpliedVolatility.solve_spec (n : Nat) (sigma : α) :
    (∃ j, j < n ∧
      ImpliedVolatility.tested exp sqrt log marketPrice spot strike rate maturity type sigma
        epsilon j ∧
      ImpliedVolatility.meetsTolerance exp sqrt log marketPrice spot strike rate maturity type
        epsilon
        (ImpliedVolatility.iterate exp sqrt log marketPrice spot strike rate maturity type
          sigma j) ∧
      ImpliedVolatility.solve exp sqrt log marketPrice spot strike rate maturity type epsilon n
          sigma =
        ImpliedVolatility.iterate exp sqrt log marketPrice spot strike rate maturity type
          sigma j) ∨
    ((∀ j, j < n →
        ImpliedVolatility.tested exp sqrt log marketPrice spot strike rate maturity type sigma
          epsilon j →
        ¬ ImpliedVolatility.meetsTolerance exp sqrt log marketPrice spot strike rate maturity
          type epsilon
          (ImpliedVolatility.iterate exp sqrt log marketPrice spot strike rate maturity type
            sigma j)) ∧
      ImpliedVolatility.solve exp sqrt log marketPrice spot strike rate maturity type epsilon n
        sigma = -1.0) := by
  induction n generalizing sigma with
  | zero =>
    right
    exact ⟨fun j hj => absurd hj (Nat.not_lt_zero j), rfl⟩
  | succ n ih =>
    by_cases h0 : ImpliedVolatility.meetsTolerance exp sqrt log marketPrice spot strike rate
        maturity type epsilon sigma
    · left
      refine ⟨0, Nat.succ_pos n, fun i hi => absurd hi (Nat.not_lt_zero i), h0, ?_⟩
      have h0' := h0
      unfold ImpliedVolatility.meetsTolerance ImpliedVolatility.diff at h0'
      simp only [ImpliedVolatility.solve, h0', if_true, ImpliedVolatility.iterate,
        Function.iterate_zero, id_eq]
    · have h0' := h0
      unfold ImpliedVolatility.meetsTolerance ImpliedVolatility.diff at h0'
      by_cases h1 : ImpliedVolatility.vegaTooSmall exp sqrt log spot strike rate maturity type
          sigma
      · right
        have h1' := h1
        unfold ImpliedVolatility.vegaTooSmall ImpliedVolatility.vegaAt at h1'
        refine ⟨?_, ?_⟩
        · intro j _ ht
          cases j with
          | zero => simpa [ImpliedVolatility.iterate] using h0
          | succ j =>
            have := (ht 0 (Nat.succ_pos j)).2
            exact absurd (by simpa [ImpliedVolatility.iterate] using h1) this
        · simp only [ImpliedVolatility.solve, h0', if_false, h1', if_true]
      · have h1' := h1
        unfold ImpliedVolatility.vegaTooSmall ImpliedVolatility.vegaAt at h1'
        have hstep : ImpliedVolatility.solve exp sqrt log marketPrice spot strike rate maturity
            type epsilon (n + 1) sigma =
            ImpliedVolatility.solve exp sqrt log marketPrice spot strike rate maturity type
              epsilon n
              (ImpliedVolatility.newtonStep exp sqrt log marketPrice spot strike rate maturity
                type sigma) := by
          simp only [ImpliedVolatility.solve, h0', if_false, h1', ImpliedVolatility.newtonStep,
            ImpliedVolatility.diff, ImpliedVolatility.vegaAt]
        have hit : ∀ j, ImpliedVolatility.iterate exp sqrt log marketPrice spot strike rate
            maturity type sigma (j + 1) =
            ImpliedVolatility.iterate exp sqrt log marketPrice spot strike rate maturity type
              (ImpliedVolatility.newtonStep exp sqrt log marketPrice spot strike rate maturity
                type sigma) j := fun j => by
          simp [ImpliedVolatility.iterate, Function.iterate_succ_apply]
        rcases ih (ImpliedVolatility.newtonStep exp sqrt log marketPrice spot strike rate
          maturity type sigma) with ⟨j, hj, ht, hm, hs⟩ | ⟨hall, hs⟩
        · left
          refine ⟨j + 1, Nat.succ_lt_succ hj, ?_, ?_, ?_⟩
          · exact (ImpliedVolatility.tested_succ exp sqrt log marketPrice spot strike rate
              maturity type epsilon sigma j h0 h1).mpr ht
          · rw [hit]; exact hm
          · rw [hstep, hs, hit]
        · right
          refine ⟨?_, by rw [hstep, hs]⟩
          intro j hj ht
          cases j with
          | zero => simpa [ImpliedVolatility.iterate] using h0
          | succ j =>
            rw [hit]
            exact hall j (Nat.lt_of_succ_lt_succ hj)
              ((ImpliedVolatility.tested_succ exp sqrt log marketPrice spot strike rate
                maturity type epsilon sigma j h0 h1).mp ht)

end Solver

section SolverResult

variable [LinearOrderedField α] (exp sqrt log : α → α)
  (marketPrice spot strike rate maturity : α) (type : OptionType)
  (initialGuess epsilon : α) (maxIterations : Int)

/-- If some tested iterate meets the tolerance, neither failure condition holds. -/
theorem ImpliedVolatility.not_failed_of_converged (j : Nat) (hj : (j : Int) < maxIterations)
    (ht : ImpliedVolatility.tested exp sqrt log marketPrice spot strike rate maturity type
      initialGuess epsilon j)
    (hm : ImpliedVolatility.meetsTolerance exp sqrt log marketPrice spot strike rate maturity
      type epsilon
      (ImpliedVolatility.iterate exp sqrt log marketPrice spot strike rate maturity type
        initialGuess j)) :
    ¬ (ImpliedVolatility.exhausted exp sqrt log marketPrice spot strike rate maturity type
        initialGuess epsilon maxIterations ∨
      ImpliedVolatility.stalled exp sqrt log marketPrice spot strike rate maturity type
        initialGuess epsilon maxIterations) := by
  rintro (hA | ⟨k, _, hkt, hkm, hks⟩)
  · exact (hA j hj).2 hm
  · rcases Nat.lt_trichotomy k j with h | h | h
    · exact (ht k h).2 hks
    · subst h; exact hkm hm
    · exact (hkt j h).1 hm

/-- If no tested iterate among the first `maxIterations` meets the tolerance, one
of the two failure conditions holds. -/
theorem ImpliedVolatility.failed_of_not_converged
    (hall : ∀ j : Nat, (j : Int) < maxIterations →
      ImpliedVolatility.tested exp sqrt log marketPrice spot strike rate maturity type
        initialGuess epsilon j →
      ¬ ImpliedVolatility.meetsTolerance exp sqrt log marketPrice spot strike rate maturity
        type epsilon
        (ImpliedVolatility.iterate exp sqrt log marketPrice spot strike rate maturity type
          initialGuess j)) :
    ImpliedVolatility.exhausted exp sqrt log marketPrice spot strike rate maturity type
        initialGuess epsilon maxIterations ∨
      ImpliedVolatility.stalled exp sqrt log marketPrice spot strike rate maturity type
        initialGuess epsilon maxIterations := by
  by_cases hs : ImpliedVolatility.stalled exp sqrt log marketPrice spot strike rate maturity
      type initialGuess epsilon maxIterations
  · exact Or.inr hs
  · left
    have htested : ∀ j : Nat, (j : Int) < maxIterations →
        ImpliedVolatility.tested exp sqrt log marketPrice spot strike rate maturity type
          initialGuess epsilon j := by
      intro j
      induction j using Nat.strong_induction_on with
      | _ j ih =>
        intro hj i hi
        have hi' : (i : Int) < maxIterations := by omega
        have hti := ih i hi hi'
        refine ⟨hall i hi' hti, ?_⟩
        intro hsmall
        exact hs ⟨i, hi', hti, hall i hi' hti, hsmall⟩
    intro j hj
    exact ⟨htested j hj, hall j hj (htested j hj)⟩

end SolverResult

/-! ## Auxiliary lemmas: numerical enclosures -/

theorem normalCDF_of_nonneg (d : ℝ) (hd : 0 ≤ d) :
    normalCDF Real.exp Real.sqrt d =
      1 - cdfPoly (1 / (1 + 0.3275911 * (d / Real.sqrt 2))) * Real.exp (-(d ^ 2 / 2)) / 2 := by
  have hs0 : Real.sqrt 2 ≠ 0 := by positivity
  have hx : -(|d| / Real.sqrt 2.0) * (|d| / Real.sqrt 2.0) = -(d ^ 2 / 2) := by
    rw [abs_of_nonneg hd]
    norm_num
    field_simp
    ring
  unfold normalCDF cdfPoly
  simp only [hx, not_lt.mpr hd, if_false]
  rw [abs_of_nonneg hd]
  norm_num
  ring

theorem sqrt_two_enclosure :
    (1.41421356237309 : ℝ) ≤ Real.sqrt 2 ∧ Real.sqrt 2 ≤ 1.41421356237310 := by
  constructor
  · apply Real.le_sqrt_of_sq_le
    norm_num
  · rw [Real.sqrt_le_left (by norm_num)]
    norm_num

/-- Taylor enclosure of `exp (-u)` for `u` in `[ul, uh]`, a sub-interval of
`[0, 1]`. -/
theorem exp_neg_enclosure (u ul uh : ℝ) (n : Nat) (hn : 0 < n) (h0 : 0 ≤ ul) (h1 : ul ≤ u)
    (h2 : u ≤ uh) (h3 : uh ≤ 1) :
    1 / (∑ m in range n, uh ^ m / (m.factorial : ℝ) +
        uh ^ n * ((n : ℝ) + 1) / ((n.factorial : ℝ) * (n : ℝ))) ≤ Real.exp (-u) ∧
      Real.exp (-u) ≤ 1 / (∑ m in range n, ul ^ m / (m.factorial : ℝ)) := by
  have huh0 : 0 ≤ uh := le_trans h0 (le_trans h1 h2)
  have hlow : ∑ m in range n, ul ^ m / (m.factorial : ℝ) ≤ Real.exp ul :=
    Real.sum_le_exp_of_nonneg h0 n
  have hup : Real.exp uh ≤ ∑ m in range n, uh ^ m / (m.factorial : ℝ) +
      uh ^ n * ((n : ℝ) + 1) / ((n.factorial : ℝ) * (n : ℝ)) := Real.exp_bound' huh0 h3 hn
  have hsum_pos : 0 < ∑ m in range n, ul ^ m / (m.factorial : ℝ) := by
    have h1le : ∑ m in range 1, ul ^ m / (m.factorial : ℝ) ≤
        ∑ m in range n, ul ^ m / (m.factorial : ℝ) := by
      apply Finset.sum_le_sum_of_subset_of_nonneg
      · exact Finset.range_subset.mpr hn
      · intro i _ _
        positivity
    have : ∑ m in range 1, ul ^ m / (m.factorial : ℝ) = 1 := by simp
    linarith
  constructor
  · rw [Real.exp_neg, ← one_div]
    apply one_div_le_one_div_of_le (Real.exp_pos _)
    exact le_trans (Real.exp_le_exp.mpr h2) hup
  · rw [Real.exp_neg, ← one_div]
    apply one_div_le_one_div_of_le hsum_pos
    exact le_trans hlow (Real.exp_le_exp.mpr h1)

/-- On `[0, 1]` the polynomial factor of `normalCDF` changes at most ten times as
fast as its argument. -/
theorem cdfPoly_lipschitz (t s : ℝ) (ht0 : 0 ≤ t) (ht1 : t ≤ 1) (hs0 : 0 ≤ s) (hs1 : s ≤ 1)
    (hst : s ≤ t) :
    cdfPoly s - 10 * (t - s) ≤ cdfPoly t ∧ cdfPoly t ≤ cdfPoly s + 10 * (t - s) := by
  have hfac : cdfPoly t - cdfPoly s = (t - s) *
      (1.061405429 * (t ^ 4 + t ^ 3 * s + t ^ 2 * s ^ 2 + t * s ^ 3 + s ^ 4) +
        -1.453152027 * (t ^ 3 + t ^ 2 * s + t * s ^ 2 + s ^ 3) +
        1.421413741 * (t ^ 2 + t * s + s ^ 2) + -0.284496736 * (t + s) + 0.254829592) := by
    unfold cdfPoly
    ring
  have hmono : ∀ (i j : Nat), 0 ≤ t ^ i * s ^ j ∧ t ^ i * s ^ j ≤ 1 := by
    intro i j
    have h1 : 0 ≤ t ^ i := pow_nonneg ht0 i
    have h2 : 0 ≤ s ^ j := pow_nonneg hs0 j
    have h3 : t ^ i ≤ 1 := pow_le_one₀ ht0 ht1
    have h4 : s ^ j ≤ 1 := pow_le_one₀ hs0 hs1
    exact ⟨mul_nonneg h1 h2, by nlinarith⟩
  have m40 := hmono 4 0
  have m31 := hmono 3 1
  have m22 := hmono 2 2
  have m13 := hmono 1 3
  have m04 := hmono 0 4
  have m30 := hmono 3 0
  have m21 := hmono 2 1
  have m12 := hmono 1 2
  have m03 := hmono 0 3
  have m20 := hmono 2 0
  have m11 := hmono 1 1
  have m02 := hmono 0 2
  simp only [pow_zero, pow_one, mul_one, one_mul] at m40 m31 m22 m13 m04 m30
  simp only [pow_zero, pow_one, mul_one, one_mul] at m21 m12 m03 m20 m11 m02
  have hR1 : (1.061405429 * (t ^ 4 + t ^ 3 * s + t ^ 2 * s ^ 2 + t * s ^ 3 + s ^ 4) +
        -1.453152027 * (t ^ 3 + t ^ 2 * s + t * s ^ 2 + s ^ 3) +
        1.421413741 * (t ^ 2 + t * s + s ^ 2) + -0.284496736 * (t + s) + 0.254829592 : ℝ) ≤
      10 := by
    linarith [m40.1, m40.2, m31.1, m31.2, m22.1, m22.2, m13.1, m13.2, m04.1, m04.2, m30.1,
      m30.2, m21.1, m21.2, m12.1, m12.2, m03.1, m03.2, m20.1, m20.2, m11.1, m11.2, m02.1, m02.2]
  have hR2 : (-10 : ℝ) ≤
      (1.061405429 * (t ^ 4 + t ^ 3 * s + t ^ 2 * s ^ 2 + t * s ^ 3 + s ^ 4) +
        -1.453152027 * (t ^ 3 + t ^ 2 * s + t * s ^ 2 + s ^ 3) +
        1.421413741 * (t ^ 2 + t * s + s ^ 2) + -0.284496736 * (t + s) + 0.254829592 : ℝ) := by
    linarith [m40.1, m40.2, m31.1, m31.2, m22.1, m22.2, m13.1, m13.2, m04.1, m04.2, m30.1,
      m30.2, m21.1, m21.2, m12.1, m12.2, m03.1, m03.2, m20.1, m20.2, m11.1, m11.2, m02.1, m02.2]
  have hts : 0 ≤ t - s := sub_nonneg.mpr hst
  generalize (1.061405429 * (t ^ 4 + t ^ 3 * s + t ^ 2 * s ^ 2 + t * s ^ 3 + s ^ 4) +
        -1.453152027 * (t ^ 3 + t ^ 2 * s + t * s ^ 2 + s ^ 3) +
        1.421413741 * (t ^ 2 + t * s + s ^ 2) + -0.284496736 * (t + s) + 0.254829592 : ℝ) = R
    at hfac hR1 hR2
  have hle : (t - s) * R ≤ (t - s) * 10 := mul_le_mul_of_nonneg_left hR1 hts
  have hge : (t - s) * (-10) ≤ (t - s) * R := mul_le_mul_of_nonneg_left hR2 hts
  constructor <;> linarith

/-- Enclosure of `exp (-(d^2/2))` for `d` in `[dl, dh]` with `0 <= dl` and
`dh^2/2 <= 1`, from Taylor polynomials at the end points. -/
theorem exp_neg_half_sq_enclosure (d dl dh el eh : ℝ) (n : Nat) (hn : 0 < n) (hdl : 0 ≤ dl)
    (hd1 : dl ≤ d) (hd2 : d ≤ dh) (hdh : dh ^ 2 / 2 ≤ 1)
    (hel : el ≤ 1 / (∑ m in range n, (dh ^ 2 / 2) ^ m / (m.factorial : ℝ) +
        (dh ^ 2 / 2) ^ n * ((n : ℝ) + 1) / ((n.factorial : ℝ) * (n : ℝ))))
    (heh : 1 / (∑ m in range n, (dl ^ 2 / 2) ^ m / (m.factorial : ℝ)) ≤ eh) :
    el ≤ Real.exp (-(d ^ 2 / 2)) ∧ Real.exp (-(d ^ 2 / 2)) ≤ eh := by
  have hd0 : 0 ≤ d := le_trans hdl hd1
  have h1 : dl ^ 2 / 2 ≤ d ^ 2 / 2 := by
    have := pow_le_pow_left₀ hdl hd1 2
    linarith
  have h2 : d ^ 2 / 2 ≤ dh ^ 2 / 2 := by
    have := pow_le_pow_left₀ hd0 hd2 2
    linarith
  have h := exp_neg_enclosure (d ^ 2 / 2) (dl ^ 2 / 2) (dh ^ 2 / 2) n hn (by positivity) h1 h2 hdh
  exact ⟨le_trans hel h.1, le_trans h.2 heh⟩

/-- Enclosure of `normalCDF d` for `d` in `[dl, dh]`, `0 <= dl`: `[tl, th]`
encloses `t = 1/(1 + p*d/sqrt 2)`, `[ql, qh]` the polynomial factor on `[tl, th]`,
`[el, eh]` the exponential factor. -/
theorem normalCDF_enclosure (d dl dh tl th ql qh el eh nl nh : ℝ)
    (hdl : 0 ≤ dl) (hd1 : dl ≤ d) (hd2 : d ≤ dh) (htl : 0 ≤ tl) (hth : th ≤ 1)
    (ht1 : tl * (1 + 0.3275911 * (dh / 1.41421356237309)) ≤ 1)
    (ht2 : 1 ≤ th * (1 + 0.3275911 * (dl / 1.41421356237310)))
    (hq1 : ql ≤ cdfPoly tl - 10 * (th - tl)) (hq2 : cdfPoly tl + 10 * (th - tl) ≤ qh)
    (hql : 0 ≤ ql)
    (he : el ≤ Real.exp (-(d ^ 2 / 2)) ∧ Real.exp (-(d ^ 2 / 2)) ≤ eh) (hel : 0 ≤ el)
    (hn1 : nl ≤ 1 - qh * eh / 2) (hn2 : 1 - ql * el / 2 ≤ nh) :
    nl ≤ normalCDF Real.exp Real.sqrt d ∧ normalCDF Real.exp Real.sqrt d ≤ nh := by
  have hd0 : 0 ≤ d := le_trans hdl hd1
  obtain ⟨hs1, hs2⟩ := sqrt_two_enclosure
  have hspos : 0 < Real.sqrt 2 := by positivity
  -- the argument of the reciprocal
  have hx1 : dl / 1.41421356237310 ≤ d / Real.sqrt 2 := by
    rw [div_le_div_iff₀ (by norm_num) hspos]
    nlinarith
  have hx2 : d / Real.sqrt 2 ≤ dh / 1.41421356237309 := by
    rw [div_le_div_iff₀ hspos (by norm_num)]
    nlinarith
  have hden_pos : 0 < 1 + 0.3275911 * (d / Real.sqrt 2) := by
    have : 0 ≤ d / Real.sqrt 2 := by positivity
    nlinarith
  -- the reciprocal
  have htlo : tl ≤ 1 / (1 + 0.3275911 * (d / Real.sqrt 2)) := by
    rw [le_div_iff₀ hden_pos]
    have hmono : tl * (1 + 0.3275911 * (d / Real.sqrt 2)) ≤
        tl * (1 + 0.3275911 * (dh / 1.41421356237309)) := by
      apply mul_le_mul_of_nonneg_left _ htl
      linarith
    linarith
  have hthi : 1 / (1 + 0.3275911 * (d / Real.sqrt 2)) ≤ th := by
    rw [div_le_iff₀ hden_pos]
    have hth0 : 0 ≤ th := by
      by_contra hneg
      push_neg at hneg
      have hdl0 : 0 ≤ dl / 1.41421356237310 := by positivity
      nlinarith
    have hmono : th * (1 + 0.3275911 * (dl / 1.41421356237310)) ≤
        th * (1 + 0.3275911 * (d / Real.sqrt 2)) := by
      apply mul_le_mul_of_nonneg_left _ hth0
      linarith
    linarith
  -- the polynomial factor
  have hlip := cdfPoly_lipschitz (1 / (1 + 0.3275911 * (d / Real.sqrt 2))) tl
    (le_trans htl htlo) (le_trans hthi hth) htl (le_trans (le_trans htlo hthi) hth) htlo
  have hQ1 : ql ≤ cdfPoly (1 / (1 + 0.3275911 * (d / Real.sqrt 2))) := by linarith [hlip.1]
  have hQ2 : cdfPoly (1 / (1 + 0.3275911 * (d / Real.sqrt 2))) ≤ qh := by linarith [hlip.2]
  rw [normalCDF_of_nonneg d hd0]
  generalize cdfPoly (1 / (1 + 0.3275911 * (d / Real.sqrt 2))) = Q at hQ1 hQ2
  generalize Real.exp (-(d ^ 2 / 2)) = E at he
  obtain ⟨he1, he2⟩ := he
  have hQ0 : 0 ≤ Q := le_trans hql hQ1
  have hE0 : 0 ≤ E := le_trans hel he1
  have hprod1 : ql * el ≤ Q * E := mul_le_mul hQ1 he1 hel hQ0
  have hprod2 : Q * E ≤ qh * eh := mul_le_mul hQ2 he2 hE0 (le_trans hQ0 hQ2)
  constructor <;> linarith

theorem normalCDF_of_neg (d : ℝ) (hd : d < 0) :
    normalCDF Real.exp Real.sqrt d = 1 - normalCDF Real.exp Real.sqrt (-d) := by
  have h1 : ¬ (-d < 0) := by linarith
  unfold normalCDF
  simp only [hd, h1, if_true, if_false, abs_neg]
  norm_num
  ring

/-- Enclosure of `normalCDF d` for negative `d` from an enclosure at `-d`. -/
theorem normalCDF_enclosure_neg (d dl dh ml mh : ℝ) (hd1 : dl ≤ d) (hd2 : d ≤ dh) (hdh : dh < 0)
    (h : ∀ e : ℝ, -dh ≤ e → e ≤ -dl →
      ml ≤ normalCDF Real.exp Real.sqrt e ∧ normalCDF Real.exp Real.sqrt e ≤ mh) :
    1 - mh ≤ normalCDF Real.exp Real.sqrt d ∧ normalCDF Real.exp Real.sqrt d ≤ 1 - ml := by
  rw [normalCDF_of_neg d (lt_of_le_of_lt hd2 hdh)]
  have := h (-d) (by linarith) (by linarith)
  constructor <;> linarith [this.1, this.2]

theorem sqrt_two_pi_enclosure :
    (2.506628274631 : ℝ) ≤ Real.sqrt (2.0 * PI) ∧ Real.sqrt (2.0 * PI) ≤ 2.50662827463101 := by
  unfold PI
  constructor
  · apply Real.le_sqrt_of_sq_le
    norm_num
  · rw [Real.sqrt_le_left (by norm_num)]
    norm_num

theorem exp_neg_rate_enclosure :
    (0.95122942450071 : ℝ) ≤ Real.exp (-0.05 * 1) ∧ Real.exp (-0.05 * 1) ≤ 0.95122942450072 := by
  have hE := exp_neg_enclosure 0.05 0.05 0.05 8 (by norm_num) (by norm_num) (le_refl _)
    (le_refl _) (by norm_num)
  constructor
  · have h := hE.1
    norm_num [Finset.sum_range_succ, Nat.factorial] at h ⊢
    linarith
  · have h := hE.2
    norm_num [Finset.sum_range_succ, Nat.factorial] at h ⊢
    linarith

/-! ### The at-the-money scenario: spot 100, strike 100, rate 0.05, maturity 1 -/

theorem scenario_d1 (σ : ℝ) :
    (⟨100, 100, 0.05, σ, 1, OptionType.CALL⟩ : BlackScholes ℝ).calculateD1 Real.sqrt Real.log =
      (0.05 + 0.5 * σ ^ 2) / σ := by
  simp only [BlackScholes.calculateD1]
  norm_num
  ring

theorem scenario_d2 (σ : ℝ) :
    (⟨100, 100, 0.05, σ, 1, OptionType.CALL⟩ : BlackScholes ℝ).calculateD2 Real.sqrt Real.log =
      (0.05 + 0.5 * σ ^ 2) / σ - σ := by
  simp only [BlackScholes.calculateD2, scenario_d1]
  norm_num

theorem scenario_d1_enclosure (σ σl σh d1l d1h : ℝ) (hσl : 0 < σl) (hσ1 : σl ≤ σ) (hσ2 : σ ≤ σh)
    (hd1l : d1l * σh ≤ 0.05 + 0.5 * σl ^ 2) (hd1h : 0.05 + 0.5 * σh ^ 2 ≤ d1h * σl)
    (hd1 : 0 ≤ d1l) :
    d1l ≤ (0.05 + 0.5 * σ ^ 2) / σ ∧ (0.05 + 0.5 * σ ^ 2) / σ ≤ d1h := by
  have hσ : 0 < σ := lt_of_lt_of_le hσl hσ1
  have h1 : σl ^ 2 ≤ σ ^ 2 := pow_le_pow_left₀ hσl.le hσ1 2
  have h2 : σ ^ 2 ≤ σh ^ 2 := pow_le_pow_left₀ hσ.le hσ2 2
  have hd1h0 : 0 ≤ d1h := by
    by_contra hneg
    push_neg at hneg
    nlinarith [sq_nonneg σh]
  constructor
  · rw [le_div_iff₀ hσ]
    have : d1l * σ ≤ d1l * σh := mul_le_mul_of_nonneg_left hσ2 hd1
    linarith
  · rw [div_le_iff₀ hσ]
    have : d1h * σl ≤ d1h * σ := mul_le_mul_of_nonneg_left hσ1 hd1h0
    linarith

/-- Enclosure of the scenario's call price for a volatility in `[σl, σh]`. -/
theorem scenario_price_enclosure (σ σl σh d1l d1h d2l d2h n1l n1h n2l n2h pl ph : ℝ)
    (hσl : 0 < σl) (hσ1 : σl ≤ σ) (hσ2 : σ ≤ σh)
    (hd1l : d1l * σh ≤ 0.05 + 0.5 * σl ^ 2) (hd1h : 0.05 + 0.5 * σh ^ 2 ≤ d1h * σl)
    (hd1 : 0 ≤ d1l) (hd2l : d2l ≤ d1l - σh) (hd2h : d1h - σl ≤ d2h)
    (hN1 : ∀ d : ℝ, d1l ≤ d → d ≤ d1h →
      n1l ≤ normalCDF Real.exp Real.sqrt d ∧ normalCDF Real.exp Real.sqrt d ≤ n1h)
    (hN2 : ∀ d : ℝ, d2l ≤ d → d ≤ d2h →
      n2l ≤ normalCDF Real.exp Real.sqrt d ∧ normalCDF Real.exp Real.sqrt d ≤ n2h)
    (hn2 : 0 ≤ n2l)
    (hpl : pl ≤ 100 * n1l - 100 * (0.95122942450072 * n2h))
    (hph : 100 * n1h - 100 * (0.95122942450071 * n2l) ≤ ph) :
    pl ≤ (⟨100, 100, 0.05, σ, 1, OptionType.CALL⟩ : BlackScholes ℝ).price Real.exp Real.sqrt
        Real.log ∧
      (⟨100, 100, 0.05, σ, 1, OptionType.CALL⟩ : BlackScholes ℝ).price Real.exp Real.sqrt
        Real.log ≤ ph := by
  obtain ⟨hda, hdb⟩ := scenario_d1_enclosure σ σl σh d1l d1h hσl hσ1 hσ2 hd1l hd1h hd1
  simp only [BlackScholes.price, scenario_d1, scenario_d2, if_true]
  obtain ⟨hN1l, hN1h⟩ := hN1 _ hda hdb
  obtain ⟨hN2l, hN2h⟩ := hN2 ((0.05 + 0.5 * σ ^ 2) / σ - σ) (by linarith) (by linarith)
  obtain ⟨hE1, hE2⟩ := exp_neg_rate_enclosure
  generalize normalCDF Real.exp Real.sqrt ((0.05 + 0.5 * σ ^ 2) / σ) = N1 at hN1l hN1h
  generalize normalCDF Real.exp Real.sqrt ((0.05 + 0.5 * σ ^ 2) / σ - σ) = N2 at hN2l hN2h
  generalize Real.exp (-0.05 * 1) = E at hE1 hE2
  have hp1 : 0.95122942450071 * n2l ≤ E * N2 :=
    mul_le_mul hE1 hN2l hn2 (le_trans (by norm_num) hE1)
  have hp2 : E * N2 ≤ 0.95122942450072 * n2h :=
    mul_le_mul hE2 hN2h (le_trans hn2 hN2l) (by norm_num)
  constructor <;> nlinarith

/-- Enclosure of the scenario's vega for a volatility in `[σl, σh]`. -/
theorem scenario_vega_enclosure (σ σl σh d1l d1h el eh vl vh : ℝ)
    (hσl : 0 < σl) (hσ1 : σl ≤ σ) (hσ2 : σ ≤ σh)
    (hd1l : d1l * σh ≤ 0.05 + 0.5 * σl ^ 2) (hd1h : 0.05 + 0.5 * σh ^ 2 ≤ d1h * σl)
    (hd1 : 0 ≤ d1l)
    (hE : ∀ d : ℝ, d1l ≤ d → d ≤ d1h →
      el ≤ Real.exp (-(d ^ 2 / 2)) ∧ Real.exp (-(d ^ 2 / 2)) ≤ eh)
    (hvl : vl * 2.50662827463101 ≤ 100 * el) (hvh : 100 * eh ≤ vh * 2.506628274631) :
    vl ≤ (⟨100, 100, 0.05, σ, 1, OptionType.CALL⟩ : BlackScholes ℝ).vega Real.exp Real.sqrt
        Real.log ∧
      (⟨100, 100, 0.05, σ, 1, OptionType.CALL⟩ : BlackScholes ℝ).vega Real.exp Real.sqrt
        Real.log ≤ vh := by
  obtain ⟨hda, hdb⟩ := scenario_d1_enclosure σ σl σh d1l d1h hσl hσ1 hσ2 hd1l hd1h hd1
  obtain ⟨hE1, hE2⟩ := hE _ hda hdb
  obtain ⟨hc1, hc2⟩ := sqrt_two_pi_enclosure
  have hcpos : 0 < Real.sqrt (2.0 * PI) := lt_of_lt_of_le (by norm_num) hc1
  have hexp : Real.exp (-0.5 * ((0.05 + 0.5 * σ ^ 2) / σ) * ((0.05 + 0.5 * σ ^ 2) / σ)) =
      Real.exp (-(((0.05 + 0.5 * σ ^ 2) / σ) ^ 2 / 2)) := by
    congr 1
    ring
  simp only [BlackScholes.vega, scenario_d1, normalPDF, hexp]
  have hEpos := Real.exp_pos (-(((0.05 + 0.5 * σ ^ 2) / σ) ^ 2 / 2))
  generalize Real.exp (-(((0.05 + 0.5 * σ ^ 2) / σ) ^ 2 / 2)) = E at hE1 hE2 hEpos
  generalize Real.sqrt (2.0 * PI) = c at hc1 hc2 hcpos
  have hform : 100 * (1.0 / c * E) * Real.sqrt 1 = 100 * E / c := by
    rw [Real.sqrt_one]
    field_simp
    norm_num
  rw [hform]
  constructor
  · rw [le_div_iff₀ hcpos]
    have : vl * c ≤ vl * 2.50662827463101 ∨ vl < 0 := by
      by_cases hv : 0 ≤ vl
      · exact Or.inl (mul_le_mul_of_nonneg_left hc2 hv)
      · exact Or.inr (not_le.mp hv)
    rcases this with h | h
    · linarith
    · have : vl * c < 0 := mul_neg_of_neg_of_pos h hcpos
      linarith
  · rw [div_le_iff₀ hcpos]
    have hvh0 : 0 ≤ vh := by
      by_contra hneg
      push_neg at hneg
      nlinarith
    have : vh * 2.506628274631 ≤ vh * c := mul_le_mul_of_nonneg_left hc1 hvh0
    linarith

/-- Enclosure of a Newton step `σ - f / v` from enclosures of `σ`, `f` and `v`. -/
theorem newton_enclosure (f v σ σl σh fl fh vl vh ql qh nl nh : ℝ) (hv : 0 < vl)
    (hvl : vl ≤ v) (hvh : v ≤ vh) (hfl : fl ≤ f) (hfh : f ≤ fh) (hσ1 : σl ≤ σ) (hσ2 : σ ≤ σh)
    (hq1 : ql * vl ≤ fl) (hq1' : ql * vh ≤ fl) (hq2 : fh ≤ qh * vl) (hq2' : fh ≤ qh * vh)
    (hnl : nl ≤ σl - qh) (hnh : σh - ql ≤ nh) :
    nl ≤ σ - f / v ∧ σ - f / v ≤ nh := by
  have hvpos : 0 < v := lt_of_lt_of_le hv hvl
  have hq_lo : ql ≤ f / v := by
    rw [le_div_iff₀ hvpos]
    have : ql * v ≤ fl := by
      by_cases hq : 0 ≤ ql
      · exact le_trans (mul_le_mul_of_nonneg_left hvh hq) hq1'
      · have hq' : ql ≤ 0 := le_of_lt (not_le.mp hq)
        have : ql * v ≤ ql * vl := mul_le_mul_of_nonpos_left hvl hq'
        linarith
    linarith
  have hq_hi : f / v ≤ qh := by
    rw [div_le_iff₀ hvpos]
    have : fh ≤ qh * v := by
      by_cases hq : 0 ≤ qh
      · exact le_trans hq2 (mul_le_mul_of_nonneg_left hvl hq)
      · have hq' : qh ≤ 0 := le_of_lt (not_le.mp hq)
        have : qh * vh ≤ qh * v := mul_le_mul_of_nonpos_left hvh hq'
        linarith
    linarith
  constructor <;> linarith


/-- A crude bound: the value of `normalCDF` lies in `[-6, 7]` at every argument. -/
theorem normalCDF_abs_le (d : ℝ) : |normalCDF Real.exp Real.sqrt d| ≤ 7 := by
  have key : ∀ e : ℝ, 0 ≤ e → -4 ≤ normalCDF Real.exp Real.sqrt e ∧
      normalCDF Real.exp Real.sqrt e ≤ 6 := by
    intro e he
    rw [normalCDF_of_nonneg e he]
    have hspos : 0 < Real.sqrt 2 := by positivity
    have hx : 0 ≤ e / Real.sqrt 2 := by positivity
    have hden : 1 ≤ 1 + 0.3275911 * (e / Real.sqrt 2) := by nlinarith
    have ht0 : 0 ≤ 1 / (1 + 0.3275911 * (e / Real.sqrt 2)) := by positivity
    have ht1 : 1 / (1 + 0.3275911 * (e / Real.sqrt 2)) ≤ 1 := by
      rw [div_le_one (by linarith)]
      exact hden
    have hlip := cdfPoly_lipschitz (1 / (1 + 0.3275911 * (e / Real.sqrt 2))) 0 ht0 ht1
      (le_refl 0) (by norm_num) ht0
    have hQ0 : cdfPoly (0 : ℝ) = 0 := by norm_num [cdfPoly]
    rw [hQ0] at hlip
    have hE0 : 0 < Real.exp (-(e ^ 2 / 2)) := Real.exp_pos _
    have hE1 : Real.exp (-(e ^ 2 / 2)) ≤ 1 := by
      rw [Real.exp_le_one_iff]
      have : 0 ≤ e ^ 2 / 2 := by positivity
      linarith
    generalize cdfPoly (1 / (1 + 0.3275911 * (e / Real.sqrt 2))) = Q at hlip
    generalize 1 / (1 + 0.3275911 * (e / Real.sqrt 2)) = t at ht0 ht1 hlip
    generalize Real.exp (-(e ^ 2 / 2)) = E at hE0 hE1
    have hQl : -10 ≤ Q := by linarith [hlip.1]
    have hQh : Q ≤ 10 := by linarith [hlip.2]
    have h1 : Q * E ≤ 10 := by nlinarith
    have h2 : -10 ≤ Q * E := by nlinarith
    constructor <;> linarith
  rw [abs_le]
  by_cases hd : 0 ≤ d
  · have := key d hd
    constructor <;> linarith [this.1, this.2]
  · push_neg at hd
    rw [normalCDF_of_neg d hd]
    have := key (-d) (by linarith)
    constructor <;> linarith [this.1, this.2]

/-- A call price with `spot = strike = c > 0`, rate 0.05 and maturity 1 is at
most `14 c` in absolute value, whatever the volatility. -/
theorem price_small_scale (c σ : ℝ) (hc : 0 < c) :
    |(⟨c, c, 0.05, σ, 1, OptionType.CALL⟩ : BlackScholes ℝ).price Real.exp Real.sqrt Real.log| ≤
      14 * c := by
  simp only [BlackScholes.price, if_true]
  have h1 := abs_le.mp (normalCDF_abs_le
    ((⟨c, c, 0.05, σ, 1, OptionType.CALL⟩ : BlackScholes ℝ).calculateD1 Real.sqrt Real.log))
  have h2 := abs_le.mp (normalCDF_abs_le
    ((⟨c, c, 0.05, σ, 1, OptionType.CALL⟩ : BlackScholes ℝ).calculateD2 Real.sqrt Real.log))
  have hE0 : 0 < Real.exp (-0.05 * 1) := Real.exp_pos _
  have hE1 : Real.exp (-0.05 * 1) ≤ 1 := by
    rw [Real.exp_le_one_iff]
    norm_num
  generalize normalCDF Real.exp Real.sqrt
    ((⟨c, c, 0.05, σ, 1, OptionType.CALL⟩ : BlackScholes ℝ).calculateD1 Real.sqrt Real.log) = N1
    at h1
  generalize normalCDF Real.exp Real.sqrt
    ((⟨c, c, 0.05, σ, 1, OptionType.CALL⟩ : BlackScholes ℝ).calculateD2 Real.sqrt Real.log) = N2
    at h2
  generalize Real.exp (-0.05 * 1) = E at hE0 hE1
  have hEN1 : E * N2 ≤ 7 := by nlinarith [h2.1, h2.2]
  have hEN2 : -7 ≤ E * N2 := by nlinarith [h2.1, h2.2]
  rw [abs_le]
  constructor
  · nlinarith [h1.1, h1.2]
  · nlinarith [h1.1, h1.2]

/-- Enclosure of the scenario price at the target volatility 0.30. -/
theorem scenario_price_target (s : ℝ) (h1 : 0.3 ≤ s) (h2 : s ≤ 0.3) :
    14.23124454550843 ≤ (⟨100, 100, 0.05, s, 1, OptionType.CALL⟩ : BlackScholes ℝ).price Real.exp Real.sqrt
        Real.log ∧
      (⟨100, 100, 0.05, s, 1, OptionType.CALL⟩ : BlackScholes ℝ).price Real.exp Real.sqrt
        Real.log ≤ 14.23124454553136 :=
  scenario_price_enclosure s 0.3 0.3
    0.31666666666666 0.31666666666667 0.01666666666666 0.01666666666667
    0.6242516589811 0.62425165898121 0.50664876538997 0.50664876539009
    14.23124454550843 14.23124454553136
    (by norm_num) h1 h2 (by norm_num) (by norm_num) (by norm_num) (by norm_num)
    (by norm_num)
    (fun d h1 h2 => normalCDF_enclosure d 0.31666666666666 0.31666666666667
      0.93165971816016 0.93165971816017 0.79013647440504 0.79013647440525
      0.9510973184771 0.95109731847712 0.6242516589811 0.62425165898121
      (by norm_num) h1 h2 (by norm_num) (by norm_num) (by norm_num) (by norm_num)
      (by norm_num [cdfPoly]) (by norm_num [cdfPoly]) (by norm_num)
      (exp_neg_half_sq_enclosure d 0.31666666666666 0.31666666666667 0.9510973184771 0.95109731847712
        8 (by norm_num) (by norm_num) h1 h2 (by norm_num)
        (by norm_num [Finset.sum_range_succ, Nat.factorial])
        (by norm_num [Finset.sum_range_succ, Nat.factorial]))
      (by norm_num) (by norm_num) (by norm_num))
    (fun d h1 h2 => normalCDF_enclosure d 0.01666666666666 0.01666666666667
      0.99615414952997 0.99615414952998 0.98683952074669 0.9868395207469
      0.99986112075572 0.99986112075573 0.50664876538997 0.50664876539009
      (by norm_num) h1 h2 (by norm_num) (by norm_num) (by norm_num) (by norm_num)
      (by norm_num [cdfPoly]) (by norm_num [cdfPoly]) (by norm_num)
      (exp_neg_half_sq_enclosure d 0.01666666666666 0.01666666666667 0.99986112075572 0.99986112075573
        8 (by norm_num) (by norm_num) h1 h2 (by norm_num)
        (by norm_num [Finset.sum_range_succ, Nat.factorial])
        (by norm_num [Finset.sum_range_succ, Nat.factorial]))
      (by norm_num) (by norm_num) (by norm_num))
    (by norm_num) (by norm_num) (by norm_num)

/-- Enclosure of the scenario price around the initial guess. -/
theorem scenario_price_iterate0 (s : ℝ) (h1 : 0.5 ≤ s) (h2 : s ≤ 0.5) :
    21.79259933588962 ≤ (⟨100, 100, 0.05, s, 1, OptionType.CALL⟩ : BlackScholes ℝ).price Real.exp Real.sqrt
        Real.log ∧
      (⟨100, 100, 0.05, s, 1, OptionType.CALL⟩ : BlackScholes ℝ).price Real.exp Real.sqrt
        Real.log ≤ 21.79259933591248 :=
  scenario_price_enclosure s 0.5 0.5
    0.35 0.35 (-0.15) (-0.15)
    0.63683058600698 0.63683058600709 0.44038229038998 0.4403822903901
    21.79259933588962 21.79259933591248
    (by norm_num) h1 h2 (by norm_num) (by norm_num) (by norm_num) (by norm_num)
    (by norm_num)
    (fun d h1 h2 => normalCDF_enclosure d 0.35 0.35
      0.92500549330585 0.92500549330586 0.77221778191382 0.77221778191403
      0.94058806336434 0.94058806336435 0.63683058600698 0.63683058600709
      (by norm_num) h1 h2 (by norm_num) (by norm_num) (by norm_num) (by norm_num)
      (by norm_num [cdfPoly]) (by norm_num [cdfPoly]) (by norm_num)
      (exp_neg_half_sq_enclosure d 0.35 0.35 0.94058806336434 0.94058806336435
        8 (by norm_num) (by norm_num) h1 h2 (by norm_num)
        (by norm_num [Finset.sum_range_succ, Nat.factorial])
        (by norm_num [Finset.sum_range_succ, Nat.factorial]))
      (by norm_num) (by norm_num) (by norm_num))
    (fun d h1 h2 => by
      have hneg : ∀ e : ℝ, 0.15 ≤ e → e ≤ 0.15 →
          0.5596177096099 ≤ normalCDF Real.exp Real.sqrt e ∧
            normalCDF Real.exp Real.sqrt e ≤ 0.55961770961002 :=
        (fun d h1 h2 => normalCDF_enclosure d 0.15 0.15
          0.96642048026385 0.96642048026386 0.8907291277961 0.89072912779631
          0.98881304461123 0.98881304461124 0.5596177096099 0.55961770961002
          (by norm_num) h1 h2 (by norm_num) (by norm_num) (by norm_num) (by norm_num)
          (by norm_num [cdfPoly]) (by norm_num [cdfPoly]) (by norm_num)
          (exp_neg_half_sq_enclosure d 0.15 0.15 0.98881304461123 0.98881304461124
            8 (by norm_num) (by norm_num) h1 h2 (by norm_num)
            (by norm_num [Finset.sum_range_succ, Nat.factorial])
            (by norm_num [Finset.sum_range_succ, Nat.factorial]))
          (by norm_num) (by norm_num) (by norm_num))
      have h := normalCDF_enclosure_neg d (-0.15) (-0.15)
        0.5596177096099 0.55961770961002 h1 h2 (by norm_num)
        (fun e he1 he2 => hneg e (by linarith) (by linarith))
      constructor <;> linarith [h.1, h.2])
    (by norm_num) (by norm_num) (by norm_num)

/-- Enclosure of the scenario vega around the initial guess. -/
theorem scenario_vega_iterate0 (s : ℝ) (h1 : 0.5 ≤ s) (h2 : s ≤ 0.5) :
    37.52403469169356 ≤ (⟨100, 100, 0.05, s, 1, OptionType.CALL⟩ : BlackScholes ℝ).vega Real.exp Real.sqrt
        Real.log ∧
      (⟨100, 100, 0.05, s, 1, OptionType.CALL⟩ : BlackScholes ℝ).vega Real.exp Real.sqrt
        Real.log ≤ 37.52403469169412 :=
  scenario_vega_enclosure s 0.5 0.5
    0.35 0.35 0.94058806336434 0.94058806336435 37.52403469169356 37.52403469169412
    (by norm_num) h1 h2 (by norm_num) (by norm_num) (by norm_num)
    (fun d h1 h2 => exp_neg_half_sq_enclosure d 0.35 0.35
      0.94058806336434 0.94058806336435 8 (by norm_num) (by norm_num) h1 h2 (by norm_num)
      (by norm_num [Finset.sum_range_succ, Nat.factorial])
      (by norm_num [Finset.sum_range_succ, Nat.factorial]))
    (by norm_num) (by norm_num)

/-- Enclosure of the scenario price around the second iterate. -/
theorem scenario_price_iterate1 (s : ℝ) (h1 : 0.29849302313757 ≤ s) (h2 : s ≤ 0.2984930231388) :
    14.17406541845498 ≤ (⟨100, 100, 0.05, s, 1, OptionType.CALL⟩ : BlackScholes ℝ).price Real.exp Real.sqrt
        Real.log ∧
      (⟨100, 100, 0.05, s, 1, OptionType.CALL⟩ : BlackScholes ℝ).price Real.exp Real.sqrt
        Real.log ≤ 14.17406541982433 :=
  scenario_price_enclosure s 0.29849302313757 0.2984930231388
    0.31675461435136 0.3167546143539 0.01826159121256 0.01826159121633
    0.62428502876384 0.62428502876911 0.5072849537052 0.50728495371405
    14.17406541845498 14.17406541982433
    (by norm_num) h1 h2 (by norm_num) (by norm_num) (by norm_num) (by norm_num)
    (by norm_num)
    (fun d h1 h2 => normalCDF_enclosure d 0.31675461435136 0.3167546143539
      0.93164203548724 0.93164203548776 0.790088310061 0.79008831007141
      0.95107082701144 0.95107082701222 0.62428502876384 0.62428502876911
      (by norm_num) h1 h2 (by norm_num) (by norm_num) (by norm_num) (by norm_num)
      (by norm_num [cdfPoly]) (by norm_num [cdfPoly]) (by norm_num)
      (exp_neg_half_sq_enclosure d 0.31675461435136 0.3167546143539 0.95107082701144 0.95107082701222
        8 (by norm_num) (by norm_num) h1 h2 (by norm_num)
        (by norm_num [Finset.sum_range_succ, Nat.factorial])
        (by norm_num [Finset.sum_range_succ, Nat.factorial]))
      (by norm_num) (by norm_num) (by norm_num))
    (fun d h1 h2 => normalCDF_enclosure d 0.01826159121256 0.01826159121633
      0.99578766931631 0.99578766931719 0.9855944197006 0.98559441971821
      0.99983327104394 0.99983327104402 0.5072849537052 0.50728495371405
      (by norm_num) h1 h2 (by norm_num) (by norm_num) (by norm_num) (by norm_num)
      (by norm_num [cdfPoly]) (by norm_num [cdfPoly]) (by norm_num)
      (exp_neg_half_sq_enclosure d 0.01826159121256 0.01826159121633 0.99983327104394 0.99983327104402
        8 (by norm_num) (by norm_num) h1 h2 (by norm_num)
        (by norm_num [Finset.sum_range_succ, Nat.factorial])
        (by norm_num [Finset.sum_range_succ, Nat.factorial]))
      (by norm_num) (by norm_num) (by norm_num))
    (by norm_num) (by norm_num) (by norm_num)

/-- Enclosure of the scenario vega around the second iterate. -/
theorem scenario_vega_iterate1 (s : ℝ) (h1 : 0.29849302313757 ≤ s) (h2 : s ≤ 0.2984930231388) :
    37.94223645512189 ≤ (⟨100, 100, 0.05, s, 1, OptionType.CALL⟩ : BlackScholes ℝ).vega Real.exp Real.sqrt
        Real.log ∧
      (⟨100, 100, 0.05, s, 1, OptionType.CALL⟩ : BlackScholes ℝ).vega Real.exp Real.sqrt
        Real.log ≤ 37.94223645515317 :=
  scenario_vega_enclosure s 0.29849302313757 0.2984930231388
    0.31675461435136 0.3167546143539 0.95107082701144 0.95107082701222 37.94223645512189 37.94223645515317
    (by norm_num) h1 h2 (by norm_num) (by norm_num) (by norm_num)
    (fun d h1 h2 => exp_neg_half_sq_enclosure d 0.31675461435136 0.3167546143539
      0.95107082701144 0.95107082701222 8 (by norm_num) (by norm_num) h1 h2 (by norm_num)
      (by norm_num [Finset.sum_range_succ, Nat.factorial])
      (by norm_num [Finset.sum_range_succ, Nat.factorial]))
    (by norm_num) (by norm_num)

/-- Enclosure of the scenario price around the third iterate. -/
theorem scenario_price_iterate2 (s : ℝ) (h1 : 0.30000002775896 ≤ s) (h2 : s ≤ 0.3000000277969) :
    14.23124557772058 ≤ (⟨100, 100, 0.05, s, 1, OptionType.CALL⟩ : BlackScholes ℝ).price Real.exp Real.sqrt
        Real.log ∧
      (⟨100, 100, 0.05, s, 1, OptionType.CALL⟩ : BlackScholes ℝ).price Real.exp Real.sqrt
        Real.log ≤ 14.23124561902329 :=
  scenario_price_enclosure s 0.30000002775896 0.3000000277969
    0.31666666508445 0.31666666516245 0.01666663728755 0.01666663740349
    0.6242516583265 0.62425165848503 0.50664875358304 0.50664875385058
    14.23124557772058 14.23124561902329
    (by norm_num) h1 h2 (by norm_num) (by norm_num) (by norm_num) (by norm_num)
    (by norm_num)
    (fun d h1 h2 => normalCDF_enclosure d 0.31666666508445 0.31666666516245
      0.9316597184626 0.93165971847829 0.79013647507206 0.79013647538587
      0.95109731893014 0.95109731895365 0.6242516583265 0.62425165848503
      (by norm_num) h1 h2 (by norm_num) (by norm_num) (by norm_num) (by norm_num)
      (by norm_num [cdfPoly]) (by norm_num [cdfPoly]) (by norm_num)
      (exp_neg_half_sq_enclosure d 0.31666666508445 0.31666666516245 0.95109731893014 0.95109731895365
        8 (by norm_num) (by norm_num) h1 h2 (by norm_num)
        (by norm_num [Finset.sum_range_succ, Nat.factorial])
        (by norm_num [Finset.sum_range_succ, Nat.factorial]))
      (by norm_num) (by norm_num) (by norm_num))
    (fun d h1 h2 => normalCDF_enclosure d 0.01666663728755 0.01666663740349
      0.99615415625651 0.99615415628317 0.98683954334763 0.98683954388084
      0.99986112124337 0.99986112124531 0.50664875358304 0.50664875385058
      (by norm_num) h1 h2 (by norm_num) (by norm_num) (by norm_num) (by norm_num)
      (by norm_num [cdfPoly]) (by norm_num [cdfPoly]) (by norm_num)
      (exp_neg_half_sq_enclosure d 0.01666663728755 0.01666663740349 0.99986112124337 0.99986112124531
        8 (by norm_num) (by norm_num) h1 h2 (by norm_num)
        (by norm_num [Finset.sum_range_succ, Nat.factorial])
        (by norm_num [Finset.sum_range_succ, Nat.factorial]))
      (by norm_num) (by norm_num) (by norm_num))
    (by norm_num) (by norm_num) (by norm_num)

/-- Enclosure of the scenario vega around the third iterate. -/
theorem scenario_vega_iterate2 (s : ℝ) (h1 : 0.30000002775896 ≤ s) (h2 : s ≤ 0.3000000277969) :
    37.94329332976773 ≤ (⟨100, 100, 0.05, s, 1, OptionType.CALL⟩ : BlackScholes ℝ).vega Real.exp Real.sqrt
        Real.log ∧
      (⟨100, 100, 0.05, s, 1, OptionType.CALL⟩ : BlackScholes ℝ).vega Real.exp Real.sqrt
        Real.log ≤ 37.9432933307058 :=
  scenario_vega_enclosure s 0.30000002775896 0.3000000277969
    0.31666666508445 0.31666666516245 0.95109731893014 0.95109731895365 37.94329332976773 37.9432933307058
    (by norm_num) h1 h2 (by norm_num) (by norm_num) (by norm_num)
    (fun d h1 h2 => exp_neg_half_sq_enclosure d 0.31666666508445 0.31666666516245
      0.95109731893014 0.95109731895365 8 (by norm_num) (by norm_num) h1 h2 (by norm_num)
      (by norm_num [Finset.sum_range_succ, Nat.factorial])
      (by norm_num [Finset.sum_range_succ, Nat.factorial]))
    (by norm_num) (by norm_num)

/-- Enclosure of the scenario price around the fourth iterate. -/
theorem scenario_price_iterate3 (s : ℝ) (h1 : 0.29999999946634 ≤ s) (h2 : s ≤ 0.30000000059344) :
    14.23124389970838 ≤ (⟨100, 100, 0.05, s, 1, OptionType.CALL⟩ : BlackScholes ℝ).price Real.exp Real.sqrt
        Real.log ∧
      (⟨100, 100, 0.05, s, 1, OptionType.CALL⟩ : BlackScholes ℝ).price Real.exp Real.sqrt
        Real.log ≤ 14.23124512596031 :=
  scenario_price_enclosure s 0.29999999946634 0.30000000059344
    0.31666666550659 0.31666666782342 0.01666666491315 0.01666666835708
    0.62425165692908 0.62425166163537 0.50664876207833 0.50664877002197
    14.23124389970838 14.23124512596031
    (by norm_num) h1 h2 (by norm_num) (by norm_num) (by norm_num) (by norm_num)
    (by norm_num)
    (fun d h1 h2 => normalCDF_enclosure d 0.31666666550659 0.31666666782342
      0.93165971792758 0.93165971839342 0.79013646911322 0.79013647843003
      0.95109731812871 0.95109731882651 0.62425165692908 0.62425166163537
      (by norm_num) h1 h2 (by norm_num) (by norm_num) (by norm_num) (by norm_num)
      (by norm_num [cdfPoly]) (by norm_num [cdfPoly]) (by norm_num)
      (exp_neg_half_sq_enclosure d 0.31666666550659 0.31666666782342 0.95109731812871 0.95109731882651
        8 (by norm_num) (by norm_num) h1 h2 (by norm_num)
        (by norm_num [Finset.sum_range_succ, Nat.factorial])
        (by norm_num [Finset.sum_range_succ, Nat.factorial]))
      (by norm_num) (by norm_num) (by norm_num))
    (fun d h1 h2 => normalCDF_enclosure d 0.01666666491315 0.01666666835708
      0.99615414914141 0.99615414993305 0.98683951150945 0.98683952734226
      0.99986112072755 0.99986112078495 0.50664876207833 0.50664877002197
      (by norm_num) h1 h2 (by norm_num) (by norm_num) (by norm_num) (by norm_num)
      (by norm_num [cdfPoly]) (by norm_num [cdfPoly]) (by norm_num)
      (exp_neg_half_sq_enclosure d 0.01666666491315 0.01666666835708 0.99986112072755 0.99986112078495
        8 (by norm_num) (by norm_num) h1 h2 (by norm_num)
        (by norm_num [Finset.sum_range_succ, Nat.factorial])
        (by norm_num [Finset.sum_range_succ, Nat.factorial]))
      (by norm_num) (by norm_num) (by norm_num))
    (by norm_num) (by norm_num) (by norm_num)

/-- The scenario of `test_implied_vol.cpp`: for spot 100, strike 100, rate 0.05,
maturity 1, a call and target volatility 0.30, `ImpliedVolatility::calculate`
applied to the Black-Scholes price returns the fourth Newton iterate (the first
three miss the tolerance and have a vega far from zero), which lies within 1e-5 of
0.30. -/
theorem ImpliedVolatility.scenario_recovers_volatility :
    |ImpliedVolatility.calculate Real.exp Real.sqrt Real.log
        ((⟨100, 100, 0.05, 0.30, 1, OptionType.CALL⟩ : BlackScholes ℝ).price Real.exp Real.sqrt
          Real.log)
        100 100 0.05 1 OptionType.CALL - 0.30| < 1e-5 := by
  have hM := scenario_price_target 0.30 (by norm_num) (by norm_num)
  generalize (⟨100, 100, 0.05, 0.30, 1, OptionType.CALL⟩ : BlackScholes ℝ).price Real.exp
    Real.sqrt Real.log = M at hM ⊢
  have h100 : ((100 : Int)).toNat = 96 + 1 + 1 + 1 + 1 := by decide
  unfold ImpliedVolatility.calculate
  rw [h100]
  have hP0 := scenario_price_iterate0 0.5 (by norm_num) (by norm_num)
  have hV0 := scenario_vega_iterate0 0.5 (by norm_num) (by norm_num)
  have hm0 : ¬ ImpliedVolatility.meetsTolerance Real.exp Real.sqrt Real.log M 100 100 0.05 1 OptionType.CALL 1e-6 0.5 := by
    unfold ImpliedVolatility.meetsTolerance ImpliedVolatility.diff
    rw [abs_lt]
    intro h
    norm_num at h
    linarith [h.1, h.2, hP0.1, hP0.2, hM.1, hM.2]
  have hs0 : ¬ ImpliedVolatility.vegaTooSmall Real.exp Real.sqrt Real.log 100 100 0.05 1 OptionType.CALL 0.5 := by
    unfold ImpliedVolatility.vegaTooSmall ImpliedVolatility.vegaAt
    rw [abs_lt]
    intro h
    norm_num at h
    linarith [h.2, hV0.1]
  rw [ImpliedVolatility.solve_step _ _ _ _ _ _ _ _ _ _ _ 0.5 hm0 hs0]
  have hσ1 : 0.29849302313757 ≤ ImpliedVolatility.newtonStep Real.exp Real.sqrt Real.log M 100 100 0.05 1 OptionType.CALL 0.5 ∧
      ImpliedVolatility.newtonStep Real.exp Real.sqrt Real.log M 100 100 0.05 1 OptionType.CALL 0.5 ≤ 0.2984930231388 := by
    unfold ImpliedVolatility.newtonStep ImpliedVolatility.diff ImpliedVolatility.vegaAt
    exact newton_enclosure _ _ 0.5 0.5 0.5 7.56135479035826 7.56135479040405
      37.52403469169356 37.52403469169412 0.2015069768612 0.20150697686243 0.29849302313757 0.2984930231388
      (by norm_num) hV0.1 hV0.2 (by linarith [hP0.1, hM.2]) (by linarith [hP0.2, hM.1])
      (by norm_num) (by norm_num) (by norm_num) (by norm_num) (by norm_num) (by norm_num) (by norm_num)
      (by norm_num)
  generalize ImpliedVolatility.newtonStep Real.exp Real.sqrt Real.log M 100 100 0.05 1 OptionType.CALL 0.5 = s1 at hσ1 ⊢
  clear hP0 hV0 hm0 hs0
  have hP1 := scenario_price_iterate1 s1 (hσ1.1) (hσ1.2)
  have hV1 := scenario_vega_iterate1 s1 (hσ1.1) (hσ1.2)
  have hm1 : ¬ ImpliedVolatility.meetsTolerance Real.exp Real.sqrt Real.log M 100 100 0.05 1 OptionType.CALL 1e-6 s1 := by
    unfold ImpliedVolatility.meetsTolerance ImpliedVolatility.diff
    rw [abs_lt]
    intro h
    norm_num at h
    linarith [h.1, h.2, hP1.1, hP1.2, hM.1, hM.2]
  have hs1 : ¬ ImpliedVolatility.vegaTooSmall Real.exp Real.sqrt Real.log 100 100 0.05 1 OptionType.CALL s1 := by
    unfold ImpliedVolatility.vegaTooSmall ImpliedVolatility.vegaAt
    rw [abs_lt]
    intro h
    norm_num at h
    linarith [h.2, hV1.1]
  rw [ImpliedVolatility.solve_step _ _ _ _ _ _ _ _ _ _ _ s1 hm1 hs1]
  have hσ2 : 0.30000002775896 ≤ ImpliedVolatility.newtonStep Real.exp Real.sqrt Real.log M 100 100 0.05 1 OptionType.CALL s1 ∧
      ImpliedVolatility.newtonStep Real.exp Real.sqrt Real.log M 100 100 0.05 1 OptionType.CALL s1 ≤ 0.3000000277969 := by
    unfold ImpliedVolatility.newtonStep ImpliedVolatility.diff ImpliedVolatility.vegaAt
    exact newton_enclosure _ _ s1 0.29849302313757 0.2984930231388 (-0.05717912707638) (-0.0571791256841)
      37.94223645512189 37.94223645515317 (-0.0015070046581) (-0.00150700462139) 0.30000002775896 0.3000000277969
      (by norm_num) hV1.1 hV1.2 (by linarith [hP1.1, hM.2]) (by linarith [hP1.2, hM.1])
      (hσ1.1) (hσ1.2) (by norm_num) (by norm_num) (by norm_num) (by norm_num) (by norm_num)
      (by norm_num)
  generalize ImpliedVolatility.newtonStep Real.exp Real.sqrt Real.log M 100 100 0.05 1 OptionType.CALL s1 = s2 at hσ2 ⊢
  clear hP1 hV1 hm1 hs1
  have hP2 := scenario_price_iterate2 s2 (hσ2.1) (hσ2.2)
  have hV2 := scenario_vega_iterate2 s2 (hσ2.1) (hσ2.2)
  have hm2 : ¬ ImpliedVolatility.meetsTolerance Real.exp Real.sqrt Real.log M 100 100 0.05 1 OptionType.CALL 1e-6 s2 := by
    unfold ImpliedVolatility.meetsTolerance ImpliedVolatility.diff
    rw [abs_lt]
    intro h
    norm_num at h
    linarith [h.1, h.2, hP2.1, hP2.2, hM.1, hM.2]
  have hs2 : ¬ ImpliedVolatility.vegaTooSmall Real.exp Real.sqrt Real.log 100 100 0.05 1 OptionType.CALL s2 := by
    unfold ImpliedVolatility.vegaTooSmall ImpliedVolatility.vegaAt
    rw [abs_lt]
    intro h
    norm_num at h
    linarith [h.2, hV2.1]
  rw [ImpliedVolatility.solve_step _ _ _ _ _ _ _ _ _ _ _ s2 hm2 hs2]
  have hσ3 : 0.29999999946634 ≤ ImpliedVolatility.newtonStep Real.exp Real.sqrt Real.log M 100 100 0.05 1 OptionType.CALL s2 ∧
      ImpliedVolatility.newtonStep Real.exp Real.sqrt Real.log M 100 100 0.05 1 OptionType.CALL s2 ≤ 0.30000000059344 := by
    unfold ImpliedVolatility.newtonStep ImpliedVolatility.diff ImpliedVolatility.vegaAt
    exact newton_enclosure _ _ s2 0.30000002775896 0.3000000277969 0.00000103218922 0.00000107351486
      37.94329332976773 37.9432933307058 0.00000002720346 0.00000002829262 0.29999999946634 0.30000000059344
      (by norm_num) hV2.1 hV2.2 (by linarith [hP2.1, hM.2]) (by linarith [hP2.2, hM.1])
      (hσ2.1) (hσ2.2) (by norm_num) (by norm_num) (by norm_num) (by norm_num) (by norm_num)
      (by norm_num)
  generalize ImpliedVolatility.newtonStep Real.exp Real.sqrt Real.log M 100 100 0.05 1 OptionType.CALL s2 = s3 at hσ3 ⊢
  clear hP2 hV2 hm2 hs2
  have hP3 := scenario_price_iterate3 s3 (hσ3.1) (hσ3.2)
  have hm3 : ImpliedVolatility.meetsTolerance Real.exp Real.sqrt Real.log M 100 100 0.05 1 OptionType.CALL 1e-6 s3 := by
    unfold ImpliedVolatility.meetsTolerance ImpliedVolatility.diff
    rw [abs_lt]
    norm_num
    constructor <;> linarith [hP3.1, hP3.2, hM.1, hM.2]
  rw [ImpliedVolatility.solve_of_meets _ _ _ _ _ _ _ _ _ _ _ s3 hm3, abs_lt]
  norm_num
  constructor <;> linarith [hσ3.1, hσ3.2]

/-- C11: for every engine, option, spot, rate, vol and epsilon,
`MonteCarloGreeks::vega` returns `(P(vol + epsilon) - P(vol - epsilon)) /
(2*epsilon)` with spot and rate unchanged, and `MonteCarloGreeks::rho` returns
`(P(rate + epsilon) - P(rate - epsilon)) / (2*epsilon)` with spot and vol
unchanged, where `P` is the first component of the antithetic
`MonteCarloPricer::price` of a pricer holding the engine's path count and base
seed; a price computed at a bumped rate uses that rate both in the drift and in
the discount factor; when `epsilon` is omitted it is `0.001`. -/
theorem MonteCarloGreeks.vega_rho_formula (normal : Nat → Nat → ℝ)
    (team_up team_down : OmpTeam)
    (self : MonteCarloGreeks) (option : Option ℝ) (spot rate vol epsilon : ℝ) :
    (self.vega Real.exp Real.sqrt normal team_up team_down option spot rate vol epsilon).1 =
      (((MonteCarloPricer.new self.pricer_.num_sims_ self.seed_).price Real.exp Real.sqrt normal
            team_up option spot rate (vol + epsilon) true).1 -
          ((MonteCarloPricer.new self.pricer_.num_sims_ self.seed_).price Real.exp Real.sqrt
            normal team_down option spot rate (vol - epsilon) true).1) /
        (2 * epsilon) ∧
    (self.rho Real.exp Real.sqrt normal team_up team_down option spot rate vol epsilon).1 =
      (((MonteCarloPricer.new self.pricer_.num_sims_ self.seed_).price Real.exp Real.sqrt normal
            team_up option spot (rate + epsilon) vol true).1 -
          ((MonteCarloPricer.new self.pricer_.num_sims_ self.seed_).price Real.exp Real.sqrt
            normal team_down option spot (rate - epsilon) vol true).1) /
        (2 * epsilon) ∧
    (∀ (team : OmpTeam) (bumped : ℝ),
      (MonteCarloPricer.new self.pricer_.num_sims_ self.seed_).price Real.exp Real.sqrt normal
          team option spot bumped vol true =
        MonteCarloPricer.estimate Real.sqrt
          (MonteCarloPricer.parallelRegion Real.exp normal team
            (MonteCarloPricer.new self.pricer_.num_sims_ self.seed_).seed_
            ((MonteCarloPricer.new self.pricer_.num_sims_ self.seed_).loops true) option spot
            ((bumped - 0.5 * vol * vol) * option.getMaturity)
            (vol * Real.sqrt option.getMaturity) true ⟨0, 0⟩)
          ((MonteCarloPricer.new self.pricer_.num_sims_ self.seed_).actual_sims true)
          (Real.exp (-bumped * option.getMaturity))) ∧
    self.vega Real.exp Real.sqrt normal team_up team_down option spot rate vol =
      self.vega Real.exp Real.sqrt normal team_up team_down option spot rate vol 0.001 ∧
    self.rho Real.exp Real.sqrt normal team_up team_down option spot rate vol =
      self.rho Real.exp Real.sqrt normal team_up team_down option spot rate vol 0.001 := by
  refine ⟨?_, ?_, fun _ _ => rfl, rfl, rfl⟩
  · simp only [MonteCarloGreeks.vega, MonteCarloPricer.setSeed, MonteCarloPricer.new]
    norm_num
  · simp only [MonteCarloGreeks.rho, MonteCarloPricer.setSeed, MonteCarloPricer.new]
    norm_num

/-- C12: let an engine be constructed with seed `s` (an `unsigned int`, so
`s < 2^32`) and let any sequence of `delta`, `gamma`, `vega`, `rho` and
`setNumSimulations` calls be made on it. Then the wrapped pricer's seed and the
stored base seed equal `s` (also right after construction, the empty sequence);
every `price` call that a further method call makes acts on a pricer whose seed is
`s` and whose path count is the engine's; the recorded methods return what the
methods return; and in each of those `price` calls, for any team, thread `w`
seeds its generator with `(s + w + 1) mod 2^32` and makes one draw for each of its
iterations of the same loop, whatever the bumped inputs are. -/
theorem MonteCarloGreeks.common_random_numbers (normal : Nat → Nat → ℝ) (num_sims : Int)
    (s : Nat) (hs : s < 2 ^ 32) (calls : List (MonteCarloGreeks.Call ℝ))
    (call : MonteCarloGreeks.Call ℝ) :
    (((MonteCarloGreeks.new num_sims s).performAll Real.exp Real.sqrt normal calls).pricer_.seed_
        = s ∧
      ((MonteCarloGreeks.new num_sims s).performAll Real.exp Real.sqrt normal calls).seed_ = s) ∧
    (∀ p ∈ (((MonteCarloGreeks.new num_sims s).performAll Real.exp Real.sqrt normal
        calls).perform Real.exp Real.sqrt normal call).2,
      p.seed_ = s ∧
      p.num_sims_ =
        ((MonteCarloGreeks.new num_sims s).performAll Real.exp Real.sqrt normal
          calls).pricer_.num_sims_ ∧
      ∀ (team : OmpTeam) (w : Nat) (option : Option ℝ) (spot drift diffusion : ℝ),
        (MonteCarloPricer.threadRun Real.exp normal team p.seed_ (p.loops true) option spot
            drift diffusion true w).1 =
          ⟨(s + w + 1) % 2 ^ 32,
            (team.assigned
              (((MonteCarloGreeks.new num_sims s).performAll Real.exp Real.sqrt normal
                calls).pricer_.loops true).toNat w).length⟩) ∧
    (∀ (engine : MonteCarloGreeks) (team_up team_base team_down : OmpTeam) (option : Option ℝ)
        (spot rate vol epsilon : ℝ),
      (engine.deltaLogged Real.exp Real.sqrt normal team_up team_down option spot rate vol
          epsilon).1 =
        engine.delta Real.exp Real.sqrt normal team_up team_down option spot rate vol epsilon ∧
      (engine.gammaLogged Real.exp Real.sqrt normal team_up team_base team_down option spot rate
          vol epsilon).1 =
        engine.gamma Real.exp Real.sqrt normal team_up team_base team_down option spot rate vol
          epsilon ∧
      (engine.vegaLogged Real.exp Real.sqrt normal team_up team_down option spot rate vol
          epsilon).1 =
        engine.vega Real.exp Real.sqrt normal team_up team_down option spot rate vol epsilon ∧
      (engine.rhoLogged Real.exp Real.sqrt normal team_up team_down option spot rate vol
          epsilon).1 =
        engine.rho Real.exp Real.sqrt normal team_up team_down option spot rate vol epsilon) := by
  have hmod : s % 2 ^ 32 = s := Nat.mod_eq_of_lt hs
  have hnew : (MonteCarloGreeks.new num_sims s).pricer_.seed_ = s ∧
      (MonteCarloGreeks.new num_sims s).seed_ = s := by
    simp only [MonteCarloGreeks.new, MonteCarloPricer.new, hmod, and_self]
  have hinv := MonteCarloGreeks.performAll_seed Real.exp Real.sqrt normal s hs calls _ hnew
  refine ⟨hinv, ?_, ?_⟩
  · intro p hp
    obtain ⟨hp1, hp2⟩ :=
      (MonteCarloGreeks.perform_seed Real.exp Real.sqrt normal s hs _ hinv call).2 p hp
    refine ⟨hp1, hp2, ?_⟩
    intro team w option spot drift diffusion
    rw [MonteCarloPricer.gbm_threadRun_rng, hp1]
    simp only [MonteCarloPricer.loops, hp2]
  · intro engine team_up team_base team_down option spot rate vol epsilon
    exact ⟨rfl, rfl, rfl, rfl⟩

/-- Witness for C12: seed 42, a `setNumSimulations` and a `delta` call followed by
a `gamma` call. -/
theorem MonteCarloGreeks.common_random_numbers_witness :
    (42 : Nat) < 2 ^ 32 ∧
    ((MonteCarloGreeks.new 4 42).performAll Real.exp Real.sqrt (fun _ k => (k : ℝ))
        [MonteCarloGreeks.Call.setNumSimulations 6,
          MonteCarloGreeks.Call.delta OmpTeam.serial OmpTeam.serial
            (EuropeanOption 100 1 OptionType.CALL) 100 0.05 0.2 0.01]).pricer_.seed_ = 42 ∧
    ∀ p ∈ (((MonteCarloGreeks.new 4 42).performAll Real.exp Real.sqrt (fun _ k => (k : ℝ))
        [MonteCarloGreeks.Call.setNumSimulations 6,
          MonteCarloGreeks.Call.delta OmpTeam.serial OmpTeam.serial
            (EuropeanOption 100 1 OptionType.CALL) 100 0.05 0.2 0.01]).perform Real.exp Real.sqrt
        (fun _ k => (k : ℝ))
        (MonteCarloGreeks.Call.gamma OmpTeam.serial OmpTeam.serial OmpTeam.serial
          (EuropeanOption 100 1 OptionType.CALL) 100 0.05 0.2 0.01)).2,
      p.seed_ = 42 :=
  ⟨by decide,
    (MonteCarloGreeks.common_random_numbers (fun _ k => (k : ℝ)) 4 42 (by decide)
      [MonteCarloGreeks.Call.setNumSimulations 6,
        MonteCarloGreeks.Call.delta OmpTeam.serial OmpTeam.serial
          (EuropeanOption 100 1 OptionType.CALL) 100 0.05 0.2 0.01]
      (MonteCarloGreeks.Call.gamma OmpTeam.serial OmpTeam.serial OmpTeam.serial
        (EuropeanOption 100 1 OptionType.CALL) 100 0.05 0.2 0.01)).1.1,
    fun p hp =>
      ((MonteCarloGreeks.common_random_numbers (fun _ k => (k : ℝ)) 4 42 (by decide)
        [MonteCarloGreeks.Call.setNumSimulations 6,
          MonteCarloGreeks.Call.delta OmpTeam.serial OmpTeam.serial
            (EuropeanOption 100 1 OptionType.CALL) 100 0.05 0.2 0.01]
        (MonteCarloGreeks.Call.gamma OmpTeam.serial OmpTeam.serial OmpTeam.serial
          (EuropeanOption 100 1 OptionType.CALL) 100 0.05 0.2 0.01)).2.1 p hp).1⟩

/-! ## Auxiliary lemmas: how many iterations each worker runs -/

/-- C14: in `MonteCarloPricer::price` the generator of thread `w` is seeded with
`(seed_ + w + 1) mod 2^32`, `seed_` being the pricer's configured seed; in
`HestonPricer::price` it is seeded with `(42 + w) mod 2^32` for every pricer and
all arguments; and in both engines two distinct thread indices below `2^32` get
different seeds within one call. -/
theorem worker_stream_seeds (normal : Nat → Nat → ℝ) (team : OmpTeam)
    (pricer : MonteCarloPricer) (heston : HestonPricer) (option : Option ℝ)
    (spot rate volatility v0 kappa theta xi rho : ℝ) (use_antithetic : Bool) :
    (∀ w : Nat,
      (MonteCarloPricer.threadRun Real.exp normal team pricer.seed_
          (pricer.loops use_antithetic) option spot
          ((rate - 0.5 * volatility * volatility) * option.getMaturity)
          (volatility * Real.sqrt option.getMaturity) use_antithetic w).1.seed =
        (pricer.seed_ + w + 1) % 2 ^ 32) ∧
    (∀ w : Nat,
      (HestonPricer.threadRun Real.exp Real.sqrt normal team heston option spot rate v0 kappa
          theta xi (option.getMaturity / (heston.num_steps_ : ℝ))
          (Real.sqrt (option.getMaturity / (heston.num_steps_ : ℝ))) rho
          (Real.sqrt (1.0 - rho * rho)) w).1.seed =
        (42 + w) % 2 ^ 32) ∧
    (∀ w1 w2 : Nat, w1 < 2 ^ 32 → w2 < 2 ^ 32 → w1 ≠ w2 →
      (MonteCarloPricer.threadRun Real.exp normal team pricer.seed_
          (pricer.loops use_antithetic) option spot
          ((rate - 0.5 * volatility * volatility) * option.getMaturity)
          (volatility * Real.sqrt option.getMaturity) use_antithetic w1).1.seed ≠
        (MonteCarloPricer.threadRun Real.exp normal team pricer.seed_
          (pricer.loops use_antithetic) option spot
          ((rate - 0.5 * volatility * volatility) * option.getMaturity)
          (volatility * Real.sqrt option.getMaturity) use_antithetic w2).1.seed ∧
      (HestonPricer.threadRun Real.exp Real.sqrt normal team heston option spot rate v0 kappa
          theta xi (option.getMaturity / (heston.num_steps_ : ℝ))
          (Real.sqrt (option.getMaturity / (heston.num_steps_ : ℝ))) rho
          (Real.sqrt (1.0 - rho * rho)) w1).1.seed ≠
        (HestonPricer.threadRun Real.exp Real.sqrt normal team heston option spot rate v0 kappa
          theta xi (option.getMaturity / (heston.num_steps_ : ℝ))
          (Real.sqrt (option.getMaturity / (heston.num_steps_ : ℝ))) rho
          (Real.sqrt (1.0 - rho * rho)) w2).1.seed) := by
  refine ⟨?_, ?_, ?_⟩
  · intro w
    rw [MonteCarloPricer.gbm_threadRun_rng]
  · intro w
    rw [HestonPricer.heston_threadRun_rng]
  · intro w1 w2 h1 h2 hne
    rw [MonteCarloPricer.gbm_threadRun_rng, MonteCarloPricer.gbm_threadRun_rng,
      HestonPricer.heston_threadRun_rng, HestonPricer.heston_threadRun_rng]
    constructor
    · intro h
      exact hne (seed_offset_injective pricer.seed_ 1 w1 w2 h1 h2 h)
    · intro h
      have h' : (42 + w1 + 0) % 2 ^ 32 = (42 + w2 + 0) % 2 ^ 32 := h
      exact hne (seed_offset_injective 42 0 w1 w2 h1 h2 h')

/-- C15: in both path engines the aggregate after the parallel region is the
initial value plus the sum of the threads' private sums (payoffs, and squared
payoffs for GBM), and it is the reduction of one fixed contribution per iteration
(the contribution of the draws that iteration consumes). For any fixed
per-iteration contributions `c`, such a reduction is unchanged when the threads
are taken in another order, when each thread takes its iterations in another
order, and when the iterations are distributed over the threads in another way
(any other team): it always equals `init + Σ_i c i`. -/
theorem reduction_order_independent (normal : Nat → Nat → ℝ) (team : OmpTeam)
    (pricer : MonteCarloPricer) (heston : HestonPricer) (option : Option ℝ)
    (spot drift diffusion rate v0 kappa theta xi dt sqrt_dt c1 c2 : ℝ) (use_antithetic : Bool)
    (loops : Int) (sums : Sums ℝ) (init : ℝ) :
    (MonteCarloPricer.parallelRegion Real.exp normal team pricer.seed_ loops option spot drift
        diffusion use_antithetic sums =
      ⟨sums.sum_payoffs + ∑ t in range team.num_threads,
          (MonteCarloPricer.threadRun Real.exp normal team pricer.seed_ loops option spot drift
            diffusion use_antithetic t).2.sum_payoffs,
        sums.sum_sq_payoffs + ∑ t in range team.num_threads,
          (MonteCarloPricer.threadRun Real.exp normal team pricer.seed_ loops option spot drift
            diffusion use_antithetic t).2.sum_sq_payoffs⟩) ∧
    (HestonPricer.parallelRegion Real.exp Real.sqrt normal team heston option spot rate v0
        kappa theta xi dt sqrt_dt c1 c2 init =
      init + ∑ t in range team.num_threads,
        (HestonPricer.threadRun Real.exp Real.sqrt normal team heston option spot rate v0 kappa
          theta xi dt sqrt_dt c1 c2 t).2) ∧
    (MonteCarloPricer.parallelRegion Real.exp normal team pricer.seed_ loops option spot drift
        diffusion use_antithetic sums =
      ⟨OmpTeam.reduceOrdered (List.range team.num_threads) (team.assigned loops.toNat)
          (fun i => (MonteCarloPricer.contribution Real.exp option spot drift diffusion
            use_antithetic (pricer.draw normal team i)).sum_payoffs) sums.sum_payoffs,
        OmpTeam.reduceOrdered (List.range team.num_threads) (team.assigned loops.toNat)
          (fun i => (MonteCarloPricer.contribution Real.exp option spot drift diffusion
            use_antithetic (pricer.draw normal team i)).sum_sq_payoffs) sums.sum_sq_payoffs⟩) ∧
    (HestonPricer.parallelRegion Real.exp Real.sqrt normal team heston option spot rate v0
        kappa theta xi dt sqrt_dt c1 c2 init =
      OmpTeam.reduceOrdered (List.range team.num_threads)
        (team.assigned heston.num_sims_.toNat)
        (fun i => option.payoff (HestonPricer.simulatePath Real.exp Real.sqrt normal
          heston.num_steps_ spot rate v0 kappa theta xi dt sqrt_dt c1 c2
          (HestonPricer.pathStart team heston i)).S) init) ∧
    (∀ (c : Nat → ℝ) (n : Nat) (threads : List Nat) (iters : Nat → List Nat)
        (other : OmpTeam),
      threads.Perm (List.range team.num_threads) →
      (∀ t, (iters t).Perm (team.assigned n t)) →
      OmpTeam.reduceOrdered threads iters c init =
          OmpTeam.reduceOrdered (List.range team.num_threads) (team.assigned n) c init ∧
        OmpTeam.reduceOrdered (List.range other.num_threads) (other.assigned n) c init =
          OmpTeam.reduceOrdered (List.range team.num_threads) (team.assigned n) c init ∧
        OmpTeam.reduceOrdered (List.range team.num_threads) (team.assigned n) c init =
          init + ∑ i in range n, c i) := by
  have hred : ∀ (tm : OmpTeam) (c : Nat → ℝ) (n : Nat) (a : ℝ),
      OmpTeam.reduceOrdered (List.range tm.num_threads) (tm.assigned n) c a =
        a + ∑ i in range n, c i := by
    intro tm c n a
    rw [OmpTeam.reduceOrdered_eq, OmpTeam.sum_assigned]
  refine ⟨?_, ?_, ?_, ?_, ?_⟩
  · unfold MonteCarloPricer.parallelRegion
    rw [Sums.foldl_add]
  · unfold HestonPricer.parallelRegion
    rw [foldl_add_eq_sum]
  · rw [MonteCarloPricer.gbm_parallelRegion_eq, hred, hred]
  · rw [HestonPricer.heston_parallelRegion_eq, hred]
  · intro c n threads iters other hthreads hiters
    refine ⟨?_, ?_, hred team c n init⟩
    · rw [OmpTeam.reduceOrdered_eq, OmpTeam.reduceOrdered_eq]
      congr 1
      have hmap : threads.map (fun t => ((iters t).map c).sum) =
          threads.map (fun t => ((team.assigned n t).map c).sum) := by
        apply List.map_congr_left
        intro t _
        exact ((hiters t).map c).sum_eq
      rw [hmap]
      exact (hthreads.map _).sum_eq
    · rw [hred, hred]

/-! ## The implied-volatility solver -/

/-- Counterexample to C16 as stated: with initial guess `-1` and as market price
the Black-Scholes price at volatility `-1` (spot 100, strike 100, rate 0.05,
maturity 1, call), the first iterate meets the tolerance and is returned, so the
call returns `-1.0`; yet neither are `maxIterations` iterates tested without
meeting the tolerance, nor does an iterate that misses it have `|vega| < 1e-8`. -/
theorem ImpliedVolatility.sentinel_counterexample :
    ImpliedVolatility.calculate Real.exp Real.sqrt Real.log
        ((⟨100, 100, 0.05, -1, 1, OptionType.CALL⟩ : BlackScholes ℝ).price Real.exp Real.sqrt
          Real.log)
        100 100 0.05 1 OptionType.CALL (-1) = -1.0 ∧
    ¬ (ImpliedVolatility.exhausted Real.exp Real.sqrt Real.log
        ((⟨100, 100, 0.05, -1, 1, OptionType.CALL⟩ : BlackScholes ℝ).price Real.exp Real.sqrt
          Real.log)
        100 100 0.05 1 OptionType.CALL (-1) 1e-6 100 ∨
      ImpliedVolatility.stalled Real.exp Real.sqrt Real.log
        ((⟨100, 100, 0.05, -1, 1, OptionType.CALL⟩ : BlackScholes ℝ).price Real.exp Real.sqrt
          Real.log)
        100 100 0.05 1 OptionType.CALL (-1) 1e-6 100) := by
  have hmeets : ImpliedVolatility.meetsTolerance Real.exp Real.sqrt Real.log
      ((⟨100, 100, 0.05, -1, 1, OptionType.CALL⟩ : BlackScholes ℝ).price Real.exp Real.sqrt
        Real.log)
      100 100 0.05 1 OptionType.CALL 1e-6 (-1) := by
    simp only [ImpliedVolatility.meetsTolerance, ImpliedVolatility.diff, sub_self, abs_zero]
    norm_num
  constructor
  · have h100 : ((100 : Int)).toNat = 99 + 1 := by decide
    unfold ImpliedVolatility.calculate
    rw [h100, ImpliedVolatility.solve_of_meets _ _ _ _ _ _ _ _ _ _ _ _ hmeets]
    norm_num
  · exact ImpliedVolatility.not_failed_of_converged Real.exp Real.sqrt Real.log
      ((⟨100, 100, 0.05, -1, 1, OptionType.CALL⟩ : BlackScholes ℝ).price Real.exp Real.sqrt
        Real.log)
      100 100 0.05 1 OptionType.CALL (-1) 1e-6 100 0 (by norm_num)
      (fun i hi => absurd hi (Nat.not_lt_zero i)) hmeets

/-- C16 (amended): for every input, `ImpliedVolatility::calculate` returns either
`-1.0` or a Newton iterate reached in fewer than `maxIterations` steps whose
Black-Scholes price differs from `marketPrice` by less than `epsilon` in absolute
value; it returns `-1.0` when `maxIterations` iterates are tested without meeting
the tolerance or when an iterate that misses the tolerance has `|vega| < 1e-8`,
and otherwise only when the iterate that meets the tolerance is itself `-1.0`. -/
theorem ImpliedVolatility.calculate_result
    (marketPrice spot strike rate maturity : ℝ) (type : OptionType)
    (initialGuess epsilon : ℝ) (maxIterations : Int) :
    (ImpliedVolatility.calculate Real.exp Real.sqrt Real.log marketPrice spot strike rate
        maturity type initialGuess epsilon maxIterations = -1.0 ∨
      ∃ j : Nat, (j : Int) < maxIterations ∧
        ImpliedVolatility.calculate Real.exp Real.sqrt Real.log marketPrice spot strike rate
            maturity type initialGuess epsilon maxIterations =
          ImpliedVolatility.iterate Real.exp Real.sqrt Real.log marketPrice spot strike rate
            maturity type initialGuess j ∧
        |(⟨spot, strike, rate,
            ImpliedVolatility.iterate Real.exp Real.sqrt Real.log marketPrice spot strike rate
              maturity type initialGuess j,
            maturity, type⟩ : BlackScholes ℝ).price Real.exp Real.sqrt Real.log - marketPrice| <
          epsilon) ∧
    (ImpliedVolatility.calculate Real.exp Real.sqrt Real.log marketPrice spot strike rate
        maturity type initialGuess epsilon maxIterations = -1.0 ↔
      ImpliedVolatility.exhausted Real.exp Real.sqrt Real.log marketPrice spot strike rate
          maturity type initialGuess epsilon maxIterations ∨
        ImpliedVolatility.stalled Real.exp Real.sqrt Real.log marketPrice spot strike rate
          maturity type initialGuess epsilon maxIterations ∨
        ∃ j : Nat, (j : Int) < maxIterations ∧
          ImpliedVolatility.tested Real.exp Real.sqrt Real.log marketPrice spot strike rate
            maturity type initialGuess epsilon j ∧
          ImpliedVolatility.meetsTolerance Real.exp Real.sqrt Real.log marketPrice spot strike
            rate maturity type epsilon
            (ImpliedVolatility.iterate Real.exp Real.sqrt Real.log marketPrice spot strike
              rate maturity type initialGuess j) ∧
          ImpliedVolatility.iterate Real.exp Real.sqrt Real.log marketPrice spot strike rate
            maturity type initialGuess j = -1.0) := by
  have hlt : ∀ j : Nat, j < maxIterations.toNat ↔ (j : Int) < maxIterations := fun j => by
    omega
  rcases ImpliedVolatility.solve_spec Real.exp Real.sqrt Real.log marketPrice spot strike rate
    maturity type epsilon maxIterations.toNat initialGuess with ⟨j, hj, ht, hm, hs⟩ | ⟨hall, hs⟩
  · have hj' := (hlt j).mp hj
    have hnot := ImpliedVolatility.not_failed_of_converged Real.exp Real.sqrt Real.log
      marketPrice spot strike rate maturity type initialGuess epsilon maxIterations j hj' ht hm
    refine ⟨Or.inr ⟨j, hj', hs, hm⟩, ?_⟩
    constructor
    · intro h
      right; right
      refine ⟨j, hj', ht, hm, ?_⟩
      rw [← hs]
      exact h
    · rintro (hA | hB | ⟨k, hk, hkt, hkm, hkv⟩)
      · exact absurd (Or.inl hA) hnot
      · exact absurd (Or.inr hB) hnot
      · have hjk : j = k := by
          rcases Nat.lt_trichotomy k j with h | h | h
          · exact absurd hkm (ht k h).1
          · exact h.symm
          · exact absurd hm (hkt j h).1
        unfold ImpliedVolatility.calculate
        rw [hs, hjk, hkv]
  · refine ⟨Or.inl hs, ?_⟩
    constructor
    · intro _
      have hfail := ImpliedVolatility.failed_of_not_converged Real.exp Real.sqrt Real.log
        marketPrice spot strike rate maturity type initialGuess epsilon maxIterations
        (fun j hj => hall j ((hlt j).mpr hj))
      rcases hfail with h | h
      · exact Or.inl h
      · exact Or.inr (Or.inl h)
    · intro _
      exact hs

/-- Counterexample to C17 as stated: for `spot = strike = 1e-8`, rate 0.05,
maturity 1, a call and target volatility 0.30, the Black-Scholes prices at the
initial guess 0.5 and at 0.30 differ by less than the absolute tolerance 1e-6,
so `ImpliedVolatility::calculate` returns the initial guess 0.5 at once, which
is not within 1e-5 of 0.30. -/
theorem ImpliedVolatility.roundtrip_counterexample :
    (0 : ℝ) < 1e-8 ∧ (0 : ℝ) < 1 ∧ (0 : ℝ) < 0.30 ∧
    ImpliedVolatility.calculate Real.exp Real.sqrt Real.log
        ((⟨1e-8, 1e-8, 0.05, 0.30, 1, OptionType.CALL⟩ : BlackScholes ℝ).price Real.exp
          Real.sqrt Real.log)
        1e-8 1e-8 0.05 1 OptionType.CALL = 0.5 ∧
    ¬ (|ImpliedVolatility.calculate Real.exp Real.sqrt Real.log
        ((⟨1e-8, 1e-8, 0.05, 0.30, 1, OptionType.CALL⟩ : BlackScholes ℝ).price Real.exp
          Real.sqrt Real.log)
        1e-8 1e-8 0.05 1 OptionType.CALL - 0.30| < 1e-5) := by
  have hmeets : ImpliedVolatility.meetsTolerance Real.exp Real.sqrt Real.log
      ((⟨1e-8, 1e-8, 0.05, 0.30, 1, OptionType.CALL⟩ : BlackScholes ℝ).price Real.exp Real.sqrt
        Real.log)
      1e-8 1e-8 0.05 1 OptionType.CALL 1e-6 0.5 := by
    unfold ImpliedVolatility.meetsTolerance ImpliedVolatility.diff
    have h1 := abs_le.mp (price_small_scale 1e-8 0.5 (by norm_num))
    have h2 := abs_le.mp (price_small_scale 1e-8 0.30 (by norm_num))
    rw [abs_lt]
    constructor <;> norm_num at h1 h2 ⊢ <;> linarith [h1.1, h1.2, h2.1, h2.2]
  have hval : ImpliedVolatility.calculate Real.exp Real.sqrt Real.log
      ((⟨1e-8, 1e-8, 0.05, 0.30, 1, OptionType.CALL⟩ : BlackScholes ℝ).price Real.exp Real.sqrt
        Real.log)
      1e-8 1e-8 0.05 1 OptionType.CALL = 0.5 := by
    have h100 : ((100 : Int)).toNat = 99 + 1 := by decide
    unfold ImpliedVolatility.calculate
    rw [h100, ImpliedVolatility.solve_of_meets _ _ _ _ _ _ _ _ _ _ _ _ hmeets]
  refine ⟨by norm_num, by norm_num, by norm_num, hval, ?_⟩
  rw [hval]
  norm_num [abs_lt]

/-- C17 (amended): in the scenario of the test (spot 100, strike 100, rate 0.05,
maturity 1, call, target volatility 0.30), `ImpliedVolatility::calculate` applied
to the Black-Scholes price of the target volatility, with the default initial guess
0.5, tolerance 1e-6 and 100 iterations, returns a value within 1e-5 of the target.
For arbitrary spot, strike, rate, maturity, option type and target volatility the
returned value is either `-1.0` or a volatility whose Black-Scholes price is within
the tolerance 1e-6 of the given price. -/
theorem ImpliedVolatility.roundtrip :
    |ImpliedVolatility.calculate Real.exp Real.sqrt Real.log
        ((⟨100, 100, 0.05, 0.30, 1, OptionType.CALL⟩ : BlackScholes ℝ).price Real.exp Real.sqrt
          Real.log)
        100 100 0.05 1 OptionType.CALL - 0.30| < 1e-5 ∧
    ∀ (spot strike rate maturity sigma : ℝ) (type : OptionType),
      ImpliedVolatility.calculate Real.exp Real.sqrt Real.log
          ((⟨spot, strike, rate, sigma, maturity, type⟩ : BlackScholes ℝ).price Real.exp
            Real.sqrt Real.log)
          spot strike rate maturity type = -1.0 ∨
        |(⟨spot, strike, rate,
            ImpliedVolatility.calculate Real.exp Real.sqrt Real.log
              ((⟨spot, strike, rate, sigma, maturity, type⟩ : BlackScholes ℝ).price Real.exp
                Real.sqrt Real.log)
              spot strike rate maturity type,
            maturity, type⟩ : BlackScholes ℝ).price Real.exp Real.sqrt Real.log -
          (⟨spot, strike, rate, sigma, maturity, type⟩ : BlackScholes ℝ).price Real.exp
            Real.sqrt Real.log| < 1e-6 := by
  refine ⟨ImpliedVolatility.scenario_recovers_volatility, ?_⟩
  intro spot strike rate maturity sigma type
  rcases ImpliedVolatility.solve_spec Real.exp Real.sqrt Real.log
    ((⟨spot, strike, rate, sigma, maturity, type⟩ : BlackScholes ℝ).price Real.exp Real.sqrt
      Real.log)
    spot strike rate maturity type 1e-6 ((100 : Int)).toNat 0.5 with ⟨j, _, _, hm, hs⟩ | ⟨_, hs⟩
  · right
    unfold ImpliedVolatility.calculate
    rw [hs]
    exact hm
  · left
    exact hs

/-- C18: the price of `BlackScholes(spot 100, strike 100, rate 0.05, volatility
0.20, maturity 1, CALL)`, computed with the approximation `normalCDF` of the code
in exact real arithmetic, lies within `0.001` of `10.4506`. -/
theorem BlackScholes.reference_price :
    |(⟨100, 100, 0.05, 0.20, 1, OptionType.CALL⟩ : BlackScholes ℝ).price Real.exp Real.sqrt
        Real.log - 10.4506| < 0.001 := by
  have hd1 : (⟨100, 100, 0.05, 0.20, 1, OptionType.CALL⟩ : BlackScholes ℝ).calculateD1
      Real.sqrt Real.log = 0.35 := by
    simp only [BlackScholes.calculateD1]
    norm_num
  have hd2 : (⟨100, 100, 0.05, 0.20, 1, OptionType.CALL⟩ : BlackScholes ℝ).calculateD2
      Real.sqrt Real.log = 0.15 := by
    simp only [BlackScholes.calculateD2, hd1]
    norm_num
  simp only [BlackScholes.price, hd1, hd2, if_true]
  have hN1 := normalCDF_enclosure (0.35) 0.35 0.35 0.92500549330585 0.92500549330586
    0.77221778191382 0.77221778191403 0.94058806336434 0.94058806336435
    0.63683058600698 0.63683058600709
    (by norm_num) (le_refl _) (le_refl _) (by norm_num) (by norm_num) (by norm_num) (by norm_num)
    (by norm_num [cdfPoly]) (by norm_num [cdfPoly]) (by norm_num)
    (exp_neg_half_sq_enclosure (0.35) 0.35 0.35 0.94058806336434 0.94058806336435
      8 (by norm_num) (by norm_num) (le_refl _) (le_refl _) (by norm_num)
      (by norm_num [Finset.sum_range_succ, Nat.factorial])
      (by norm_num [Finset.sum_range_succ, Nat.factorial]))
    (by norm_num) (by norm_num) (by norm_num)
  have hN2 := normalCDF_enclosure (0.15) 0.15 0.15 0.96642048026385 0.96642048026386
    0.8907291277961 0.89072912779631 0.98881304461123 0.98881304461124
    0.5596177096099 0.55961770961002
    (by norm_num) (le_refl _) (le_refl _) (by norm_num) (by norm_num) (by norm_num) (by norm_num)
    (by norm_num [cdfPoly]) (by norm_num [cdfPoly]) (by norm_num)
    (exp_neg_half_sq_enclosure (0.15) 0.15 0.15 0.98881304461123 0.98881304461124
      8 (by norm_num) (by norm_num) (le_refl _) (le_refl _) (by norm_num)
      (by norm_num [Finset.sum_range_succ, Nat.factorial])
      (by norm_num [Finset.sum_range_succ, Nat.factorial]))
    (by norm_num) (by norm_num) (by norm_num)
  have hE := exp_neg_enclosure 0.05 0.05 0.05 8 (by norm_num) (by norm_num) (le_refl _)
    (le_refl _) (by norm_num)
  have hE1 : (0.95122942450071 : ℝ) ≤ Real.exp (-0.05 * 1) := by
    have h := hE.1
    norm_num [Finset.sum_range_succ, Nat.factorial] at h ⊢
    linarith
  have hE2 : Real.exp (-0.05 * 1) ≤ (0.95122942450072 : ℝ) := by
    have h := hE.2
    norm_num [Finset.sum_range_succ, Nat.factorial] at h ⊢
    linarith
  generalize normalCDF Real.exp Real.sqrt 0.35 = N1 at hN1
  generalize normalCDF Real.exp Real.sqrt 0.15 = N2 at hN2
  generalize Real.exp (-0.05 * 1) = E at hE1 hE2
  obtain ⟨hN1l, hN1h⟩ := hN1
  obtain ⟨hN2l, hN2h⟩ := hN2
  have hp1 : 0.95122942450071 * 0.5596177096099 ≤ E * N2 :=
    mul_le_mul hE1 hN2l (by norm_num) (le_trans (by norm_num) hE1)
  have hp2 : E * N2 ≤ 0.95122942450072 * 0.55961770961002 :=
    mul_le_mul hE2 hN2h (le_trans (by norm_num) hN2l) (by norm_num)
  rw [abs_lt]
  constructor <;> nlinarith

/-! ## Defined results and the Heston noise -/

/-- Counterexample to C19 as stated: for `numPaths = 1` with antithetic sampling
(the default) the loop count is `1 / 2 = 0` and the path count the result is
divided by is `0 * 2 = 0`, which is not strictly positive. -/
theorem MonteCarloPricer.actual_sims_one_counterexample :
    (0 : Int) < (MonteCarloPricer.new 1).num_sims_ ∧
    (MonteCarloPricer.new 1).actual_sims true = 0 ∧
    ¬ (0 < (MonteCarloPricer.new 1).actual_sims true) ∧
    (MonteCarloPricer.new 1).price Real.exp Real.sqrt (fun _ k => (k : ℝ)) OmpTeam.serial
        (EuropeanOption 100 1 OptionType.CALL) 100 0.05 0.2 =
      MonteCarloPricer.estimate Real.sqrt ⟨0, 0⟩ 0 (Real.exp (-0.05 * 1)) := by
  refine ⟨by decide, by decide, by decide, ?_⟩
  simp only [MonteCarloPricer.price, MonteCarloPricer.gbm_parallelRegion_eq]
  have hl : (MonteCarloPricer.new 1).loops true = 0 := by decide
  have ha : (MonteCarloPricer.new 1).actual_sims true = 0 := by decide
  rw [hl, ha]
  simp [EuropeanOption, Option.getMaturity]

/-- C19 (amended): for every `numPaths > 0` without antithetic sampling, and for
every `numPaths >= 2` with antithetic sampling (the default), the path count by
which `MonteCarloPricer::price` divides for the mean, the variance and the
standard error is strictly positive, so no division by zero occurs. -/
theorem MonteCarloPricer.actual_sims_pos (normal : Nat → Nat → ℝ) (team : OmpTeam)
    (self : MonteCarloPricer) (option : Option ℝ) (spot rate volatility : ℝ)
    (use_antithetic : Bool) (h : 0 < self.num_sims_)
    (h2 : use_antithetic = true → 2 ≤ self.num_sims_) :
    0 < self.actual_sims use_antithetic ∧
    (0 : ℝ) < ((self.actual_sims use_antithetic : Int) : ℝ) ∧
    self.price Real.exp Real.sqrt normal team option spot rate volatility use_antithetic =
      MonteCarloPricer.estimate Real.sqrt
        (MonteCarloPricer.parallelRegion Real.exp normal team self.seed_
          (self.loops use_antithetic) option spot
          ((rate - 0.5 * volatility * volatility) * option.getMaturity)
          (volatility * Real.sqrt option.getMaturity) use_antithetic ⟨0, 0⟩)
        (self.actual_sims use_antithetic) (Real.exp (-rate * option.getMaturity)) ∧
    self.price Real.exp Real.sqrt normal team option spot rate volatility =
      self.price Real.exp Real.sqrt normal team option spot rate volatility true := by
  have hpos : 0 < self.actual_sims use_antithetic := by
    cases use_antithetic with
    | false => simpa [MonteCarloPricer.actual_sims] using h
    | true =>
      have h2' := h2 rfl
      simp only [MonteCarloPricer.actual_sims, MonteCarloPricer.loops, if_true]
      have : Int.tdiv self.num_sims_ 2 = self.num_sims_ / 2 :=
        Int.tdiv_eq_ediv (by omega) (by decide)
      rw [this]
      omega
  exact ⟨hpos, by exact_mod_cast hpos, rfl, rfl⟩

/-- Witness for C19 (amended): two paths with antithetic sampling. -/
theorem MonteCarloPricer.actual_sims_pos_witness :
    (0 : Int) < (MonteCarloPricer.new 2).num_sims_ ∧
    (true = true → (2 : Int) ≤ (MonteCarloPricer.new 2).num_sims_) ∧
    0 < (MonteCarloPricer.new 2).actual_sims true :=
  ⟨by decide, fun _ => by decide,
    (MonteCarloPricer.actual_sims_pos (fun _ k => (k : ℝ)) OmpTeam.serial
      (MonteCarloPricer.new 2) (EuropeanOption 100 1 OptionType.CALL) 100 0.05 0.2 true
      (by decide) (fun _ => by decide)).1⟩

/-- C20: for every `rho` with `-1 <= rho <= 1`, the coefficients `c1 = rho` and
`c2 = sqrt(1 - rho^2)` that `HestonPricer::price` passes to its time step satisfy
`c1^2 + c2^2 = 1`; equivalently the lower-triangular matrix
`L = [[1, 0], [c1, c2]]` satisfies `L * L^T = [[1, rho], [rho, 1]]`; and in the
time step the asset noise is `Z1*sqrt(dt)` and the variance noise is
`(c1*Z1 + c2*Z2)*sqrt(dt)`. -/
theorem HestonPricer.cholesky_noise (normal : Nat → Nat → ℝ) (team : OmpTeam)
    (self : HestonPricer) (option : Option ℝ) (spot rate v0 kappa theta xi rho : ℝ)
    (st : HestonPricer.PathState ℝ)
    (hlo : -1 ≤ rho) (hhi : rho ≤ 1) :
    rho ^ 2 + Real.sqrt (1.0 - rho * rho) ^ 2 = 1 ∧
    (!![1, 0; rho, Real.sqrt (1.0 - rho * rho)] : Matrix (Fin 2) (Fin 2) ℝ) *
        Matrix.transpose (!![1, 0; rho, Real.sqrt (1.0 - rho * rho)] :
          Matrix (Fin 2) (Fin 2) ℝ) =
      !![1, rho; rho, 1] ∧
    HestonPricer.timeStep Real.exp Real.sqrt normal rate kappa theta xi
        (option.getMaturity / (self.num_steps_ : ℝ))
        (Real.sqrt (option.getMaturity / (self.num_steps_ : ℝ)))
        rho (Real.sqrt (1.0 - rho * rho)) st =
      ⟨⟨st.rng.seed, st.rng.calls + 2⟩,
        st.S * Real.exp
          ((rate - 0.5 * max st.v 0) * (option.getMaturity / (self.num_steps_ : ℝ)) +
            Real.sqrt (max st.v 0) *
              (normal st.rng.seed st.rng.calls *
                Real.sqrt (option.getMaturity / (self.num_steps_ : ℝ)))),
        st.v + (kappa * (theta - max st.v 0) * (option.getMaturity / (self.num_steps_ : ℝ)) +
          xi * Real.sqrt (max st.v 0) *
            ((rho * normal st.rng.seed st.rng.calls +
                Real.sqrt (1.0 - rho * rho) * normal st.rng.seed (st.rng.calls + 1)) *
              Real.sqrt (option.getMaturity / (self.num_steps_ : ℝ))))⟩ ∧
    self.price Real.exp Real.sqrt normal team option spot rate v0 kappa theta xi rho =
      (HestonPricer.parallelRegion Real.exp Real.sqrt normal team self option spot rate
          v0 kappa theta xi (option.getMaturity / (self.num_steps_ : ℝ))
          (Real.sqrt (option.getMaturity / (self.num_steps_ : ℝ)))
          rho (Real.sqrt (1.0 - rho * rho)) 0 / (self.num_sims_ : ℝ)) *
        Real.exp (-rate * option.getMaturity) := by
  have hnn : (0 : ℝ) ≤ 1.0 - rho * rho := by
    norm_num
    nlinarith
  have hsq : Real.sqrt (1.0 - rho * rho) ^ 2 = 1.0 - rho * rho := Real.sq_sqrt hnn
  have hsum : rho ^ 2 + Real.sqrt (1.0 - rho * rho) ^ 2 = 1 := by
    rw [hsq]
    norm_num
    ring
  refine ⟨hsum, ?_, HestonPricer.timeStep_eq _ _ _ _ _ _ _ _ _ _ _ _, rfl⟩
  have ht : Matrix.transpose (!![1, 0; rho, Real.sqrt (1.0 - rho * rho)] :
      Matrix (Fin 2) (Fin 2) ℝ) = !![1, rho; 0, Real.sqrt (1.0 - rho * rho)] := by
    ext i j
    fin_cases i <;> fin_cases j <;> rfl
  rw [ht, Matrix.mul_fin_two]
  ext i j
  fin_cases i <;> fin_cases j <;> simp
  nlinarith [hsum]

/-- Witness for C20: `rho = -0.7`. -/
theorem HestonPricer.cholesky_noise_witness :
    (-1 : ℝ) ≤ -0.7 ∧ (-0.7 : ℝ) ≤ 1 ∧
    (-0.7 : ℝ) ^ 2 + Real.sqrt (1.0 - -0.7 * -0.7) ^ 2 = 1 ∧
    (!![1, 0; -0.7, Real.sqrt (1.0 - -0.7 * -0.7)] : Matrix (Fin 2) (Fin 2) ℝ) *
        Matrix.transpose (!![1, 0; -0.7, Real.sqrt (1.0 - -0.7 * -0.7)] :
          Matrix (Fin 2) (Fin 2) ℝ) =
      !![1, -0.7; -0.7, 1] :=
  ⟨by norm_num, by norm_num,
    (HestonPricer.cholesky_noise (fun _ k => (k : ℝ)) OmpTeam.serial (HestonPricer.new 2 4)
      (EuropeanOption 100 1 OptionType.CALL) 100 0.05 0.04 2 0.04 0.3 (-0.7)
      ⟨⟨42, 0⟩, 100, 0.04⟩
      (by norm_num) (by norm_num)).1,
    (HestonPricer.cholesky_noise (fun _ k => (k : ℝ)) OmpTeam.serial (HestonPricer.new 2 4)
      (EuropeanOption 100 1 OptionType.CALL) 100 0.05 0.04 2 0.04 0.3 (-0.7)
      ⟨⟨42, 0⟩, 100, 0.04⟩
      (by norm_num) (by norm_num)).2.1⟩

/-! ## Auxiliary lemmas: the variance floor -/

/-- The sum of the squared deviations of a list from any value `x`, expanded, is
non-negative. -/
theorem list_sq_deviation_nonneg (L : List ℝ) (x : ℝ) :
    0 ≤ (L.map (fun p => p * p)).sum - 2 * x * L.sum + (L.length : ℝ) * (x * x) := by
  induction L with
  | nil => simp
  | cons a L ih =>
    simp only [List.map_cons, List.sum_cons, List.length_cons, Nat.cast_add, Nat.cast_one]
    nlinarith [sq_nonneg (a - x)]

/-- The square of the sum of a list is at most its length times the sum of the
squares. -/
theorem list_sq_sum_le (L : List ℝ) :
    L.sum * L.sum ≤ (L.length : ℝ) * (L.map (fun p => p * p)).sum := by
  induction L with
  | nil => simp
  | cons a L ih =>
    have h := list_sq_deviation_nonneg L a
    simp only [List.map_cons, List.sum_cons, List.length_cons, Nat.cast_add, Nat.cast_one]
    nlinarith [ih, h]

/-- The sum of the lists produced over `0, ..., N - 1` is the sum of their sums. -/
theorem list_flatMap_range_sum {β : Type} [AddCommMonoid β] (f : Nat → List β) (N : Nat) :
    ((List.range N).flatMap f).sum = ∑ i in range N, (f i).sum := by
  induction N with
  | zero => simp
  | succ N ih => simp [List.range_succ, Finset.sum_range_succ, ih]

/-- The unfloored variance of a non-empty list of payoffs is non-negative. -/
theorem MonteCarloPricer.rawVariance_sumsOf_nonneg (L : List ℝ) (n : Int)
    (hn : n = (L.length : Int)) (hpos : 0 < n) :
    0 ≤ MonteCarloPricer.rawVariance (MonteCarloPricer.sumsOf L) n := by
  have hlen : ((n : Int) : ℝ) = (L.length : ℝ) := by rw [hn]; simp
  have hpos2 : (0 : ℝ) < (L.length : ℝ) := by
    rw [← hlen]
    exact_mod_cast hpos
  simp only [MonteCarloPricer.rawVariance, MonteCarloPricer.sumsOf, hlen]
  have h := list_sq_sum_le L
  have e : (L.map (fun p => p * p)).sum / (L.length : ℝ) -
      L.sum / (L.length : ℝ) * (L.sum / (L.length : ℝ)) =
      ((L.length : ℝ) * (L.map (fun p => p * p)).sum - L.sum * L.sum) /
        ((L.length : ℝ) * (L.length : ℝ)) := by
    field_simp
    ring
  rw [e]
  apply div_nonneg
  · linarith
  · positivity

/-- When the unfloored variance is non-negative the floor leaves it unchanged. -/
theorem MonteCarloPricer.variance_eq_rawVariance {α : Type} [LinearOrderedField α]
    (sums : Sums α) (n : Int) (h : 0 ≤ MonteCarloPricer.rawVariance sums n) :
    MonteCarloPricer.variance sums n = MonteCarloPricer.rawVariance sums n := by
  unfold MonteCarloPricer.rawVariance at h
  unfold MonteCarloPricer.variance MonteCarloPricer.rawVariance
  simp only
  rw [if_neg (not_lt.mpr h)]

/-- The sums left by the parallel region are the sums of the payoffs of the run. -/
theorem MonteCarloPricer.parallelRegion_eq_sumsOf {α : Type} [LinearOrderedField α]
    (exp : α → α) (normal : Nat → Nat → α) (team : OmpTeam) (self : MonteCarloPricer)
    (option : Option α) (spot drift diffusion : α) (use_antithetic : Bool) :
    MonteCarloPricer.parallelRegion exp normal team self.seed_ (self.loops use_antithetic)
        option spot drift diffusion use_antithetic ⟨0, 0⟩ =
      MonteCarloPricer.sumsOf
        (self.payoffs exp normal team option spot drift diffusion use_antithetic) := by
  rw [MonteCarloPricer.gbm_parallelRegion_eq]
  simp only [MonteCarloPricer.sumsOf, MonteCarloPricer.payoffs, zero_add, List.map_flatMap,
    list_flatMap_range_sum]
  cases use_antithetic <;>
    simp [MonteCarloPricer.contribution, MonteCarloPricer.iterationPayoffs]

/-- The run computes `loops` payoffs, or `2 * loops` under antithetic sampling. -/
theorem MonteCarloPricer.length_payoffs {α : Type} [LinearOrderedField α]
    (exp : α → α) (normal : Nat → Nat → α) (team : OmpTeam) (self : MonteCarloPricer)
    (option : Option α) (spot drift diffusion : α) (use_antithetic : Bool) :
    (self.payoffs exp normal team option spot drift diffusion use_antithetic).length =
      (self.loops use_antithetic).toNat * (if use_antithetic then 2 else 1) := by
  simp only [MonteCarloPricer.payoffs, List.length_flatMap, list_range_map_sum]
  cases use_antithetic <;>
    simp [MonteCarloPricer.iterationPayoffs, Function.comp_def]

/-- With a positive path count the run computes `actual_sims` payoffs. -/
theorem MonteCarloPricer.length_payoffs_actual {α : Type} [LinearOrderedField α]
    (exp : α → α) (normal : Nat → Nat → α) (team : OmpTeam) (self : MonteCarloPricer)
    (option : Option α) (spot drift diffusion : α) (use_antithetic : Bool)
    (h : 0 < self.actual_sims use_antithetic) :
    self.actual_sims use_antithetic =
      ((self.payoffs exp normal team option spot drift diffusion use_antithetic).length :
        Int) := by
  rw [MonteCarloPricer.length_payoffs]
  cases use_antithetic
  · simp only [MonteCarloPricer.actual_sims, MonteCarloPricer.loops, Bool.false_eq_true,
      if_false] at h ⊢
    simp only [mul_one]
    omega
  · simp only [MonteCarloPricer.actual_sims, MonteCarloPricer.loops, if_true] at h ⊢
    push_cast
    have h2 : 0 ≤ Int.tdiv self.num_sims_ 2 := by omega
    rw [Int.toNat_of_nonneg h2]

/-! ## The variance floor and the signs of the finite-difference Greeks -/

/-- C21: the variance floor of `MonteCarloPricer::price` is unreachable in exact
arithmetic. For every `actualPaths > 0` and every list of `actualPaths` real
payoffs, the value `sumSquaredPayoffs/actualPaths - mean^2` computed from the sums
of that list is `>= 0`, so the floored variance equals it. In the code, whenever
`actual_sims > 0` (with or without antithetic sampling, for every generator and
every assignment of iterations to threads) the two sums after the parallel region
are the sums of a list of exactly `actual_sims` payoffs, hence the unfloored
variance is `>= 0`, the branch `if (variance < 0) variance = 0.0` leaves it
unchanged, and the returned standard error is computed from the unfloored value. -/
theorem MonteCarloPricer.variance_floor_unreachable (normal : Nat → Nat → ℝ) (team : OmpTeam)
    (self : MonteCarloPricer) (option : Option ℝ) (spot rate volatility : ℝ)
    (use_antithetic : Bool) (h : 0 < self.actual_sims use_antithetic) :
    (∀ (payoffs : List ℝ) (actualPaths : Int), 0 < actualPaths →
      actualPaths = (payoffs.length : Int) →
        0 ≤ MonteCarloPricer.rawVariance (MonteCarloPricer.sumsOf payoffs) actualPaths ∧
        MonteCarloPricer.variance (MonteCarloPricer.sumsOf payoffs) actualPaths =
          MonteCarloPricer.rawVariance (MonteCarloPricer.sumsOf payoffs) actualPaths) ∧
    MonteCarloPricer.parallelRegion Real.exp normal team self.seed_ (self.loops use_antithetic)
        option spot ((rate - 0.5 * volatility * volatility) * option.getMaturity)
        (volatility * Real.sqrt option.getMaturity) use_antithetic ⟨0, 0⟩ =
      MonteCarloPricer.sumsOf
        (self.payoffs Real.exp normal team option spot
          ((rate - 0.5 * volatility * volatility) * option.getMaturity)
          (volatility * Real.sqrt option.getMaturity) use_antithetic) ∧
    self.actual_sims use_antithetic =
      ((self.payoffs Real.exp normal team option spot
          ((rate - 0.5 * volatility * volatility) * option.getMaturity)
          (volatility * Real.sqrt option.getMaturity) use_antithetic).length : Int) ∧
    0 ≤ MonteCarloPricer.rawVariance
        (MonteCarloPricer.parallelRegion Real.exp normal team self.seed_
          (self.loops use_antithetic) option spot
          ((rate - 0.5 * volatility * volatility) * option.getMaturity)
          (volatility * Real.sqrt option.getMaturity) use_antithetic ⟨0, 0⟩)
        (self.actual_sims use_antithetic) ∧
    MonteCarloPricer.variance
        (MonteCarloPricer.parallelRegion Real.exp normal team self.seed_
          (self.loops use_antithetic) option spot
          ((rate - 0.5 * volatility * volatility) * option.getMaturity)
          (volatility * Real.sqrt option.getMaturity) use_antithetic ⟨0, 0⟩)
        (self.actual_sims use_antithetic) =
      MonteCarloPricer.rawVariance
        (MonteCarloPricer.parallelRegion Real.exp normal team self.seed_
          (self.loops use_antithetic) option spot
          ((rate - 0.5 * volatility * volatility) * option.getMaturity)
          (volatility * Real.sqrt option.getMaturity) use_antithetic ⟨0, 0⟩)
        (self.actual_sims use_antithetic) ∧
    (self.price Real.exp Real.sqrt normal team option spot rate volatility use_antithetic).2 =
      Real.sqrt (MonteCarloPricer.rawVariance
          (MonteCarloPricer.parallelRegion Real.exp normal team self.seed_
            (self.loops use_antithetic) option spot
            ((rate - 0.5 * volatility * volatility) * option.getMaturity)
            (volatility * Real.sqrt option.getMaturity) use_antithetic ⟨0, 0⟩)
          (self.actual_sims use_antithetic)) /
        Real.sqrt ((self.actual_sims use_antithetic : Int) : ℝ) *
          Real.exp (-rate * option.getMaturity) := by
  have hlist : ∀ (payoffs : List ℝ) (actualPaths : Int), 0 < actualPaths →
      actualPaths = (payoffs.length : Int) →
        0 ≤ MonteCarloPricer.rawVariance (MonteCarloPricer.sumsOf payoffs) actualPaths ∧
        MonteCarloPricer.variance (MonteCarloPricer.sumsOf payoffs) actualPaths =
          MonteCarloPricer.rawVariance (MonteCarloPricer.sumsOf payoffs) actualPaths := by
    intro payoffs actualPaths hpos hlen
    have h0 := MonteCarloPricer.rawVariance_sumsOf_nonneg payoffs actualPaths hlen hpos
    exact ⟨h0, MonteCarloPricer.variance_eq_rawVariance _ _ h0⟩
  have hsums := MonteCarloPricer.parallelRegion_eq_sumsOf Real.exp normal team self option spot
    ((rate - 0.5 * volatility * volatility) * option.getMaturity)
    (volatility * Real.sqrt option.getMaturity) use_antithetic
  have hlen := MonteCarloPricer.length_payoffs_actual Real.exp normal team self option spot
    ((rate - 0.5 * volatility * volatility) * option.getMaturity)
    (volatility * Real.sqrt option.getMaturity) use_antithetic h
  have hrun := hlist _ _ h hlen
  rw [← hsums] at hrun
  refine ⟨hlist, hsums, hlen, hrun.1, hrun.2, ?_⟩
  simp only [MonteCarloPricer.price, MonteCarloPricer.estimate]
  rw [hrun.2]

/-- Witness for C21: four antithetic paths of an at-the-money call on one thread. -/
theorem MonteCarloPricer.variance_floor_unreachable_witness :
    (0 : Int) < (MonteCarloPricer.new 4 42).actual_sims true ∧
    0 ≤ MonteCarloPricer.rawVariance
        (MonteCarloPricer.parallelRegion Real.exp (fun _ k => (k : ℝ)) OmpTeam.serial
          (MonteCarloPricer.new 4 42).seed_ ((MonteCarloPricer.new 4 42).loops true)
          (EuropeanOption 100 1 OptionType.CALL) 100
          ((0.05 - 0.5 * 0.2 * 0.2) * (EuropeanOption (100 : ℝ) 1 OptionType.CALL).getMaturity)
          (0.2 * Real.sqrt (EuropeanOption (100 : ℝ) 1 OptionType.CALL).getMaturity) true
          ⟨0, 0⟩)
        ((MonteCarloPricer.new 4 42).actual_sims true) :=
  ⟨by decide,
    (MonteCarloPricer.variance_floor_unreachable (fun _ k => (k : ℝ)) OmpTeam.serial
      (MonteCarloPricer.new 4 42) (EuropeanOption 100 1 OptionType.CALL) 100 0.05 0.2 true
      (by decide)).2.2.2.1⟩

/-! ## Auxiliary lemmas: monotone and convex payoffs under common random numbers -/

/-- The payoff of a European call does not decrease with the terminal price. -/
theorem EuropeanOption.payoff_call_mono (strike maturity x y : ℝ) (h : x ≤ y) :
    (EuropeanOption strike maturity OptionType.CALL).payoff x ≤
      (EuropeanOption strike maturity OptionType.CALL).payoff y := by
  simp only [EuropeanOption, EuropeanOption.payoff, if_true]
  exact max_le_max (by linarith) le_rfl

/-- The payoff of a European put does not increase with the terminal price. -/
theorem EuropeanOption.payoff_put_anti (strike maturity x y : ℝ) (h : x ≤ y) :
    (EuropeanOption strike maturity OptionType.PUT).payoff y ≤
      (EuropeanOption strike maturity OptionType.PUT).payoff x := by
  have hne : ¬ (OptionType.PUT = OptionType.CALL) := by decide
  simp only [EuropeanOption, EuropeanOption.payoff, hne, if_false]
  exact max_le_max (by linarith) le_rfl

/-- Midpoint convexity of the positive part. -/
theorem max_zero_midpoint (a b m : ℝ) (h : a + b = 2 * m) :
    2 * max m 0 ≤ max a 0 + max b 0 := by
  have ha := le_max_left a 0
  have ha0 := le_max_right a 0
  have hb := le_max_left b 0
  have hb0 := le_max_right b 0
  rcases le_total m 0 with hm | hm
  · rw [max_eq_right hm]
    linarith
  · rw [max_eq_left hm]
    linarith

/-- The payoff of a European call or put is midpoint-convex in the terminal
price. -/
theorem EuropeanOption.payoff_convex (strike maturity : ℝ) (type : OptionType) (x y m : ℝ)
    (h : x + y = 2 * m) :
    2 * (EuropeanOption strike maturity type).payoff m ≤
      (EuropeanOption strike maturity type).payoff x +
        (EuropeanOption strike maturity type).payoff y := by
  cases type
  · simp only [EuropeanOption, EuropeanOption.payoff, if_true]
    exact max_zero_midpoint _ _ _ (by linarith)
  · have hne : ¬ (OptionType.PUT = OptionType.CALL) := by decide
    simp only [EuropeanOption, EuropeanOption.payoff, hne, if_false]
    exact max_zero_midpoint _ _ _ (by linarith)

/-- The price returned under antithetic sampling, as a sum over the loop
iterations. -/
theorem MonteCarloPricer.gbm_price_antithetic {α : Type} [LinearOrderedField α]
    (exp sqrt : α → α) (normal : Nat → Nat → α) (team : OmpTeam) (self : MonteCarloPricer)
    (option : Option α) (spot rate volatility : α) :
    (self.price exp sqrt normal team option spot rate volatility true).1 =
      (∑ i in range (self.loops true).toNat,
          (option.payoff (spot * exp ((rate - 0.5 * volatility * volatility) *
                option.getMaturity + volatility * sqrt option.getMaturity *
                  self.draw normal team i)) +
            option.payoff (spot * exp ((rate - 0.5 * volatility * volatility) *
                option.getMaturity + volatility * sqrt option.getMaturity *
                  (-self.draw normal team i))))) /
          ((self.actual_sims true : Int) : α) * exp (-rate * option.getMaturity) := by
  simp only [MonteCarloPricer.price, MonteCarloPricer.estimate,
    MonteCarloPricer.gbm_parallelRegion_eq, MonteCarloPricer.contribution, if_true, zero_add]

/-- With at least two paths the antithetic path count is positive. -/
theorem MonteCarloPricer.actual_sims_antithetic_pos (self : MonteCarloPricer)
    (hn : 2 ≤ self.num_sims_) : 0 < self.actual_sims true := by
  simp only [MonteCarloPricer.actual_sims, MonteCarloPricer.loops, if_true]
  have : Int.tdiv self.num_sims_ 2 = self.num_sims_ / 2 :=
    Int.tdiv_eq_ediv (by omega) (by decide)
  rw [this]
  omega

/-- Two antithetic runs on the same draws: when every path payoff of the first
run is at most the matching path payoff of the second, so are the prices. -/
theorem MonteCarloPricer.gbm_price_le (normal : Nat → Nat → ℝ) (team1 team2 : OmpTeam)
    (self : MonteCarloPricer) (option : Option ℝ) (spot1 spot2 rate volatility : ℝ)
    (hn : 2 ≤ self.num_sims_)
    (hshare : ∀ i, self.draw normal team1 i = self.draw normal team2 i)
    (hpath : ∀ e : ℝ, 0 < e → option.payoff (spot1 * e) ≤ option.payoff (spot2 * e)) :
    (self.price Real.exp Real.sqrt normal team1 option spot1 rate volatility true).1 ≤
      (self.price Real.exp Real.sqrt normal team2 option spot2 rate volatility true).1 := by
  have hpos : (0 : ℝ) < ((self.actual_sims true : Int) : ℝ) := by
    exact_mod_cast MonteCarloPricer.actual_sims_antithetic_pos self hn
  rw [MonteCarloPricer.gbm_price_antithetic, MonteCarloPricer.gbm_price_antithetic]
  apply mul_le_mul_of_nonneg_right _ (Real.exp_pos _).le
  apply div_le_div_of_nonneg_right _ hpos.le
  apply Finset.sum_le_sum
  intro i _
  rw [hshare i]
  exact add_le_add (hpath _ (Real.exp_pos _)) (hpath _ (Real.exp_pos _))

/-- Three antithetic runs on the same draws, at `spot + epsilon`, `spot` and
`spot - epsilon`: when the payoff is midpoint-convex, twice the middle price is at
most the sum of the outer two. -/
theorem MonteCarloPricer.gbm_price_midpoint (normal : Nat → Nat → ℝ)
    (team_up team_base team_down : OmpTeam)
    (self : MonteCarloPricer) (option : Option ℝ) (spot epsilon rate volatility : ℝ)
    (hn : 2 ≤ self.num_sims_)
    (hup : ∀ i, self.draw normal team_up i = self.draw normal team_base i)
    (hdown : ∀ i, self.draw normal team_down i = self.draw normal team_base i)
    (hconv : ∀ x y m : ℝ, x + y = 2 * m →
      2 * option.payoff m ≤ option.payoff x + option.payoff y) :
    2 * (self.price Real.exp Real.sqrt normal team_base option spot rate volatility true).1 ≤
      (self.price Real.exp Real.sqrt normal team_up option (spot + epsilon) rate volatility
          true).1 +
        (self.price Real.exp Real.sqrt normal team_down option (spot - epsilon) rate volatility
          true).1 := by
  have hpos : (0 : ℝ) < ((self.actual_sims true : Int) : ℝ) := by
    exact_mod_cast MonteCarloPricer.actual_sims_antithetic_pos self hn
  rw [MonteCarloPricer.gbm_price_antithetic, MonteCarloPricer.gbm_price_antithetic,
    MonteCarloPricer.gbm_price_antithetic]
  rw [← add_mul, ← add_div, ← mul_assoc, ← mul_div_assoc]
  apply mul_le_mul_of_nonneg_right _ (Real.exp_pos _).le
  apply div_le_div_of_nonneg_right _ hpos.le
  rw [Finset.mul_sum, ← Finset.sum_add_distrib]
  apply Finset.sum_le_sum
  intro i _
  rw [hup i, hdown i]
  have h1 := hconv
    ((spot + epsilon) * Real.exp ((rate - 0.5 * volatility * volatility) * option.getMaturity +
      volatility * Real.sqrt option.getMaturity * self.draw normal team_base i))
    ((spot - epsilon) * Real.exp ((rate - 0.5 * volatility * volatility) * option.getMaturity +
      volatility * Real.sqrt option.getMaturity * self.draw normal team_base i))
    (spot * Real.exp ((rate - 0.5 * volatility * volatility) * option.getMaturity +
      volatility * Real.sqrt option.getMaturity * self.draw normal team_base i))
    (by ring)
  have h2 := hconv
    ((spot + epsilon) * Real.exp ((rate - 0.5 * volatility * volatility) * option.getMaturity +
      volatility * Real.sqrt option.getMaturity * (-self.draw normal team_base i)))
    ((spot - epsilon) * Real.exp ((rate - 0.5 * volatility * volatility) * option.getMaturity +
      volatility * Real.sqrt option.getMaturity * (-self.draw normal team_base i)))
    (spot * Real.exp ((rate - 0.5 * volatility * volatility) * option.getMaturity +
      volatility * Real.sqrt option.getMaturity * (-self.draw normal team_base i)))
    (by ring)
  linarith

/-- The two `price` calls of `MonteCarloGreeks::delta` act on a pricer holding
the engine's path count and base seed. -/
theorem MonteCarloGreeks.delta_calls {α : Type} [LinearOrderedField α] (exp sqrt : α → α)
    (normal : Nat → Nat → α) (team_up team_down : OmpTeam) (self : MonteCarloGreeks)
    (option : Option α) (spot rate vol epsilon : α) :
    (self.delta exp sqrt normal team_up team_down option spot rate vol epsilon).1 =
      (((MonteCarloPricer.new self.pricer_.num_sims_ self.seed_).price exp sqrt normal
            team_up option (spot + epsilon) rate vol true).1 -
          ((MonteCarloPricer.new self.pricer_.num_sims_ self.seed_).price exp sqrt
            normal team_down option (spot - epsilon) rate vol true).1) /
        (2.0 * epsilon) := rfl

/-- The three `price` calls of `MonteCarloGreeks::gamma` act on a pricer holding
the engine's path count and base seed. -/
theorem MonteCarloGreeks.gamma_calls {α : Type} [LinearOrderedField α] (exp sqrt : α → α)
    (normal : Nat → Nat → α) (team_up team_base team_down : OmpTeam) (self : MonteCarloGreeks)
    (option : Option α) (spot rate vol epsilon : α) :
    (self.gamma exp sqrt normal team_up team_base team_down option spot rate vol epsilon).1 =
      (((MonteCarloPricer.new self.pricer_.num_sims_ self.seed_).price exp sqrt normal
            team_up option (spot + epsilon) rate vol true).1 -
          2.0 * ((MonteCarloPricer.new self.pricer_.num_sims_ self.seed_).price exp sqrt
            normal team_base option spot rate vol true).1 +
          ((MonteCarloPricer.new self.pricer_.num_sims_ self.seed_).price exp sqrt
            normal team_down option (spot - epsilon) rate vol true).1) /
        (epsilon * epsilon) := rfl

/-- C22: sign of the finite-difference delta under common random numbers. For
every engine with `numPaths >= 2`, every strike and maturity, every spot, rate and
vol, every `epsilon > 0`, every generator and every pair of parallel teams under
which iteration `i` of the up run and iteration `i` of the down run consume the
same draw, `MonteCarloGreeks::delta` of a European call is `>= 0` and
`MonteCarloGreeks::delta` of a European put is `<= 0`. -/
theorem MonteCarloGreeks.delta_sign (normal : Nat → Nat → ℝ) (team_up team_down : OmpTeam)
    (self : MonteCarloGreeks) (strike maturity spot rate vol epsilon : ℝ)
    (heps : 0 < epsilon) (hn : 2 ≤ self.pricer_.num_sims_)
    (hshare : ∀ i,
      (MonteCarloPricer.new self.pricer_.num_sims_ self.seed_).draw normal team_up i =
        (MonteCarloPricer.new self.pricer_.num_sims_ self.seed_).draw normal team_down i) :
    0 ≤ (self.delta Real.exp Real.sqrt normal team_up team_down
        (EuropeanOption strike maturity OptionType.CALL) spot rate vol epsilon).1 ∧
    (self.delta Real.exp Real.sqrt normal team_up team_down
        (EuropeanOption strike maturity OptionType.PUT) spot rate vol epsilon).1 ≤ 0 := by
  have h2 : (0 : ℝ) < 2.0 * epsilon := by norm_num; exact heps
  have hn2 : 2 ≤ (MonteCarloPricer.new self.pricer_.num_sims_ self.seed_).num_sims_ := hn
  constructor
  · rw [MonteCarloGreeks.delta_calls]
    apply div_nonneg _ h2.le
    have h := MonteCarloPricer.gbm_price_le normal team_down team_up
      (MonteCarloPricer.new self.pricer_.num_sims_ self.seed_)
      (EuropeanOption strike maturity OptionType.CALL) (spot - epsilon) (spot + epsilon)
      rate vol hn2 (fun i => (hshare i).symm)
      (fun e he => EuropeanOption.payoff_call_mono strike maturity _ _ (by nlinarith))
    linarith
  · rw [MonteCarloGreeks.delta_calls]
    apply div_nonpos_of_nonpos_of_nonneg _ h2.le
    have h := MonteCarloPricer.gbm_price_le normal team_up team_down
      (MonteCarloPricer.new self.pricer_.num_sims_ self.seed_)
      (EuropeanOption strike maturity OptionType.PUT) (spot + epsilon) (spot - epsilon)
      rate vol hn2 hshare
      (fun e he => EuropeanOption.payoff_put_anti strike maturity _ _ (by nlinarith))
    linarith

/-- Witness for C22: two paths, a strike of 100, both runs on one thread. -/
theorem MonteCarloGreeks.delta_sign_witness :
    (0 : ℝ) < 0.01 ∧ (2 : Int) ≤ (MonteCarloGreeks.new 2 42).pricer_.num_sims_ ∧
    0 ≤ ((MonteCarloGreeks.new 2 42).delta Real.exp Real.sqrt (fun _ k => (k : ℝ))
        OmpTeam.serial OmpTeam.serial (EuropeanOption 100 1 OptionType.CALL) 100 0.05 0.2
        0.01).1 ∧
    ((MonteCarloGreeks.new 2 42).delta Real.exp Real.sqrt (fun _ k => (k : ℝ))
        OmpTeam.serial OmpTeam.serial (EuropeanOption 100 1 OptionType.PUT) 100 0.05 0.2
        0.01).1 ≤ 0 :=
  ⟨by norm_num, by decide,
    MonteCarloGreeks.delta_sign (fun _ k => (k : ℝ)) OmpTeam.serial OmpTeam.serial
      (MonteCarloGreeks.new 2 42) 100 1 100 0.05 0.2 0.01 (by norm_num) (by decide)
      (fun _ => rfl)⟩

/-! ## Auxiliary lemmas: rounded arithmetic -/

/-- With the identity as rounding the rounded payoff is the payoff. -/
theorem EuropeanOptionRounded_id (strike maturity : ℝ) (type : OptionType) :
    EuropeanOptionRounded id strike maturity type = EuropeanOption strike maturity type := rfl

/-- With the identity as rounding the rounded price is the price. -/
theorem MonteCarloPricer.priceRounded_id (exp sqrt : ℝ → ℝ) (normal : Nat → Nat → ℝ)
    (team : OmpTeam) (self : MonteCarloPricer) (option : Option ℝ) (spot rate volatility : ℝ)
    (use_antithetic : Bool) :
    self.priceRounded id exp sqrt normal team option spot rate volatility use_antithetic =
      self.price exp sqrt normal team option spot rate volatility use_antithetic := rfl

/-- With the identity as rounding the rounded gamma is gamma. -/
theorem MonteCarloGreeks.gammaRounded_id (exp sqrt : ℝ → ℝ) (normal : Nat → Nat → ℝ)
    (team_up team_base team_down : OmpTeam) (self : MonteCarloGreeks) (option : Option ℝ)
    (spot rate vol epsilon : ℝ) :
    self.gammaRounded id exp sqrt normal team_up team_base team_down option spot rate vol
        epsilon =
      self.gamma exp sqrt normal team_up team_base team_down option spot rate vol epsilon :=
  rfl

/-- Zero is a double. -/
theorem binary64_zero : binary64 (0 : ℝ) = 0 := by
  simp [binary64]

/-- A certificate for one rounding: when `2^e <= |x| < 2^(e+1)` and the integer `m`
is within less than a half of `x / 2^(e-52)`, the double nearest to `x` is
`m * 2^(e-52)`. -/
theorem binary64_eq (x : ℝ) (e m : Int) (h1 : (2 : ℝ) ^ e ≤ |x|)
    (h2 : |x| < (2 : ℝ) ^ (e + 1)) (h3 : |x / (2 : ℝ) ^ (e - 52) - (m : ℝ)| < 1 / 2) :
    binary64 x = (m : ℝ) * (2 : ℝ) ^ (e - 52) := by
  have hpos : 0 < |x| := lt_of_lt_of_le (zpow_pos (by norm_num) e) h1
  have hx : x ≠ 0 := abs_pos.mp hpos
  have hlog : Int.log 2 |x| = e := by
    apply le_antisymm
    · have := (Int.lt_zpow_iff_log_lt (b := 2) (by norm_num) (x := e + 1) hpos).mp
        (by simpa using h2)
      omega
    · exact (Int.zpow_le_iff_le_log (b := 2) (by norm_num) hpos).mp (by simpa using h1)
  unfold binary64
  rw [if_neg hx]
  simp only [hlog]
  rw [abs_lt] at h3
  congr 1
  rcases le_or_lt (m : ℝ) (x / (2 : ℝ) ^ (e - 52)) with hm | hm
  · have hf : ⌊x / (2 : ℝ) ^ (e - 52)⌋ = m := by
      rw [Int.floor_eq_iff]
      constructor
      · exact hm
      · linarith [h3.2]
    rw [hf, if_pos (by linarith [h3.2])]
  · have hf : ⌊x / (2 : ℝ) ^ (e - 52)⌋ = m - 1 := by
      rw [Int.floor_eq_iff]
      push_cast
      constructor
      · linarith [h3.1]
      · linarith
    rw [hf]
    push_cast
    rw [if_neg (by linarith [h3.1]), if_pos (by linarith [h3.1])]
    ring

/-- The certificate of `binary64_eq` for a positive number. -/
theorem binary64_eq_pos (x : ℝ) (e m : Int) (h1 : (2 : ℝ) ^ e ≤ x)
    (h2 : x < (2 : ℝ) ^ (e + 1)) (h3 : (m : ℝ) - 1 / 2 < x / (2 : ℝ) ^ (e - 52))
    (h4 : x / (2 : ℝ) ^ (e - 52) < (m : ℝ) + 1 / 2) :
    binary64 x = (m : ℝ) * (2 : ℝ) ^ (e - 52) := by
  have hpos : 0 < x := lt_of_lt_of_le (zpow_pos (by norm_num) e) h1
  apply binary64_eq x e m
  · rw [abs_of_pos hpos]; exact h1
  · rw [abs_of_pos hpos]; exact h2
  · rw [abs_lt]; constructor <;> linarith

/-- The certificate of `binary64_eq` for a negative number. -/
theorem binary64_eq_neg (x : ℝ) (e m : Int) (h1 : (2 : ℝ) ^ e ≤ -x)
    (h2 : -x < (2 : ℝ) ^ (e + 1)) (h3 : (m : ℝ) - 1 / 2 < x / (2 : ℝ) ^ (e - 52))
    (h4 : x / (2 : ℝ) ^ (e - 52) < (m : ℝ) + 1 / 2) :
    binary64 x = (m : ℝ) * (2 : ℝ) ^ (e - 52) := by
  have hpos : 0 < -x := lt_of_lt_of_le (zpow_pos (by norm_num) e) h1
  have hneg : x < 0 := by linarith
  apply binary64_eq x e m
  · rw [abs_of_neg hneg]; exact h1
  · rw [abs_of_neg hneg]; exact h2
  · rw [abs_lt]; constructor <;> linarith

/-- One is a double. -/
theorem binary64_one : binary64 (1 : ℝ) = 1 := by
  rw [binary64_eq_pos 1 0 4503599627370496 (by norm_num) (by norm_num) (by norm_num)
    (by norm_num)]
  norm_num

/-! ### Certified roundings of the gamma example -/

/-- The double nearest to `0.01`. -/
theorem binary64_epsilon : binary64 (0.01 : ℝ) = (5764607523034235 / 576460752303423488) := by
  rw [binary64_eq_pos _ (-7) 5764607523034235 (by norm_num) (by norm_num) (by norm_num)
    (by norm_num)]
  norm_num

/-- The bumped spot `128 + 0.01` in doubles. -/
theorem binary64_spot_up : binary64 (128 + (5764607523034235 / 576460752303423488) : ℝ) = (562993933886423 / 4398046511104) := by
  rw [binary64_eq_pos _ 7 4503951471091384 (by norm_num) (by norm_num) (by norm_num)
    (by norm_num)]
  norm_num

/-- The bumped spot `128 - 0.01` in doubles. -/
theorem binary64_spot_down : binary64 (128 - (5764607523034235 / 576460752303423488) : ℝ) = (9006495567299215 / 70368744177664) := by
  rw [binary64_eq_pos _ 6 9006495567299215 (by norm_num) (by norm_num) (by norm_num)
    (by norm_num)]
  norm_num

/-- Rounding leaves the upper spot unchanged. -/
theorem binary64_up_spot : binary64 ((562993933886423 / 4398046511104) : ℝ) = (562993933886423 / 4398046511104) := by
  rw [binary64_eq_pos _ 7 4503951471091384 (by norm_num) (by norm_num) (by norm_num)
    (by norm_num)]
  norm_num

/-- The call payoff at the upper spot. -/
theorem binary64_up_payoff : binary64 ((562993933886423 / 4398046511104) - 100 : ℝ) = (123189282776023 / 4398046511104) := by
  rw [binary64_eq_pos _ 4 7884114097665472 (by norm_num) (by norm_num) (by norm_num)
    (by norm_num)]
  norm_num

/-- Twice the payoff at the upper spot is a double. -/
theorem binary64_up_sum : binary64 ((123189282776023 / 4398046511104) + (123189282776023 / 4398046511104) : ℝ) = (123189282776023 / 4398046511104) + (123189282776023 / 4398046511104) := by
  rw [binary64_eq_pos _ 5 7884114097665472 (by norm_num) (by norm_num) (by norm_num)
    (by norm_num)]
  norm_num

/-- Half the sum at the upper spot is the payoff. -/
theorem binary64_up_mean : binary64 (((123189282776023 / 4398046511104) + (123189282776023 / 4398046511104)) / 2 : ℝ) = (123189282776023 / 4398046511104) := by
  rw [binary64_eq_pos _ 4 7884114097665472 (by norm_num) (by norm_num) (by norm_num)
    (by norm_num)]
  norm_num

/-- The payoff at the upper spot is a double. -/
theorem binary64_up_price : binary64 ((123189282776023 / 4398046511104) : ℝ) = (123189282776023 / 4398046511104) := by
  rw [binary64_eq_pos _ 4 7884114097665472 (by norm_num) (by norm_num) (by norm_num)
    (by norm_num)]
  norm_num

/-- Rounding leaves the spot `128` unchanged. -/
theorem binary64_base_spot : binary64 (128 : ℝ) = 128 := by
  rw [binary64_eq_pos _ 7 4503599627370496 (by norm_num) (by norm_num) (by norm_num)
    (by norm_num)]
  norm_num

/-- The call payoff at the spot `128`. -/
theorem binary64_base_payoff : binary64 (128 - 100 : ℝ) = 28 := by
  rw [binary64_eq_pos _ 4 7881299347898368 (by norm_num) (by norm_num) (by norm_num)
    (by norm_num)]
  norm_num

/-- Twice the payoff at the spot `128` is a double. -/
theorem binary64_base_sum : binary64 (28 + 28 : ℝ) = 28 + 28 := by
  rw [binary64_eq_pos _ 5 7881299347898368 (by norm_num) (by norm_num) (by norm_num)
    (by norm_num)]
  norm_num

/-- Half the sum at the spot `128` is the payoff. -/
theorem binary64_base_mean : binary64 ((28 + 28) / 2 : ℝ) = 28 := by
  rw [binary64_eq_pos _ 4 7881299347898368 (by norm_num) (by norm_num) (by norm_num)
    (by norm_num)]
  norm_num

/-- The payoff at the spot `128` is a double. -/
theorem binary64_base_price : binary64 (28 : ℝ) = 28 := by
  rw [binary64_eq_pos _ 4 7881299347898368 (by norm_num) (by norm_num) (by norm_num)
    (by norm_num)]
  norm_num

/-- Rounding leaves the lower spot unchanged. -/
theorem binary64_down_spot : binary64 ((9006495567299215 / 70368744177664) : ℝ) = (9006495567299215 / 70368744177664) := by
  rw [binary64_eq_pos _ 6 9006495567299215 (by norm_num) (by norm_num) (by norm_num)
    (by norm_num)]
  norm_num

/-- The call payoff at the lower spot. -/
theorem binary64_down_payoff : binary64 ((9006495567299215 / 70368744177664) - 100 : ℝ) = (1969621149532815 / 70368744177664) := by
  rw [binary64_eq_pos _ 4 7878484598131260 (by norm_num) (by norm_num) (by norm_num)
    (by norm_num)]
  norm_num

/-- Twice the payoff at the lower spot is a double. -/
theorem binary64_down_sum : binary64 ((1969621149532815 / 70368744177664) + (1969621149532815 / 70368744177664) : ℝ) = (1969621149532815 / 70368744177664) + (1969621149532815 / 70368744177664) := by
  rw [binary64_eq_pos _ 5 7878484598131260 (by norm_num) (by norm_num) (by norm_num)
    (by norm_num)]
  norm_num

/-- Half the sum at the lower spot is the payoff. -/
theorem binary64_down_mean : binary64 (((1969621149532815 / 70368744177664) + (1969621149532815 / 70368744177664)) / 2 : ℝ) = (1969621149532815 / 70368744177664) := by
  rw [binary64_eq_pos _ 4 7878484598131260 (by norm_num) (by norm_num) (by norm_num)
    (by norm_num)]
  norm_num

/-- The payoff at the lower spot is a double. -/
theorem binary64_down_price : binary64 ((1969621149532815 / 70368744177664) : ℝ) = (1969621149532815 / 70368744177664) := by
  rw [binary64_eq_pos _ 4 7878484598131260 (by norm_num) (by norm_num) (by norm_num)
    (by norm_num)]
  norm_num

/-- Twice the base price. -/
theorem binary64_gamma_twice : binary64 (2.0 * 28 : ℝ) = 56 := by
  rw [binary64_eq_pos _ 5 7881299347898368 (by norm_num) (by norm_num) (by norm_num)
    (by norm_num)]
  norm_num

/-- The upper price minus twice the base price. -/
theorem binary64_gamma_first : binary64 ((123189282776023 / 4398046511104) - 56 : ℝ) = (-(123101321845801 / 4398046511104)) := by
  rw [binary64_eq_neg _ 4 (-7878484598131264) (by norm_num) (by norm_num) (by norm_num)
    (by norm_num)]
  norm_num

/-- The second difference of the three prices. -/
theorem binary64_gamma_second : binary64 ((-(123101321845801 / 4398046511104)) + (1969621149532815 / 70368744177664) : ℝ) = (-(1 / 70368744177664)) := by
  rw [binary64_eq_neg _ (-46) (-4503599627370496) (by norm_num) (by norm_num) (by norm_num)
    (by norm_num)]
  norm_num

/-- The square of the bump in doubles. -/
theorem binary64_gamma_square : binary64 ((5764607523034235 / 576460752303423488) * (5764607523034235 / 576460752303423488) : ℝ) = (7378697629483821 / 73786976294838206464) := by
  rw [binary64_eq_pos _ (-14) 7378697629483821 (by norm_num) (by norm_num) (by norm_num)
    (by norm_num)]
  norm_num

/-- The second difference divided by the squared bump. -/
theorem binary64_gamma_quotient : binary64 ((-(1 / 70368744177664)) / (7378697629483821 / 73786976294838206464) : ℝ) = (-(625 / 4398046511104)) := by
  rw [binary64_eq_neg _ (-33) (-5497558138880000) (by norm_num) (by norm_num) (by norm_num)
    (by norm_num)]
  norm_num

/-- The rounded antithetic price of a call struck at 100 with two paths, rate 0,
volatility 0 and maturity 1 on one thread, for every generator: the terminal price
of both paths is the spot and the price is the payoff, provided the values that
occur are left unchanged by the rounding. -/
theorem MonteCarloPricer.priceRounded_flat (fl exp sqrt : ℝ → ℝ) (normal : Nat → Nat → ℝ)
    (hfl : fl 0 = 0) (hexp : exp 0 = 1) (hsqrt : sqrt 1 = 1) (s p : ℝ) (hs : fl s = s)
    (hp : max (fl (s - 100)) 0 = p) (hsum : fl (p + p) = p + p)
    (hmean : fl ((p + p) / 2) = p) (hprice : fl p = p) :
    ((MonteCarloPricer.new 2 42).priceRounded fl exp sqrt normal OmpTeam.serial
      (EuropeanOptionRounded fl 100 1 OptionType.CALL) s 0 0 true).1 = p := by
  have hl : (MonteCarloPricer.new 2 42).loops true = 1 := by decide
  have ha : (MonteCarloPricer.new 2 42).actual_sims true = 2 := by decide
  have hassigned : OmpTeam.serial.assigned 1 0 = [0] := by decide
  have hthreads : OmpTeam.serial.num_threads = 1 := rfl
  have hrange : List.range 1 = [0] := rfl
  simp only [MonteCarloPricer.priceRounded, MonteCarloPricer.estimateRounded,
    MonteCarloPricer.parallelRegionRounded, MonteCarloPricer.threadRunRounded, hl, ha,
    hthreads, hrange, List.foldl_cons, List.foldl_nil, Int.toNat_one, hassigned,
    MonteCarloPricer.loopBodyRounded, RandomGenerator.getNormal, EuropeanOptionRounded,
    Option.getMaturity, EuropeanOption.payoffRounded, if_true]
  simp only [mul_zero, zero_mul, hfl, sub_zero, zero_add, add_zero, neg_zero, hexp, hsqrt,
    mul_one]
  rw [hs, hp, hsum, hsum, hsum]
  have h2 : (((2 : Int) : ℝ)) = 2 := by norm_num
  rw [h2, hmean, hprice]

/-- Counterexample to C23 as stated, in double arithmetic: an engine with 2
paths, a European call struck at 100 with maturity 1, spot 128, rate 0,
volatility 0 and the default `epsilon = 0.01`, the three runs on one thread
sharing their draws. Every path ends at its initial spot, so the three prices are
the payoffs at `128 + 0.01`, `128` and `128 - 0.01` as rounded to doubles, and
`MonteCarloGreeks::gamma` returns `-625/2^42` (about `-1.42e-10`), which is
negative. -/
theorem MonteCarloGreeks.gamma_rounding_counterexample :
    (0.01 : ℝ) ≠ 0 ∧ (2 : Int) ≤ (MonteCarloGreeks.new 2 42).pricer_.num_sims_ ∧
    ((MonteCarloGreeks.new 2 42).gammaRounded binary64 (fun x => binary64 (Real.exp x))
      (fun x => binary64 (Real.sqrt x)) (fun _ k => (k : ℝ)) OmpTeam.serial OmpTeam.serial
      OmpTeam.serial (EuropeanOptionRounded binary64 100 1 OptionType.CALL) 128 0 0).1 =
      -(625 / 4398046511104) ∧
    ¬ (0 ≤ ((MonteCarloGreeks.new 2 42).gammaRounded binary64
      (fun x => binary64 (Real.exp x)) (fun x => binary64 (Real.sqrt x))
      (fun _ k => (k : ℝ)) OmpTeam.serial OmpTeam.serial OmpTeam.serial
      (EuropeanOptionRounded binary64 100 1 OptionType.CALL) 128 0 0).1) := by
  have hpricer : (MonteCarloGreeks.new 2 42).pricer_.setSeed (MonteCarloGreeks.new 2 42).seed_ =
      MonteCarloPricer.new 2 42 := by decide
  have hpricer2 : (MonteCarloPricer.new 2 42).setSeed (MonteCarloGreeks.new 2 42).seed_ =
      MonteCarloPricer.new 2 42 := by decide
  have hexp : (fun x => binary64 (Real.exp x)) 0 = 1 := by
    show binary64 (Real.exp 0) = 1
    rw [Real.exp_zero, binary64_one]
  have hsqrt : (fun x => binary64 (Real.sqrt x)) 1 = 1 := by
    show binary64 (Real.sqrt 1) = 1
    rw [Real.sqrt_one, binary64_one]
  have hup := MonteCarloPricer.priceRounded_flat binary64 (fun x => binary64 (Real.exp x))
    (fun x => binary64 (Real.sqrt x)) (fun _ k => (k : ℝ))
    binary64_zero hexp hsqrt (562993933886423 / 4398046511104)
    (123189282776023 / 4398046511104) binary64_up_spot
    (by rw [binary64_up_payoff]; exact max_eq_left (by norm_num))
    binary64_up_sum binary64_up_mean binary64_up_price
  have hbase := MonteCarloPricer.priceRounded_flat binary64 (fun x => binary64 (Real.exp x))
    (fun x => binary64 (Real.sqrt x)) (fun _ k => (k : ℝ))
    binary64_zero hexp hsqrt 128 28 binary64_base_spot
    (by rw [binary64_base_payoff]; exact max_eq_left (by norm_num))
    binary64_base_sum binary64_base_mean binary64_base_price
  have hdown := MonteCarloPricer.priceRounded_flat binary64 (fun x => binary64 (Real.exp x))
    (fun x => binary64 (Real.sqrt x)) (fun _ k => (k : ℝ))
    binary64_zero hexp hsqrt (9006495567299215 / 70368744177664)
    (1969621149532815 / 70368744177664) binary64_down_spot
    (by rw [binary64_down_payoff]; exact max_eq_left (by norm_num))
    binary64_down_sum binary64_down_mean binary64_down_price
  have hval : ((MonteCarloGreeks.new 2 42).gammaRounded binary64
      (fun x => binary64 (Real.exp x)) (fun x => binary64 (Real.sqrt x))
      (fun _ k => (k : ℝ)) OmpTeam.serial OmpTeam.serial OmpTeam.serial
      (EuropeanOptionRounded binary64 100 1 OptionType.CALL) 128 0 0).1 =
      -(625 / 4398046511104) := by
    simp only [MonteCarloGreeks.gammaRounded, hpricer, hpricer2]
    rw [binary64_epsilon, binary64_spot_up, binary64_spot_down, hup, hbase, hdown,
      binary64_gamma_twice, binary64_gamma_first, binary64_gamma_second,
      binary64_gamma_square, binary64_gamma_quotient]
  refine ⟨by norm_num, by decide, hval, ?_⟩
  rw [hval]
  norm_num

/-- C23 (amended): non-negative finite-difference gamma under common random
numbers in exact arithmetic. For every engine with `numPaths >= 2`, every European
call or put, every spot, rate and vol, every `epsilon != 0`, every generator and
every triple of parallel teams under which iteration `i` of the up, base and down
runs consume the same draw, `MonteCarloGreeks::gamma` evaluated without rounding
(the rounded method with the identity as rounding, which is the method over the
real numbers) is `>= 0`; the reason is that the payoff of every path is a convex
function of the initial spot: with `e` the growth factor of the path,
`2 * payoff(spot * e) <= payoff((spot + epsilon) * e) + payoff((spot - epsilon) * e)`. -/
theorem MonteCarloGreeks.gamma_nonneg (normal : Nat → Nat → ℝ)
    (team_up team_base team_down : OmpTeam)
    (self : MonteCarloGreeks) (strike maturity : ℝ) (type : OptionType)
    (spot rate vol epsilon : ℝ)
    (heps : epsilon ≠ 0) (hn : 2 ≤ self.pricer_.num_sims_)
    (hup : ∀ i,
      (MonteCarloPricer.new self.pricer_.num_sims_ self.seed_).draw normal team_up i =
        (MonteCarloPricer.new self.pricer_.num_sims_ self.seed_).draw normal team_base i)
    (hdown : ∀ i,
      (MonteCarloPricer.new self.pricer_.num_sims_ self.seed_).draw normal team_down i =
        (MonteCarloPricer.new self.pricer_.num_sims_ self.seed_).draw normal team_base i) :
    0 ≤ (self.gammaRounded id Real.exp Real.sqrt normal team_up team_base team_down
        (EuropeanOptionRounded id strike maturity type) spot rate vol epsilon).1 ∧
    self.gammaRounded id Real.exp Real.sqrt normal team_up team_base team_down
        (EuropeanOptionRounded id strike maturity type) spot rate vol epsilon =
      self.gamma Real.exp Real.sqrt normal team_up team_base team_down
        (EuropeanOption strike maturity type) spot rate vol epsilon ∧
    0 ≤ (self.gamma Real.exp Real.sqrt normal team_up team_base team_down
        (EuropeanOption strike maturity type) spot rate vol epsilon).1 ∧
    ∀ e : ℝ,
      2 * (EuropeanOption strike maturity type).payoff (spot * e) ≤
        (EuropeanOption strike maturity type).payoff ((spot + epsilon) * e) +
          (EuropeanOption strike maturity type).payoff ((spot - epsilon) * e) := by
  have hn2 : 2 ≤ (MonteCarloPricer.new self.pricer_.num_sims_ self.seed_).num_sims_ := hn
  have hg : 0 ≤ (self.gamma Real.exp Real.sqrt normal team_up team_base team_down
      (EuropeanOption strike maturity type) spot rate vol epsilon).1 := by
    rw [MonteCarloGreeks.gamma_calls]
    apply div_nonneg _ (mul_self_nonneg epsilon)
    have _ := heps
    have h := MonteCarloPricer.gbm_price_midpoint normal team_up team_base team_down
      (MonteCarloPricer.new self.pricer_.num_sims_ self.seed_)
      (EuropeanOption strike maturity type) spot epsilon rate vol hn2 hup hdown
      (fun x y m hxy => EuropeanOption.payoff_convex strike maturity type x y m hxy)
    norm_num
    linarith
  have hid := MonteCarloGreeks.gammaRounded_id Real.exp Real.sqrt normal team_up team_base
    team_down self (EuropeanOption strike maturity type) spot rate vol epsilon
  rw [← EuropeanOptionRounded_id] at hid
  refine ⟨?_, ?_, hg, ?_⟩
  · rw [hid]
    exact hg
  · rw [hid, EuropeanOptionRounded_id]
  · intro e
    exact EuropeanOption.payoff_convex strike maturity type _ _ _ (by ring)

/-- Witness for C23 (amended): two paths, a call struck at 100, spot 101, rate 0,
volatility 0, `epsilon = 2`, the three runs on one thread; the three exact prices
are `3`, `1` and `0`, and gamma is `(3 - 2*1 + 0)/4 = 1/4`. -/
theorem MonteCarloGreeks.gamma_nonneg_witness :
    (2 : ℝ) ≠ 0 ∧ (2 : Int) ≤ (MonteCarloGreeks.new 2 42).pricer_.num_sims_ ∧
    0 ≤ ((MonteCarloGreeks.new 2 42).gamma Real.exp Real.sqrt (fun _ k => (k : ℝ))
        OmpTeam.serial OmpTeam.serial OmpTeam.serial (EuropeanOption 100 1 OptionType.CALL)
        101 0 0 2).1 ∧
    ((MonteCarloGreeks.new 2 42).gammaRounded id Real.exp Real.sqrt (fun _ k => (k : ℝ))
        OmpTeam.serial OmpTeam.serial OmpTeam.serial
        (EuropeanOptionRounded id 100 1 OptionType.CALL) 101 0 0 2).1 = 1 / 4 := by
  have hpricer : (MonteCarloGreeks.new 2 42).pricer_.setSeed (MonteCarloGreeks.new 2 42).seed_ =
      MonteCarloPricer.new 2 42 := by decide
  have hpricer2 : (MonteCarloPricer.new 2 42).setSeed (MonteCarloGreeks.new 2 42).seed_ =
      MonteCarloPricer.new 2 42 := by decide
  have hup := MonteCarloPricer.priceRounded_flat id Real.exp Real.sqrt (fun _ k => (k : ℝ))
    rfl Real.exp_zero Real.sqrt_one 103 3 rfl (by norm_num) rfl (by norm_num) rfl
  have hbase := MonteCarloPricer.priceRounded_flat id Real.exp Real.sqrt (fun _ k => (k : ℝ))
    rfl Real.exp_zero Real.sqrt_one 101 1 rfl (by norm_num) rfl (by norm_num) rfl
  have hdown := MonteCarloPricer.priceRounded_flat id Real.exp Real.sqrt (fun _ k => (k : ℝ))
    rfl Real.exp_zero Real.sqrt_one 99 0 rfl (by norm_num) rfl (by norm_num) rfl
  have h103 : id ((101 : ℝ) + 2) = 103 := by norm_num
  have h99 : id ((101 : ℝ) - 2) = 99 := by norm_num
  refine ⟨by norm_num, by decide,
    (MonteCarloGreeks.gamma_nonneg (fun _ k => (k : ℝ)) OmpTeam.serial OmpTeam.serial
      OmpTeam.serial (MonteCarloGreeks.new 2 42) 100 1 OptionType.CALL 101 0 0 2
      (by norm_num) (by decide) (fun _ => rfl) (fun _ => rfl)).2.2.1, ?_⟩
  simp only [MonteCarloGreeks.gammaRounded, hpricer, hpricer2]
  rw [h103, h99, hup, hbase, hdown]
  norm_num

/-! ## Auxiliary lemmas: symmetry of the approximate distribution function -/

/-- At zero `normalCDF` takes the branch `sign = 1` and returns
`0.5 * (1 + (1 - (a1 + a2 + a3 + a4 + a5)))`, where the five coefficients add up
to `0.999999999`. -/
theorem normalCDF_zero : normalCDF Real.exp Real.sqrt 0 = 0.5000000005 := by
  unfold normalCDF
  simp only [lt_irrefl, if_false, abs_zero, zero_div, mul_zero, add_zero, neg_zero,
    Real.exp_zero]
  norm_num

/-- Away from zero `normalCDF(x) + normalCDF(-x) = 1`. -/
theorem normalCDF_add_neg (x : ℝ) (hx : x ≠ 0) :
    normalCDF Real.exp Real.sqrt x + normalCDF Real.exp Real.sqrt (-x) = 1 := by
  rcases lt_or_gt_of_ne hx with h | h
  · rw [normalCDF_of_neg x h]
    ring
  · have h2 := normalCDF_of_neg (-x) (by linarith)
    rw [neg_neg] at h2
    rw [h2]
    ring

/-- The call price minus the put price of `BlackScholes::price`, for the same
parameters, in terms of the two sums `normalCDF(d) + normalCDF(-d)`. -/
theorem BlackScholes.call_sub_put (spot strike rate volatility maturity : ℝ) :
    (⟨spot, strike, rate, volatility, maturity, OptionType.CALL⟩ : BlackScholes ℝ).price
        Real.exp Real.sqrt Real.log -
      (⟨spot, strike, rate, volatility, maturity, OptionType.PUT⟩ : BlackScholes ℝ).price
        Real.exp Real.sqrt Real.log =
      spot * (normalCDF Real.exp Real.sqrt
            ((⟨spot, strike, rate, volatility, maturity, OptionType.CALL⟩ :
              BlackScholes ℝ).calculateD1 Real.sqrt Real.log) +
          normalCDF Real.exp Real.sqrt
            (-(⟨spot, strike, rate, volatility, maturity, OptionType.CALL⟩ :
              BlackScholes ℝ).calculateD1 Real.sqrt Real.log)) -
        strike * Real.exp (-rate * maturity) *
          (normalCDF Real.exp Real.sqrt
              ((⟨spot, strike, rate, volatility, maturity, OptionType.CALL⟩ :
                BlackScholes ℝ).calculateD2 Real.sqrt Real.log) +
            normalCDF Real.exp Real.sqrt
              (-(⟨spot, strike, rate, volatility, maturity, OptionType.CALL⟩ :
                BlackScholes ℝ).calculateD2 Real.sqrt Real.log)) := by
  have hne : ¬ (OptionType.PUT = OptionType.CALL) := by decide
  simp only [BlackScholes.price, BlackScholes.calculateD2, BlackScholes.calculateD1, hne,
    if_true, if_false]
  ring

/-! ## Put-call parity of the analytic pricer -/

/-- Counterexample to C24 as stated: for spot 100, strike 100, rate 0.125,
volatility 0.5 and maturity 1 (all positive) `calculateD1` is `0.5` and
`calculateD2` is `0`. `normalCDF(0)` is `0.5000000005`, so
`normalCDF(0) + normalCDF(-0) = 1.000000001`, not `1`, and the call price minus
the put price is `100 - 100*exp(-0.125*1)*1.000000001`, which differs from
`spot - strike*exp(-rate*maturity)`. -/
theorem BlackScholes.put_call_parity_counterexample :
    (⟨100, 100, 0.125, 0.5, 1, OptionType.CALL⟩ : BlackScholes ℝ).calculateD1
        Real.sqrt Real.log = 0.5 ∧
    (⟨100, 100, 0.125, 0.5, 1, OptionType.CALL⟩ : BlackScholes ℝ).calculateD2
        Real.sqrt Real.log = 0 ∧
    normalCDF Real.exp Real.sqrt 0 + normalCDF Real.exp Real.sqrt (-0) = 1.000000001 ∧
    (⟨100, 100, 0.125, 0.5, 1, OptionType.CALL⟩ : BlackScholes ℝ).price
          Real.exp Real.sqrt Real.log -
        (⟨100, 100, 0.125, 0.5, 1, OptionType.PUT⟩ : BlackScholes ℝ).price
          Real.exp Real.sqrt Real.log =
      100 - 100 * Real.exp (-0.125 * 1) * 1.000000001 ∧
    ¬ ((0 : ℝ) < 100 → (0 : ℝ) < 0.5 → (0 : ℝ) < 1 →
      (⟨100, 100, 0.125, 0.5, 1, OptionType.CALL⟩ : BlackScholes ℝ).price
            Real.exp Real.sqrt Real.log -
          (⟨100, 100, 0.125, 0.5, 1, OptionType.PUT⟩ : BlackScholes ℝ).price
            Real.exp Real.sqrt Real.log =
        100 - 100 * Real.exp (-0.125 * 1)) := by
  have hd1 : (⟨100, 100, 0.125, 0.5, 1, OptionType.CALL⟩ : BlackScholes ℝ).calculateD1
      Real.sqrt Real.log = 0.5 := by
    simp only [BlackScholes.calculateD1]
    norm_num
  have hd2 : (⟨100, 100, 0.125, 0.5, 1, OptionType.CALL⟩ : BlackScholes ℝ).calculateD2
      Real.sqrt Real.log = 0 := by
    simp only [BlackScholes.calculateD2, hd1]
    norm_num
  have h0 : normalCDF Real.exp Real.sqrt 0 + normalCDF Real.exp Real.sqrt (-0) =
      1.000000001 := by
    rw [neg_zero, normalCDF_zero]
    norm_num
  have hpar : (⟨100, 100, 0.125, 0.5, 1, OptionType.CALL⟩ : BlackScholes ℝ).price
        Real.exp Real.sqrt Real.log -
      (⟨100, 100, 0.125, 0.5, 1, OptionType.PUT⟩ : BlackScholes ℝ).price
        Real.exp Real.sqrt Real.log =
      100 - 100 * Real.exp (-0.125 * 1) * 1.000000001 := by
    rw [BlackScholes.call_sub_put, hd1, hd2, h0, normalCDF_add_neg 0.5 (by norm_num)]
    ring
  refine ⟨hd1, hd2, h0, hpar, ?_⟩
  intro h
  have h1 := h (by norm_num) (by norm_num) (by norm_num)
  rw [hpar] at h1
  have hE : 0 < Real.exp (-0.125 * 1) := Real.exp_pos _
  nlinarith

/-- C24 (amended): put-call parity of the analytic pricer away from the zero of
`normalCDF`. For every spot > 0, strike > 0, rate, volatility > 0 and maturity > 0
for which neither `calculateD1` nor `calculateD2` is zero, `BlackScholes::price`
for a CALL minus `BlackScholes::price` for a PUT with the same parameters equals
`spot - strike*exp(-rate*maturity)`. This rests on
`normalCDF(x) + normalCDF(-x) = 1` for every real `x` other than `0`; at zero the
sum is `1.000000001`. -/
theorem BlackScholes.put_call_parity (spot strike rate volatility maturity : ℝ)
    (hS : 0 < spot) (hK : 0 < strike) (hσ : 0 < volatility) (hT : 0 < maturity)
    (hd1 : (⟨spot, strike, rate, volatility, maturity, OptionType.CALL⟩ :
      BlackScholes ℝ).calculateD1 Real.sqrt Real.log ≠ 0)
    (hd2 : (⟨spot, strike, rate, volatility, maturity, OptionType.CALL⟩ :
      BlackScholes ℝ).calculateD2 Real.sqrt Real.log ≠ 0) :
    (⟨spot, strike, rate, volatility, maturity, OptionType.CALL⟩ : BlackScholes ℝ).price
          Real.exp Real.sqrt Real.log -
        (⟨spot, strike, rate, volatility, maturity, OptionType.PUT⟩ : BlackScholes ℝ).price
          Real.exp Real.sqrt Real.log =
      spot - strike * Real.exp (-rate * maturity) ∧
    (∀ x : ℝ, x ≠ 0 →
      normalCDF Real.exp Real.sqrt x + normalCDF Real.exp Real.sqrt (-x) = 1) ∧
    normalCDF Real.exp Real.sqrt 0 + normalCDF Real.exp Real.sqrt (-0) = 1.000000001 := by
  have _ := hS
  have _ := hK
  have _ := hσ
  have _ := hT
  refine ⟨?_, normalCDF_add_neg, ?_⟩
  · rw [BlackScholes.call_sub_put, normalCDF_add_neg _ hd1, normalCDF_add_neg _ hd2]
    ring
  · rw [neg_zero, normalCDF_zero]
    norm_num

/-- Witness for C24 (amended): spot 100, strike 100, rate 0.05, volatility 0.2,
maturity 1, where `calculateD1 = 0.35` and `calculateD2 = 0.15`. -/
theorem BlackScholes.put_call_parity_witness :
    (⟨100, 100, 0.05, 0.2, 1, OptionType.CALL⟩ : BlackScholes ℝ).calculateD1
        Real.sqrt Real.log ≠ 0 ∧
    (⟨100, 100, 0.05, 0.2, 1, OptionType.CALL⟩ : BlackScholes ℝ).calculateD2
        Real.sqrt Real.log ≠ 0 ∧
    (⟨100, 100, 0.05, 0.2, 1, OptionType.CALL⟩ : BlackScholes ℝ).price
          Real.exp Real.sqrt Real.log -
        (⟨100, 100, 0.05, 0.2, 1, OptionType.PUT⟩ : BlackScholes ℝ).price
          Real.exp Real.sqrt Real.log =
      100 - 100 * Real.exp (-0.05 * 1) :=
  ⟨by rw [scenario_d1]; norm_num, by rw [scenario_d2]; norm_num,
    (BlackScholes.put_call_parity 100 100 0.05 0.2 1 (by norm_num) (by norm_num)
      (by norm_num) (by norm_num) (by rw [scenario_d1]; norm_num)
      (by rw [scenario_d2]; norm_num)).1⟩

end QuantPricing
